import Mathlib

/-!
# jira-worklogger: duration, entry and timestamp logic

A shallow embedding of `time.go`, of `PostWorklog` from `jira.go` and of the part
of `main` in `main.go` that posts the parsed entries.

Conventions of the embedding
* A Go `string` is a list of Unicode code points (`Str`); inputs are taken to
  be valid UTF-8, on which the byte-level library functions used by the
  program (`Split`, `TrimSpace`, `ToLower`, `Fields`, regular expressions,
  `strconv`) agree with their code-point-level reading.
* Go `int` is the 64-bit signed integer: results of `+` and `*` are wrapped
  with `wrap64`.
* `float64` is modelled exactly: a finite value is `±m·2^e`, and every
  operation rounds the exact rational result to nearest, ties to even.
* What the program does not determine (the Unicode case table outside ASCII,
  the result of converting an out-of-range float to `int`, the clock and the
  time-zone database, the network) is a field of `Runtime`, `Clock` or `Http`;
  theorems hold for every such value.
* Calls to the logger only print and are left out.
-/

set_option autoImplicit false

namespace JiraWorklogger

/-- A Go string, as its sequence of code points. -/
abbrev Str := List Char

/-! ## float64 -/

/-- An IEEE-754 binary64 value; `fin neg m e` is `(-1)^neg · m · 2^e`. -/
inductive F64 where
  | nan : F64
  | inf (neg : Bool) : F64
  | fin (neg : Bool) (m : Nat) (e : Int) : F64
  deriving DecidableEq, Repr

/-- Round `num/den` to the nearest integer, ties to even. -/
def roundHalfEven (num den : Nat) : Nat :=
  let q := num / den
  let r := num % den
  if 2 * r < den then q
  else if den < 2 * r then q + 1
  else if q % 2 = 0 then q else q + 1

/-- Loop of `bitLength`, bounded by `fuel` steps. -/
def bitLengthLoop : Nat → Nat → Nat
  | 0, _ => 0
  | fuel + 1, n => if n = 0 then 0 else bitLengthLoop fuel (n / 2) + 1

/-- Number of binary digits of `n`: the least `k` with `n < 2^k`. -/
def bitLength (n : Nat) : Nat := bitLengthLoop n n

/-- The largest `k` with `2^k ≤ num/den`, for positive `num` and `den`. -/
def floorLog2Quot (num den : Nat) : Int :=
  let g : Int := (bitLength num : Int) - (bitLength den : Int)
  if (if 0 ≤ g then den * 2 ^ g.toNat ≤ num else den ≤ num * 2 ^ (-g).toNat) then g else g - 1

/-- The binary64 value nearest to `±num/den` (ties to even, gradual underflow,
overflow to infinity). -/
def roundToF64 (neg : Bool) (num den : Nat) : F64 :=
  if num = 0 ∨ den = 0 then F64.fin neg 0 0
  else
    let e : Int := max (floorLog2Quot num den - 52) (-1074)
    let m : Nat :=
      if 0 ≤ e then roundHalfEven num (den * 2 ^ e.toNat)
      else roundHalfEven (num * 2 ^ (-e).toNat) den
    if 0 ≤ e ∧ 2 ^ 1024 ≤ m * 2 ^ e.toNat then F64.inf neg else F64.fin neg m e

/-- The float64 product `x * y`. -/
def F64.mul : F64 → F64 → F64
  | F64.nan, _ => F64.nan
  | _, F64.nan => F64.nan
  | F64.inf a, F64.inf b => F64.inf (xor a b)
  | F64.inf a, F64.fin b m _ => if m = 0 then F64.nan else F64.inf (xor a b)
  | F64.fin a m _, F64.inf b => if m = 0 then F64.nan else F64.inf (xor a b)
  | F64.fin a m e, F64.fin b n f =>
    let s : Int := e + f
    if 0 ≤ s then roundToF64 (xor a b) (m * n * 2 ^ s.toNat) 1
    else roundToF64 (xor a b) (m * n) (2 ^ (-s).toNat)

/-- The float64 constant `3600`. -/
def f3600 : F64 := F64.fin false 3600 0

/-- What the program leaves to its platform. -/
structure Runtime where
  /-- The function unicode.ToLower on code points from U+0080 on. -/
  unicodeLower : Char → Char
  /-- The implementation-dependent result of converting to int a float64 that
  is NaN, infinite or outside the int range (reduced to 64 bits by the model). -/
  floatToIntOverflow : F64 → Int

/-- Reduce an integer to the 64-bit two's-complement range. -/
def wrap64 (x : Int) : Int := (x + 2 ^ 63) % 2 ^ 64 - 2 ^ 63

/-- Integer part of a finite float, rounding toward zero. -/
def F64.truncate (neg : Bool) (m : Nat) (e : Int) : Int :=
  let t : Nat := if 0 ≤ e then m * 2 ^ e.toNat else m / 2 ^ (-e).toNat
  if neg then -(t : Int) else (t : Int)

/-- The integer part of a float64 when it is finite and fits the 64-bit int. -/
def F64.exactInt : F64 → Option Int
  | F64.fin neg m e =>
    let v := F64.truncate neg m e
    if -(2 ^ 63) ≤ v ∧ v < 2 ^ 63 then some v else none
  | _ => none

/-- The Go conversion `int(x)` of a float64: truncation toward zero, and the
platform's choice when the value does not fit. -/
def floatToInt (rt : Runtime) (x : F64) : Int :=
  match x.exactInt with
  | some v => v
  | none => wrap64 (rt.floatToIntOverflow x)

/-! ## strings, unicode, strconv (Go standard library) -/

/-- The predicate unicode.IsSpace. -/
def isSpace (c : Char) : Bool :=
  let n := c.toNat
  n = 0x09 ∨ n = 0x0A ∨ n = 0x0B ∨ n = 0x0C ∨ n = 0x0D ∨ n = 0x20 ∨ n = 0x85 ∨ n = 0xA0 ∨
  n = 0x1680 ∨ (0x2000 ≤ n ∧ n ≤ 0x200A) ∨ n = 0x2028 ∨ n = 0x2029 ∨ n = 0x202F ∨
  n = 0x205F ∨ n = 0x3000

/-- The function strings.TrimSpace. -/
def TrimSpace (s : Str) : Str := (s.dropWhile isSpace).rdropWhile isSpace

/-- The function unicode.ToLower: ASCII letters by offset, the rest by the Unicode table. -/
def toLowerRune (rt : Runtime) (c : Char) : Char :=
  if c.toNat < 128 then
    (if 65 ≤ c.toNat ∧ c.toNat ≤ 90 then Char.ofNat (c.toNat + 32) else c)
  else rt.unicodeLower c

/-- The function strings.ToLower. -/
def ToLower (rt : Runtime) (s : Str) : Str := s.map (toLowerRune rt)

/-- The function strings.Split for a separator of one character. -/
def Split (sep : Char) : Str → List Str
  | [] => [[]]
  | c :: cs =>
    if c = sep then [] :: Split sep cs
    else match Split sep cs with
      | [] => [[c]]
      | w :: ws => (c :: w) :: ws

/-- The function strings.SplitN with a one-character separator and n = 2. -/
def SplitN2 (sep : Char) (s : Str) : List Str :=
  if sep ∈ s then [s.takeWhile (fun c => c ≠ sep), (s.dropWhile (fun c => c ≠ sep)).tail]
  else [s]

/-- Loop of strings.Fields: `cur` is the field being read, reversed. -/
def fieldsLoop : Str → Str → List Str
  | cur, [] => if cur = [] then [] else [cur.reverse]
  | cur, c :: cs =>
    if isSpace c then (if cur = [] then fieldsLoop [] cs else cur.reverse :: fieldsLoop [] cs)
    else fieldsLoop (c :: cur) cs

/-- The function strings.Fields. -/
def Fields (s : Str) : List Str := fieldsLoop [] s

/-- The function strings.TrimSuffix. -/
def TrimSuffix (s suffix : Str) : Str :=
  if suffix.isSuffixOf s then s.take (s.length - suffix.length) else s

/-- A decimal digit, the class `\d` of the regular expressions and of strconv. -/
def isDigit (c : Char) : Bool := 48 ≤ c.toNat ∧ c.toNat ≤ 57

/-- Value of a decimal digit. -/
def digitVal (c : Char) : Nat := c.toNat - 48

/-- A hexadecimal letter in either case. -/
def isHexLetter (c : Char) : Bool :=
  (97 ≤ c.toNat ∧ c.toNat ≤ 102) ∨ (65 ≤ c.toNat ∧ c.toNat ≤ 70)

/-- Value of a hexadecimal letter. -/
def hexLetterVal (c : Char) : Nat := if 97 ≤ c.toNat then c.toNat - 87 else c.toNat - 55

/-- Whether `c` is the lower-case ASCII letter `l` or its upper-case form. -/
def isLetterCI (l c : Char) : Bool := c = l ∨ c.toNat + 32 = l.toNat

/-- Errors of strconv: malformed text, or a value out of range. -/
inductive NumError where
  | invalid : NumError
  | range : NumError
  deriving DecidableEq, Repr

/-- Number of leading characters of `s` that equal, ignoring ASCII case, those of `p`. -/
def commonLenIgnoreCase : Str → Str → Nat
  | c :: cs, p :: ps => if isLetterCI p c then commonLenIgnoreCase cs ps + 1 else 0
  | _, _ => 0

/-- The signed infinity of strconv.special: `"inf"` or `"infinity"`, with the length read. -/
def specialInf (neg : Bool) (nsign : Nat) (s : Str) : Option (F64 × Nat) :=
  let n := commonLenIgnoreCase s "infinity".toList
  let n := if 3 < n ∧ n < 8 then 3 else n
  if n = 3 ∨ n = 8 then some (F64.inf neg, nsign + n) else none

/-- The function strconv.special: infinities and NaN, with the length read. -/
def special : Str → Option (F64 × Nat)
  | [] => none
  | c :: cs =>
    if c = '+' ∨ c = '-' then specialInf (c = '-') 1 cs
    else if c = 'i' ∨ c = 'I' then specialInf false 0 (c :: cs)
    else if c = 'n' ∨ c = 'N' then
      (if commonLenIgnoreCase (c :: cs) "nan".toList = 3 then some (F64.nan, 3) else none)
    else none

/-- State of the digit loop of strconv.readFloat; `mant` holds every digit read
and `nfrac` counts the digits after the point. -/
structure Digits where
  mant : Nat
  nfrac : Nat
  sawdot : Bool
  sawdigits : Bool
  underscores : Bool
  deriving DecidableEq, Repr

/-- Digit loop of strconv.readFloat; returns the state and the unread text. -/
def readDigits (hex : Bool) : Str → Digits → Digits × Str
  | [], st => (st, [])
  | c :: cs, st =>
    if c = '_' then readDigits hex cs { st with underscores := true }
    else if c = '.' then
      (if st.sawdot then (st, c :: cs) else readDigits hex cs { st with sawdot := true })
    else if isDigit c then
      readDigits hex cs { st with
        sawdigits := true
        mant := st.mant * (if hex then 16 else 10) + digitVal c
        nfrac := if st.sawdot then st.nfrac + 1 else st.nfrac }
    else if hex ∧ isHexLetter c then
      readDigits hex cs { st with
        sawdigits := true
        mant := st.mant * 16 + hexLetterVal c
        nfrac := if st.sawdot then st.nfrac + 1 else st.nfrac }
    else (st, c :: cs)

/-- Exponent digit loop of strconv.readFloat: the exponent stops growing at 10000. -/
def readExpDigits : Str → Nat → Bool → Nat × Bool × Str
  | [], e, us => (e, us, [])
  | c :: cs, e, us =>
    if c = '_' then readExpDigits cs e true
    else if isDigit c then readExpDigits cs (if e < 10000 then e * 10 + digitVal c else e) us
    else (e, us, c :: cs)

/-- The function strconv.underscoreOK, after the optional sign: `saw` is the
last kind of character seen, `'0'` for a digit. -/
def underscoreLoop (hex : Bool) : Str → Char → Bool
  | [], saw => saw ≠ '_'
  | c :: cs, saw =>
    if isDigit c ∨ (hex ∧ isHexLetter c) then underscoreLoop hex cs '0'
    else if c = '_' then (if saw ≠ '0' then false else underscoreLoop hex cs '_')
    else if saw = '_' then false
    else underscoreLoop hex cs '!'

/-- The function strconv.underscoreOK. -/
def underscoreOK (s : Str) : Bool :=
  let s := match s with
    | c :: cs => if c = '-' ∨ c = '+' then cs else c :: cs
    | [] => []
  match s with
  | '0' :: c :: cs =>
    if isLetterCI 'b' c ∨ isLetterCI 'o' c ∨ isLetterCI 'x' c then
      underscoreLoop (isLetterCI 'x' c) cs '0'
    else underscoreLoop false s '^'
  | _ => underscoreLoop false s '^'

/-- What strconv.readFloat reads: sign, all digits as a number, a base flag and
the exponent `ex` of the result `±mant·10^ex` (`±mant·2^ex` when `hex`). -/
structure FloatLit where
  neg : Bool
  mant : Nat
  hex : Bool
  ex : Int
  deriving DecidableEq, Repr

/-- The function strconv.readFloat, with the unread text; `none` when malformed. -/
def readFloat (s : Str) : Option (FloatLit × Str) :=
  match s with
  | [] => none
  | c0 :: _ =>
    let neg : Bool := c0 = '-'
    let s1 := if c0 = '+' ∨ c0 = '-' then s.tail else s
    let hex : Bool := match s1 with
      | '0' :: x :: _ :: _ => isLetterCI 'x' x
      | _ => false
    let s2 := if hex then s1.drop 2 else s1
    let (d, s3) := readDigits hex s2 ⟨0, 0, false, false, false⟩
    if ¬ d.sawdigits then none
    else
      let dp : Int := if hex then -(4 * (d.nfrac : Int)) else -(d.nfrac : Int)
      let fin (ex : Int) (us : Bool) (rest : Str) : Option (FloatLit × Str) :=
        if us ∧ ¬ underscoreOK (s.take (s.length - rest.length)) then none
        else some (⟨neg, d.mant, hex, ex⟩, rest)
      match s3 with
      | c :: s4 =>
        if isLetterCI (if hex then 'p' else 'e') c then
          match s4 with
          | [] => none
          | c1 :: s5 =>
            let esign : Int := if c1 = '-' then -1 else 1
            let s6 := if c1 = '+' ∨ c1 = '-' then s5 else c1 :: s5
            match s6 with
            | [] => none
            | c2 :: _ =>
              if ¬ isDigit c2 then none
              else
                let (e, us, rest) := readExpDigits s6 0 d.underscores
                fin (dp + (e : Int) * esign) us rest
        else if hex then none
        else fin dp d.underscores s3
      | [] => if hex then none else fin dp d.underscores s3

/-- The float64 nearest to a literal read by readFloat. -/
def FloatLit.toF64 (l : FloatLit) : F64 :=
  let b : Nat := if l.hex then 2 else 10
  if 0 ≤ l.ex then roundToF64 l.neg (l.mant * b ^ l.ex.toNat) 1
  else roundToF64 l.neg l.mant (b ^ (-l.ex).toNat)

/-- The function strconv.ParseFloat at bit size 64: the value and the error.
A malformed text gives 0, an overflow gives the infinity with a range error. -/
def ParseFloat (s : Str) : F64 × Option NumError :=
  match special s with
  | some (v, n) => if n = s.length then (v, none) else (F64.fin false 0 0, some NumError.invalid)
  | none =>
    match readFloat s with
    | some (l, []) =>
      (match l.toF64 with
       | F64.inf neg => (F64.inf neg, some NumError.range)
       | v => (v, none))
    | _ => (F64.fin false 0 0, some NumError.invalid)

/-- Value of a string of decimal digits. -/
def digitsVal (s : Str) : Nat := s.foldl (fun acc c => acc * 10 + digitVal c) 0

/-- The function strconv.Atoi for the 64-bit int: the value and the error.
A malformed text gives 0, an overflow gives the nearest bound with a range error. -/
def Atoi (s : Str) : Int × Option NumError :=
  let neg : Bool := match s with
    | c :: _ => c = '-'
    | [] => false
  let ds := match s with
    | c :: cs => if c = '+' ∨ c = '-' then cs else c :: cs
    | [] => []
  if ds = [] ∨ ¬ ds.all isDigit then (0, some NumError.invalid)
  else
    let v := digitsVal ds
    if neg then (if 2 ^ 63 < v then (-(2 ^ 63), some NumError.range) else (-(v : Int), none))
    else (if 2 ^ 63 ≤ v then (2 ^ 63 - 1, some NumError.range) else ((v : Int), none))

/-! ## time.go: ToTimeSpentSeconds -/

/-- The class `\s` of Go regular expressions: tab, newline, form feed, carriage return, space. -/
def isReSpace (c : Char) : Bool :=
  c.toNat = 0x09 ∨ c.toNat = 0x0A ∨ c.toNat = 0x0C ∨ c.toNat = 0x0D ∨ c.toNat = 0x20

/-- Match `(\d+(\.\d+)?)` at the start of `s`: the text of the group and the rest. -/
def matchNumber (s : Str) : Option (Str × Str) :=
  let ip := s.takeWhile isDigit
  let r := s.dropWhile isDigit
  if ip = [] then none
  else match r with
    | '.' :: r1 =>
      let fp := r1.takeWhile isDigit
      if fp = [] then some (ip, r) else some (ip ++ '.' :: fp, r1.dropWhile isDigit)
    | _ => some (ip, r)

/-- Match `(\d+)` at the start of `s`: the text of the group and the rest. -/
def matchInt (s : Str) : Option (Str × Str) :=
  let ip := s.takeWhile isDigit
  if ip = [] then none else some (ip, s.dropWhile isDigit)

/-- The regular expression `^(\d+(\.\d+)?)\s*h\s*(\d+)\s*m$`: groups 1 and 3 of a match. -/
def hoursAndMinutes (s : Str) : Option (Str × Str) :=
  match matchNumber s with
  | none => none
  | some (g1, r) =>
    match r.dropWhile isReSpace with
    | 'h' :: r1 =>
      (match matchInt (r1.dropWhile isReSpace) with
       | none => none
       | some (g3, r2) => if r2.dropWhile isReSpace = ['m'] then some (g1, g3) else none)
    | _ => none

/-- The regular expression `^(\d+(\.\d+)?)\s*h$`: group 1 of a match. -/
def hours (s : Str) : Option Str :=
  match matchNumber s with
  | none => none
  | some (g1, r) => if r.dropWhile isReSpace = ['h'] then some g1 else none

/-- The regular expression `^(\d+)\s*m$`: group 1 of a match. -/
def minutes (s : Str) : Option Str :=
  match matchInt s with
  | none => none
  | some (g1, r) => if r.dropWhile isReSpace = ['m'] then some g1 else none

/-- The regular expression `^(\d+):(\d+)$`: groups 1 and 2 of a match. -/
def hoursMinutes (s : Str) : Option (Str × Str) :=
  match matchInt s with
  | none => none
  | some (g1, r) =>
    match r with
    | ':' :: r1 =>
      (match matchInt r1 with
       | some (g2, []) => some (g1, g2)
       | _ => none)
    | _ => none

/-- ToTimeSpentSeconds converts a time string to seconds: the value and the error. -/
def ToTimeSpentSeconds (rt : Runtime) (timeStr : Str) : Int × Option Str :=
  let timeStr := TrimSpace (ToLower rt timeStr)
  if timeStr = [] then (0, none)
  else
    match hoursAndMinutes timeStr with
    | some (g1, g3) =>
      let h := (ParseFloat g1).1
      let mins := (Atoi g3).1
      (wrap64 (floatToInt rt (h.mul f3600) + wrap64 (mins * 60)), none)
    | none =>
      match hours timeStr with
      | some g1 => (floatToInt rt ((ParseFloat g1).1.mul f3600), none)
      | none =>
        match minutes timeStr with
        | some g1 => (wrap64 ((Atoi g1).1 * 60), none)
        | none =>
          match hoursMinutes timeStr with
          | some (g1, g2) =>
            (wrap64 (wrap64 ((Atoi g1).1 * 3600) + wrap64 ((Atoi g2).1 * 60)), none)
          | none =>
            match ParseFloat timeStr with
            | (hoursFloat, none) => (floatToInt rt (hoursFloat.mul f3600), none)
            | (_, some _) => (0, some ("unable to parse time: ".toList ++ timeStr))

/-! ## time.go: ParseTimeEntries -/

/-- TimeEntry represents a parsed time entry. -/
structure TimeEntry where
  Issue : Str
  Seconds : Int
  deriving DecidableEq, Repr

/-- A Go `map[string]string`, by its lookup. -/
abbrev AliasMap := Str → Option Str

/-- The map holding the given key/value pairs. -/
def mapOf (kvs : List (String × String)) : AliasMap :=
  fun k => (kvs.find? (fun kv => kv.1.toList = k)).map (fun kv => kv.2.toList)

/-- First loop of ParseTimeEntries: split on newlines, then on semicolons, trim,
keep the non-empty parts. -/
def splitItems (entriesStr : Str) : List Str :=
  (Split (Char.ofNat 10) entriesStr).flatMap fun line =>
    ((Split ';' line).map TrimSpace).filter (fun part => part ≠ [])

/-- The issue and time value of an item (the if/else-if chain of the second
loop); `none` is its `continue` branch. -/
def extractParts (item : Str) : Option (Str × Str) :=
  match SplitN2 '=' item with
  | [a, b] => some (TrimSpace a, TrimSpace b)
  | _ =>
    match Fields item with
    | a :: b :: _ => some (a, b)
    | [a] => some (a, ['0'])
    | [] => none

/-- Second loop of ParseTimeEntries over the remaining items, with the entries
collected so far: the returned slice (`none` is nil) and the error. -/
def parseItems (rt : Runtime) (aliases : AliasMap) :
    List Str → List TimeEntry → Option (List TimeEntry) × Option Str
  | [], entries => (some entries, none)
  | item :: rest, entries =>
    match extractParts item with
    | none => parseItems rt aliases rest entries
    | some (issue0, timeValue) =>
      let issue1 := TrimSuffix issue0 [':']
      let issue := match aliases (ToLower rt issue1) with
        | some aliasValue => aliasValue
        | none => issue1
      match ToTimeSpentSeconds rt timeValue with
      | (_, some err) =>
        (none, some ("failed to parse time for entry ".toList ++ item ++ ": ".toList ++ err))
      | (seconds, none) =>
        if issue ≠ [] ∧ 0 < seconds then
          parseItems rt aliases rest (entries ++ [⟨issue, seconds⟩])
        else parseItems rt aliases rest entries

/-- ParseTimeEntries parses a time entry string into issue keys and durations:
the returned slice (`none` is nil) and the error. -/
def ParseTimeEntries (rt : Runtime) (entriesStr : Str) (aliases : AliasMap) :
    Option (List TimeEntry) × Option Str :=
  if entriesStr = [] then (some [], none)
  else parseItems rt aliases (splitItems entriesStr) []

/-! ## config.go and jira.go: PostWorklog -/

/-- Settings represents the configuration for the application. -/
structure Settings where
  JiraBaseURL : Str
  JiraEmailOrUser : Str
  JiraAPIToken : Str
  Timezone : Str
  APIVersion : Str
  LogLevel : Str
  CategoryAliases : AliasMap

/-- WorklogResult represents the result of posting a worklog. -/
structure WorklogResult where
  Issue : Str
  Seconds : Int
  Success : Bool
  Code : Int
  Body : Str
  deriving DecidableEq, Repr

/-- A value of the worklog payload: a string or an int. -/
inductive PayloadValue where
  | str : Str → PayloadValue
  | int : Int → PayloadValue
  deriving DecidableEq, Repr

/-- BuildWorklogPayload builds a worklog payload for the Jira API: the same two
fields for API version 3 and for the others. -/
def BuildWorklogPayload (startedISO : Str) (seconds : Int) (apiVersion : Str) :
    List (Str × PayloadValue) :=
  if apiVersion = ['3'] then
    [("started".toList, PayloadValue.str startedISO),
     ("timeSpentSeconds".toList, PayloadValue.int seconds)]
  else
    [("started".toList, PayloadValue.str startedISO),
     ("timeSpentSeconds".toList, PayloadValue.int seconds)]

/-- An HTTP request as PostWorklog builds it. -/
structure Request where
  method : Str
  url : Str
  headers : List (Str × Str)
  body : Str
  deriving DecidableEq, Repr

/-- What sending a request gives: an error of the client, an error while reading
the response body, or a status code with the body. -/
inductive SendOutcome where
  | sendError : Str → SendOutcome
  | readError : Str → SendOutcome
  | response : Int → Str → SendOutcome
  deriving DecidableEq, Repr

/-- The libraries and the network behind PostWorklog: base64 and URL path
escaping, JSON encoding (the text or an error), the validation of the request by
http.NewRequest (an error or none), and the transport with its 30 second limit. -/
structure Http where
  base64 : Str → Str
  pathEscape : Str → Str
  marshal : List (Str × PayloadValue) → Except Str Str
  newRequest : Str → Str → Option Str
  send : Request → SendOutcome

/-- PostWorklog posts a worklog to a Jira issue: the result, and the requests
sent over the network. -/
def PostWorklog (net : Http) (settings : Settings) (issue : Str) (seconds : Int)
    (startedISO : Str) : WorklogResult × List Request :=
  let result : WorklogResult := ⟨issue, seconds, false, 0, []⟩
  if seconds ≤ 0 then
    ({ result with Success := true, Body := "Skipped zero seconds".toList }, [])
  else
    let auth := settings.JiraEmailOrUser ++ ":".toList ++ settings.JiraAPIToken
    let encodedAuth := net.base64 auth
    let baseURL := TrimSuffix settings.JiraBaseURL ['/']
    let issueURL := baseURL ++ "/rest/api/".toList ++ settings.APIVersion ++ "/issue/".toList ++
      net.pathEscape issue ++ "/worklog".toList
    let payload := BuildWorklogPayload startedISO seconds settings.APIVersion
    match net.marshal payload with
    | Except.error err =>
      ({ result with Body := "Failed to marshal payload: ".toList ++ err }, [])
    | Except.ok payloadBytes =>
      match net.newRequest "POST".toList issueURL with
      | some err => ({ result with Body := "Failed to create request: ".toList ++ err }, [])
      | none =>
        let req : Request :=
          { method := "POST".toList
            url := issueURL
            headers := [("Authorization".toList, "Basic ".toList ++ encodedAuth),
              ("Content-Type".toList, "application/json".toList),
              ("Accept".toList, "application/json".toList)]
            body := payloadBytes }
        match net.send req with
        | SendOutcome.sendError err =>
          ({ result with Body := "Failed to send request: ".toList ++ err }, [req])
        | SendOutcome.readError err =>
          ({ result with Body := "Failed to read response: ".toList ++ err }, [req])
        | SendOutcome.response code body =>
          ({ result with Code := code, Body := body, Success := code = 200 ∨ code = 201 }, [req])

/-! ## time.go: ISOStartForDate, with package time -/

/-- A time zone as Location.lookup reports it: the offset in seconds east of UTC,
in force for the instants (Unix seconds) from `start` up to `stop`. -/
structure Zone where
  offset : Int
  start : Int
  stop : Int
  deriving DecidableEq, Repr

/-- A time.Location, by its lookup: the zone in force at an instant. -/
abbrev Location := Int → Zone

/-- The location UTC. -/
def utcLoc : Location := fun _ => ⟨0, -(2 ^ 63), 2 ^ 63 - 1⟩

/-- The clock and the time-zone database of the machine: the local date of
time.Now(), time.LoadLocation (`none` is its error) and time.Local. -/
structure Clock where
  todayYear : Int
  todayMonth : Int
  todayDay : Int
  loadLocation : Str → Option Location
  localZone : Location

/-- A time.Time with no fraction of a second: the instant and the location. -/
structure Time where
  unix : Int
  loc : Location

/-- The function time.isLeap. -/
def isLeap (year : Int) : Bool := year % 4 = 0 ∧ (year % 100 ≠ 0 ∨ year % 400 = 0)

/-- The table time.daysBefore: days of a non-leap year before the month after
month `m` (0 for none, 31 after January, 365 after December). -/
def daysBefore (m : Int) : Int :=
  if m ≤ 0 then 0 else if m = 1 then 31 else if m = 2 then 59 else if m = 3 then 90
  else if m = 4 then 120 else if m = 5 then 151 else if m = 6 then 181
  else if m = 7 then 212 else if m = 8 then 243 else if m = 9 then 273
  else if m = 10 then 304 else if m = 11 then 334 else 365

/-- The function time.daysIn. -/
def daysIn (month year : Int) : Int :=
  if month = 2 ∧ isLeap year then 29 else daysBefore month - daysBefore (month - 1)

/-- Days from 0001-01-01 to the first of January of `year` (the function
time.daysSinceEpoch, counted from year 1). -/
def daysSinceEpoch (year : Int) : Int :=
  let y := year - 1
  365 * y + y / 4 - y / 100 + y / 400

/-- Days from 0001-01-01 to 1970-01-01. -/
def unixEpochDays : Int := 719162

/-- The instant of a civil date and time read in UTC, as time.Date computes it
before the zone adjustment (an hour or minute out of range carries over). -/
def civilToUnix (year month day hour min : Int) : Int :=
  let d := daysSinceEpoch year + daysBefore (month - 1) +
    (if isLeap year ∧ 3 ≤ month then 1 else 0) + (day - 1)
  (d - unixEpochDays) * 86400 + (hour * 3600 + min * 60)

/-- The function time.Date with zero seconds, for a month from 1 to 12 and an hour
and a minute of the day, where its 64-bit arithmetic does not wrap. -/
def Date (year month day hour min : Int) (loc : Location) : Time :=
  let unix := civilToUnix year month day hour min
  let z := loc unix
  if z.offset ≠ 0 then
    let utc := unix - z.offset
    let offset := if utc < z.start ∨ z.stop ≤ utc then (loc utc).offset else z.offset
    ⟨unix - offset, loc⟩
  else ⟨unix, loc⟩

/-- First part of time.absDate, on a number of days since 0001-01-01: the year
and the day of the year, from 0. -/
def absYearDay (days : Int) : Int × Int :=
  let n400 := days / 146097
  let d := days % 146097
  let n100 := d / 36524 - d / 36524 / 4
  let d1 := d - 36524 * n100
  let n4 := d1 / 1461
  let d2 := d1 - 1461 * n4
  let n1 := d2 / 365 - d2 / 365 / 4
  (400 * n400 + 100 * n100 + 4 * n4 + n1 + 1, d2 - 365 * n1)

/-- The function time.absDate on a number of days since 0001-01-01: year, month
and day of the month. -/
def absDate (days : Int) : Int × Int × Int :=
  let year := (absYearDay days).1
  let yday := (absYearDay days).2
  if isLeap year ∧ yday = 59 then (year, 2, 29)
  else
    let day := if isLeap year ∧ 59 < yday then yday - 1 else yday
    let month := day / 31
    let stop := daysBefore (month + 1)
    if stop ≤ day then (year, month + 2, day - stop + 1)
    else (year, month + 1, day - daysBefore month + 1)

/-- Seconds from 0001-01-01 00:00 to the wall clock of `t` in its location. -/
def Time.abs (t : Time) : Int := t.unix + (t.loc t.unix).offset + unixEpochDays * 86400

/-- The method Time.Year. -/
def Time.Year (t : Time) : Int := (absDate (t.abs / 86400)).1

/-- The method Time.Month. -/
def Time.Month (t : Time) : Int := (absDate (t.abs / 86400)).2.1

/-- The method Time.Day. -/
def Time.Day (t : Time) : Int := (absDate (t.abs / 86400)).2.2

/-- The method Time.Hour. -/
def Time.Hour (t : Time) : Int := t.abs % 86400 / 3600

/-- The method Time.Minute. -/
def Time.Minute (t : Time) : Int := t.abs % 3600 / 60

/-- The method Time.Second. -/
def Time.Second (t : Time) : Int := t.abs % 60

/-- The character of a decimal digit. -/
def digitChar (d : Nat) : Char := Char.ofNat (48 + d)

/-- Loop writing the decimal digits of `n`, bounded by `fuel` digits. -/
def natDigitsLoop : Nat → Nat → Str
  | 0, _ => []
  | fuel + 1, n => if n < 10 then [digitChar n] else natDigitsLoop fuel (n / 10) ++ [digitChar (n % 10)]

/-- The decimal digits of `n`. -/
def natDigits (n : Nat) : Str := natDigitsLoop (n + 1) n

/-- The function time.appendInt: a minus sign for a negative number, then its
digits with zeros in front up to `width` digits. -/
def appendInt (x : Int) (width : Nat) : Str :=
  (if x < 0 then ['-'] else []) ++
    List.replicate (width - (natDigits x.natAbs).length) '0' ++ natDigits x.natAbs

/-- The verb `%0wd` of fmt.Sprintf: zeros in front up to `width` characters, the
minus sign of a negative number included. -/
def sprintfZero (x : Int) (width : Nat) : Str :=
  if x < 0 then
    '-' :: (List.replicate (width - 1 - (natDigits x.natAbs).length) '0' ++ natDigits x.natAbs)
  else List.replicate (width - (natDigits x.natAbs).length) '0' ++ natDigits x.natAbs

/-- The zone of the layout element `-0700`: sign, hours and minutes of the offset. -/
def formatZone (offset : Int) : Str :=
  let zone : Int := if offset < 0 then -((-offset) / 60) else offset / 60
  let sign : Char := if zone < 0 then '-' else '+'
  let zabs : Int := if zone < 0 then -zone else zone
  sign :: (appendInt (zabs / 60) 2 ++ appendInt (zabs % 60) 2)

/-- The method Time.Format for the layout `2006-01-02T15:04:05.000-0700`. -/
def Time.Format (t : Time) : Str :=
  appendInt t.Year 4 ++ '-' :: appendInt t.Month 2 ++ '-' :: appendInt t.Day 2 ++
    'T' :: appendInt t.Hour 2 ++ ':' :: appendInt t.Minute 2 ++ ':' :: appendInt t.Second 2 ++
    ".000".toList ++ formatZone (t.loc t.unix).offset

/-- Errors of time.Parse for the layout `2006-01-02`. -/
inductive DateError where
  | bad : DateError
  | monthOutOfRange : DateError
  | dayOutOfRange : DateError
  | extraText : DateError
  deriving DecidableEq, Repr

/-- The function time.getnum with `fixed` set: exactly two digits. -/
def getnum (s : Str) : Option (Int × Str) :=
  match s with
  | a :: b :: rest =>
    if isDigit a ∧ isDigit b then some (((digitVal a * 10 + digitVal b : Nat) : Int), rest)
    else none
  | _ => none

/-- The function time.Parse for the layout `2006-01-02`: the time at midnight UTC,
or the error. -/
def timeParse (value : Str) : Except DateError Time :=
  match value with
  | y1 :: y2 :: y3 :: y4 :: v1 =>
    if ¬ (isDigit y1 ∧ isDigit y2 ∧ isDigit y3 ∧ isDigit y4) then Except.error DateError.bad
    else
      let year : Int := (digitsVal [y1, y2, y3, y4] : Nat)
      match v1 with
      | '-' :: v2 =>
        match getnum v2 with
        | none => Except.error DateError.bad
        | some (month, v3) =>
          if month ≤ 0 ∨ 12 < month then Except.error DateError.monthOutOfRange
          else
            match v3 with
            | '-' :: v4 =>
              match getnum v4 with
              | none => Except.error DateError.bad
              | some (day, v5) =>
                if v5 ≠ [] then Except.error DateError.extraText
                else if day < 1 ∨ daysIn month year < day then
                  Except.error DateError.dayOutOfRange
                else Except.ok (Date year month day 0 0 utcLoc)
            | _ => Except.error DateError.bad
      | _ => Except.error DateError.bad
  | _ => Except.error DateError.bad

/-- DefaultDateStr returns the current date in YYYY-MM-DD format. -/
def DefaultDateStr (clk : Clock) : Str :=
  sprintfZero clk.todayYear 4 ++ '-' :: sprintfZero clk.todayMonth 2 ++
    '-' :: sprintfZero clk.todayDay 2

/-- ParseDate parses a YYYY-MM-DD formatted date string. -/
def ParseDate (clk : Clock) (dateStr : Str) : Except DateError Time :=
  timeParse (if dateStr = [] then DefaultDateStr clk else dateStr)

/-- ISOStartForDate creates an ISO8601 timestamp for the given date with the
specified hour and minute: the string and the error. -/
def ISOStartForDate (clk : Clock) (dateStr : Str) (hour minute : Int) (timezone : Str) :
    Str × Option DateError :=
  match ParseDate clk dateStr with
  | Except.error err => ([], some err)
  | Except.ok date =>
    let loc := match clk.loadLocation timezone with
      | some l => l
      | none => clk.localZone
    let date := Date date.Year date.Month date.Day hour minute loc
    (date.Format, none)

/-! ## main.go: posting the worklogs -/

/-- What a run of main leaves behind: the exit code of the process, the two lists
of results it reports, and the requests sent over the network. -/
structure RunResult where
  exitCode : Int
  successes : List WorklogResult
  failures : List WorklogResult
  requests : List Request
  deriving DecidableEq, Repr

/-- The loop of main over the entries, from the successes, the failures and the
requests so far. -/
def postWorklogs (net : Http) (settings : Settings) (startedISO : Str) :
    List TimeEntry → List WorklogResult → List WorklogResult → List Request →
    List WorklogResult × List WorklogResult × List Request
  | [], successes, failures, sent => (successes, failures, sent)
  | entry :: rest, successes, failures, sent =>
    let result := PostWorklog net settings entry.Issue entry.Seconds startedISO
    if result.1.Success then
      postWorklogs net settings startedISO rest (successes ++ [result.1]) failures
        (sent ++ result.2)
    else
      postWorklogs net settings startedISO rest successes (failures ++ [result.1])
        (sent ++ result.2)

/-- The function main from the point where the settings and the user input (the
date and the entries) are known: the timestamp, the entries, the loop that posts
them and the exit code. The lines it logs are left out. -/
def main (rt : Runtime) (clk : Clock) (net : Http) (settings : Settings)
    (date entries : Str) : RunResult :=
  let dateStr := if date = [] then DefaultDateStr clk else date
  match ISOStartForDate clk dateStr 17 0 settings.Timezone with
  | (_, some _) => ⟨1, [], [], []⟩
  | (startedISO, none) =>
    match ParseTimeEntries rt entries settings.CategoryAliases with
    | (_, some _) => ⟨1, [], [], []⟩
    | (parsed, none) =>
      let entries := parsed.getD []
      if entries.length = 0 then ⟨0, [], [], []⟩
      else
        let posted := postWorklogs net settings startedISO entries [] [] []
        if posted.2.1.length > 0 then ⟨1, posted.1, posted.2.1, posted.2.2⟩
        else ⟨0, posted.1, posted.2.1, posted.2.2⟩

/-! ## Auxiliary notions used in the statements -/

/-- A printable ASCII character other than the space and the upper-case letters:
lower-casing and trimming leave a string of such characters unchanged. -/
def isPlain (c : Char) : Bool :=
  (33 ≤ c.toNat ∧ c.toNat < 65) ∨ (90 < c.toNat ∧ c.toNat < 127)

/-- A runtime for evaluating examples: lower-casing leaves the code points from
U+0080 on unchanged, and a float64 that does not fit the int converts to the
least int (the result on amd64). The examples use ASCII text only. -/
def exampleRuntime : Runtime := ⟨id, fun _ => -(2 ^ 63)⟩

/-- Append `x` to the last string of a list of strings. -/
def joinLast : List Str → Str → List Str
  | [], x => [x]
  | [w], x => [w ++ x]
  | w :: ws, x => w :: joinLast ws x

/-- The alias map of the examples: meetings is PROJ-1, support is PROJ-2. -/
def exampleAliases : AliasMap := mapOf [("meetings", "PROJ-1"), ("support", "PROJ-2")]

/-- An alias map whose value for one key is itself a key: a is b, b is c. -/
def chainAliases : AliasMap := mapOf [("a", "b"), ("b", "c")]

/-- The rational value of a finite float64 (0 for NaN and the infinities). -/
def F64.toRat : F64 → ℚ
  | F64.fin neg m e => (if neg then -1 else 1) * (m : ℚ) * (2 : ℚ) ^ e
  | _ => 0

/-- Truncation of a rational toward zero. -/
def truncQ (q : ℚ) : Int := if q < 0 then ⌈q⌉ else ⌊q⌋

/-- The text of a plain unsigned decimal number: the digits of the integer part
and, when there is a fraction, a point and its digits. -/
def decimalText (ip fp : Str) : Str := if fp = [] then ip else ip ++ '.' :: fp

/-- The characters that can occur in a text accepted by strconv.ParseFloat:
digits, hexadecimal letters, point, underscore, signs, and the letters of the
base mark `x`, the exponent marks `e` and `p`, and of `inf`, `infinity`, `nan`. -/
def isFloatChar (c : Char) : Bool :=
  isDigit c || isHexLetter c || "._+-xXpPiInNtTyY".toList.contains c

/-- A network that answers every request with status 201 and an empty body. -/
def exampleHttp : Http :=
  { base64 := id
    pathEscape := id
    marshal := fun _ => Except.ok []
    newRequest := fun _ _ => none
    send := fun _ => SendOutcome.response 201 [] }

/-- Settings for the examples. -/
def exampleSettings : Settings :=
  { JiraBaseURL := "https://jira.example.com/".toList
    JiraEmailOrUser := "user@example.com".toList
    JiraAPIToken := "token".toList
    Timezone := "Europe/London".toList
    APIVersion := "3".toList
    LogLevel := "info".toList
    CategoryAliases := exampleAliases }

/-- The zones of Europe/London around 2024: British Summer Time from
2024-03-31 01:00 UTC (1711846800) to 2024-10-27 01:00 UTC (1729990800), Greenwich
Mean Time before, back to 2023-10-29 01:00 UTC (1698541200), and after, up to
2025-03-30 01:00 UTC (1743296400). -/
def london2024 : Location := fun t =>
  if t < 1711846800 then ⟨0, 1698541200, 1711846800⟩
  else if t < 1729990800 then ⟨3600, 1711846800, 1729990800⟩
  else ⟨0, 1729990800, 1743296400⟩

/-- A machine on 2024-03-01 whose database knows Europe/London only and whose
local zone is UTC. -/
def exampleClock : Clock :=
  { todayYear := 2024
    todayMonth := 3
    todayDay := 1
    loadLocation := fun name => if name = "Europe/London".toList then some london2024 else none
    localZone := utcLoc }

/-- Length of a month of the Gregorian calendar: February has 29 days in the
years divisible by 4 and not by 100, or divisible by 400. -/
def monthLength (year month : Nat) : Nat :=
  if month = 2 then
    (if year % 4 = 0 ∧ (year % 100 ≠ 0 ∨ year % 400 = 0) then 29 else 28)
  else if month = 4 ∨ month = 6 ∨ month = 9 ∨ month = 11 then 30
  else 31

/-- The year written in a YYYY-MM-DD string. -/
def dateYear (s : Str) : Nat := digitsVal (s.take 4)

/-- The month written in a YYYY-MM-DD string. -/
def dateMonth (s : Str) : Nat := digitsVal ((s.drop 5).take 2)

/-- The day written in a YYYY-MM-DD string. -/
def dateDay (s : Str) : Nat := digitsVal ((s.drop 8).take 2)

/-- A valid YYYY-MM-DD calendar date: ten characters, four digits, a hyphen, two
digits, a hyphen and two digits, with a month from 01 to 12 and a day from 01 to
the length of that month. -/
def validDate (s : Str) : Bool :=
  s.length = 10 ∧ (s.take 4).all isDigit ∧ s.get? 4 = some '-' ∧
  ((s.drop 5).take 2).all isDigit ∧ s.get? 7 = some '-' ∧ (s.drop 8).all isDigit ∧
  1 ≤ dateMonth s ∧ dateMonth s ≤ 12 ∧
  1 ≤ dateDay s ∧ dateDay s ≤ monthLength (dateYear s) (dateMonth s)

/-- The location ISOStartForDate composes the timestamp in: the one the database
has under the name, or else the local one. -/
def resolvedLocation (clk : Clock) (timezone : Str) : Location :=
  match clk.loadLocation timezone with
  | some l => l
  | none => clk.localZone

/-- A network that answers 201 for the worklog of PROJ-1, fails to send the one
of PROJ-3, and answers 400 for every other request. -/
def mixedHttp : Http :=
  { base64 := id
    pathEscape := id
    marshal := fun _ => Except.ok []
    newRequest := fun _ _ => none
    send := fun req =>
      if req.url = "https://jira.example.com/rest/api/3/issue/PROJ-1/worklog".toList then
        SendOutcome.response 201 []
      else if req.url = "https://jira.example.com/rest/api/3/issue/PROJ-3/worklog".toList then
        SendOutcome.sendError "timeout".toList
      else SendOutcome.response 400 "Bad Request".toList }

/-- The five recognition steps of ToTimeSpentSeconds: the four regular
expressions and the final parse of a number. -/
inductive Step where
  | hoursAndMinutes : Step
  | hours : Step
  | minutes : Step
  | hoursMinutes : Step
  | number : Step
  deriving DecidableEq, Repr

/-- One recognition step on the trimmed, lower-cased token, taken by itself: the
seconds it returns when it recognises the token. -/
def recognise (rt : Runtime) : Step → Str → Option Int
  | Step.hoursAndMinutes, t =>
    (hoursAndMinutes t).map fun g =>
      wrap64 (floatToInt rt ((ParseFloat g.1).1.mul f3600) + wrap64 ((Atoi g.2).1 * 60))
  | Step.hours, t => (hours t).map fun g1 => floatToInt rt ((ParseFloat g1).1.mul f3600)
  | Step.minutes, t => (minutes t).map fun g1 => wrap64 ((Atoi g1).1 * 60)
  | Step.hoursMinutes, t =>
    (hoursMinutes t).map fun g =>
      wrap64 (wrap64 ((Atoi g.1).1 * 3600) + wrap64 ((Atoi g.2).1 * 60))
  | Step.number, t =>
    match ParseFloat t with
    | (hoursFloat, none) => some (floatToInt rt (hoursFloat.mul f3600))
    | (_, some _) => none

/-- The steps tried in a given order on a token: the first step that recognises
the token gives the result, and the error is returned when none does. -/
def trySteps (rt : Runtime) : List Step → Str → Int × Option Str
  | [], t => (0, some ("unable to parse time: ".toList ++ t))
  | st :: rest, t =>
    match recognise rt st t with
    | some v => (v, none)
    | none => trySteps rt rest t

/-- The conversion of a time string with the recognition steps tried in a given
order, to compare with ToTimeSpentSeconds. -/
def ToTimeSpentSecondsInOrder (rt : Runtime) (order : List Step) (timeStr : Str) :
    Int × Option Str :=
  let timeStr := TrimSpace (ToLower rt timeStr)
  if timeStr = [] then (0, none) else trySteps rt order timeStr

/-- The order of the steps in the source. -/
def sourceOrder : List Step :=
  [Step.hoursAndMinutes, Step.hours, Step.minutes, Step.hoursMinutes, Step.number]

/-- The zones of Pacific/Auckland around 2024: New Zealand Standard Time, 12 hours
east, from 2024-04-06 14:00 UTC (1712412000) to 2024-09-28 14:00 UTC
(1727532000); New Zealand Daylight Time, 13 hours east, before, back to
2023-09-23 14:00 UTC (1695477600), and after, up to 2025-04-05 14:00 UTC
(1743861600). -/
def auckland2024 : Location := fun t =>
  if t < 1712412000 then ⟨46800, 1695477600, 1712412000⟩
  else if t < 1727532000 then ⟨43200, 1712412000, 1727532000⟩
  else ⟨46800, 1727532000, 1743861600⟩

/-- The zones of America/New_York around 2024: Eastern Daylight Time, 4 hours
west, from 2024-03-10 07:00 UTC (1710054000) to 2024-11-03 06:00 UTC
(1730613600); Eastern Standard Time, 5 hours west, before, back to 2023-11-05
06:00 UTC (1699164000), and after, up to 2025-03-09 07:00 UTC (1741503600). -/
def newYork2024 : Location := fun t =>
  if t < 1710054000 then ⟨-18000, 1699164000, 1710054000⟩
  else if t < 1730613600 then ⟨-14400, 1710054000, 1730613600⟩
  else ⟨-18000, 1730613600, 1741503600⟩

/-- A machine on 2024-07-01 in New York whose database knows Europe/London,
Pacific/Auckland and America/New_York. -/
def zoneClock : Clock :=
  { todayYear := 2024
    todayMonth := 7
    todayDay := 1
    loadLocation := fun name =>
      if name = "Europe/London".toList then some london2024
      else if name = "Pacific/Auckland".toList then some auckland2024
      else if name = "America/New_York".toList then some newYork2024
      else none
    localZone := newYork2024 }

end JiraWorklogger

/-! # Theorems -/

namespace JiraWorklogger

/-- The second loop fails exactly when some item has a rejected time value; a
failure returns nil and a success returns a slice. -/
theorem parseItems_error_iff (rt : Runtime) (aliases : AliasMap) (items : List Str) :
    ∀ entries : List TimeEntry,
      ((parseItems rt aliases items entries).2.isSome ↔
        ∃ item ∈ items, ∃ issue tv, extractParts item = some (issue, tv) ∧
          (ToTimeSpentSeconds rt tv).2.isSome) ∧
      ((parseItems rt aliases items entries).2.isSome →
        (parseItems rt aliases items entries).1 = none) ∧
      ((parseItems rt aliases items entries).2 = none →
        (parseItems rt aliases items entries).1.isSome) := by
  induction items with
  | nil => intro entries; simp [parseItems]
  | cons item rest ih =>
    intro entries
    rw [List.exists_mem_cons_iff]
    rcases hx : extractParts item with _ | ⟨issue0, tv⟩
    · have hhead : ¬ ∃ issue tv, (none : Option (Str × Str)) = some (issue, tv) ∧
          (ToTimeSpentSeconds rt tv).2.isSome := by simp
      simp only [parseItems, hx, hhead, false_or]
      exact ih entries
    · rcases ht : ToTimeSpentSeconds rt tv with ⟨secs, _ | err⟩
      · have hhead : ¬ ∃ issue tv1, some (issue0, tv) = some (issue, tv1) ∧
            (ToTimeSpentSeconds rt tv1).2.isSome := by
          rintro ⟨i, t, h1, h2⟩
          cases h1
          simp [ht] at h2
        simp only [parseItems, hx, ht, hhead, false_or]
        split
        · exact ih _
        · exact ih _
      · have hhead : ∃ issue tv1, some (issue0, tv) = some (issue, tv1) ∧
            (ToTimeSpentSeconds rt tv1).2.isSome := ⟨issue0, tv, rfl, by simp [ht]⟩
        simp only [parseItems, hx, ht]
        refine ⟨⟨fun _ => Or.inl hhead, fun _ => ?_⟩, fun _ => ?_, fun h => ?_⟩ <;> simp_all

end JiraWorklogger

namespace JiraWorklogger

/-! ## Unfolding ToTimeSpentSeconds on a known token -/

theorem floatToInt_of_exactInt (rt : Runtime) (x : F64) (v : Int) (h : x.exactInt = some v) :
    floatToInt rt x = v := by
  simp [floatToInt, h]

theorem tts_empty (rt : Runtime) (s : Str) (ht : TrimSpace (ToLower rt s) = []) :
    ToTimeSpentSeconds rt s = (0, none) := by
  simp [ToTimeSpentSeconds, ht]

theorem tts_hoursAndMinutes (rt : Runtime) (s t g1 g3 : Str) (ht : TrimSpace (ToLower rt s) = t)
    (hne : t ≠ []) (h1 : hoursAndMinutes t = some (g1, g3)) :
    ToTimeSpentSeconds rt s =
      (wrap64 (floatToInt rt ((ParseFloat g1).1.mul f3600) + wrap64 ((Atoi g3).1 * 60)), none) := by
  simp [ToTimeSpentSeconds, ht, hne, h1]

theorem tts_hours (rt : Runtime) (s t g1 : Str) (ht : TrimSpace (ToLower rt s) = t)
    (hne : t ≠ []) (h1 : hoursAndMinutes t = none) (h2 : hours t = some g1) :
    ToTimeSpentSeconds rt s = (floatToInt rt ((ParseFloat g1).1.mul f3600), none) := by
  simp [ToTimeSpentSeconds, ht, hne, h1, h2]

theorem tts_minutes (rt : Runtime) (s t g1 : Str) (ht : TrimSpace (ToLower rt s) = t)
    (hne : t ≠ []) (h1 : hoursAndMinutes t = none) (h2 : hours t = none)
    (h3 : minutes t = some g1) :
    ToTimeSpentSeconds rt s = (wrap64 ((Atoi g1).1 * 60), none) := by
  simp [ToTimeSpentSeconds, ht, hne, h1, h2, h3]

theorem tts_hoursMinutes (rt : Runtime) (s t g1 g2 : Str) (ht : TrimSpace (ToLower rt s) = t)
    (hne : t ≠ []) (h1 : hoursAndMinutes t = none) (h2 : hours t = none)
    (h3 : minutes t = none) (h4 : hoursMinutes t = some (g1, g2)) :
    ToTimeSpentSeconds rt s =
      (wrap64 (wrap64 ((Atoi g1).1 * 3600) + wrap64 ((Atoi g2).1 * 60)), none) := by
  simp [ToTimeSpentSeconds, ht, hne, h1, h2, h3, h4]

theorem tts_float (rt : Runtime) (s t : Str) (x : F64) (ht : TrimSpace (ToLower rt s) = t)
    (hne : t ≠ []) (h1 : hoursAndMinutes t = none) (h2 : hours t = none)
    (h3 : minutes t = none) (h4 : hoursMinutes t = none) (h5 : ParseFloat t = (x, none)) :
    ToTimeSpentSeconds rt s = (floatToInt rt (x.mul f3600), none) := by
  simp [ToTimeSpentSeconds, ht, hne, h1, h2, h3, h4, h5]

theorem tts_reject (rt : Runtime) (s t : Str) (ht : TrimSpace (ToLower rt s) = t)
    (hne : t ≠ []) (h1 : hoursAndMinutes t = none) (h2 : hours t = none)
    (h3 : minutes t = none) (h4 : hoursMinutes t = none) (h5 : (ParseFloat t).2.isSome) :
    ToTimeSpentSeconds rt s = (0, some ("unable to parse time: ".toList ++ t)) := by
  rcases hp : ParseFloat t with ⟨x, _ | e⟩
  · simp [hp] at h5
  · simp [ToTimeSpentSeconds, ht, hne, h1, h2, h3, h4, hp]

/-- A bare number within the int range: the result is the truncated float64 product. -/
theorem tts_float_exact (rt : Runtime) (s t : Str) (v : Int) (ht : TrimSpace (ToLower rt s) = t)
    (hne : t ≠ []) (h1 : hoursAndMinutes t = none) (h2 : hours t = none)
    (h3 : minutes t = none) (h4 : hoursMinutes t = none) (h5 : (ParseFloat t).2 = none)
    (h6 : ((ParseFloat t).1.mul f3600).exactInt = some v) :
    ToTimeSpentSeconds rt s = (v, none) := by
  rw [tts_float rt s t (ParseFloat t).1 ht hne h1 h2 h3 h4 (by rw [← h5]),
    floatToInt_of_exactInt rt _ v h6]

/-! ## One step of the second loop -/

theorem parseItems_cons_ok (rt : Runtime) (aliases : AliasMap) (item : Str) (rest : List Str)
    (entries : List TimeEntry) (issue0 tv : Str) (secs : Int)
    (hx : extractParts item = some (issue0, tv))
    (ht : ToTimeSpentSeconds rt tv = (secs, none)) :
    parseItems rt aliases (item :: rest) entries =
      parseItems rt aliases rest
        (if (aliases (ToLower rt (TrimSuffix issue0 [':']))).getD (TrimSuffix issue0 [':']) ≠ [] ∧
            0 < secs then
          entries ++ [⟨(aliases (ToLower rt (TrimSuffix issue0 [':']))).getD
            (TrimSuffix issue0 [':']), secs⟩]
        else entries) := by
  simp only [parseItems, hx, ht]
  cases aliases (ToLower rt (TrimSuffix issue0 [':'])) <;> simp only [Option.getD] <;>
    split <;> rfl

theorem parseItems_cons_drop (rt : Runtime) (aliases : AliasMap) (item : Str) (rest : List Str)
    (entries : List TimeEntry) (issue0 tv : Str) (secs : Int)
    (hx : extractParts item = some (issue0, tv))
    (ht : ToTimeSpentSeconds rt tv = (secs, none)) (hs : secs ≤ 0) :
    parseItems rt aliases (item :: rest) entries = parseItems rt aliases rest entries := by
  rw [parseItems_cons_ok rt aliases item rest entries issue0 tv secs hx ht, if_neg]
  intro h
  omega

/-- Every entry collected by the second loop has an issue and a positive duration. -/
theorem parseItems_entries_valid (rt : Runtime) (aliases : AliasMap) (items : List Str) :
    ∀ entries : List TimeEntry, (∀ e ∈ entries, e.Issue ≠ [] ∧ 0 < e.Seconds) →
      ∀ es, (parseItems rt aliases items entries).1 = some es →
        ∀ e ∈ es, e.Issue ≠ [] ∧ 0 < e.Seconds := by
  induction items with
  | nil =>
    intro entries hacc es h
    simp only [parseItems, Option.some.injEq] at h
    subst h
    exact hacc
  | cons item rest ih =>
    intro entries hacc es h
    rcases hx : extractParts item with _ | ⟨issue0, tv⟩
    · simp only [parseItems, hx] at h
      exact ih entries hacc es h
    · rcases ht : ToTimeSpentSeconds rt tv with ⟨secs, _ | err⟩
      · rw [parseItems_cons_ok rt aliases item rest entries issue0 tv secs hx ht] at h
        refine ih _ ?_ es h
        split
        · rename_i hc
          intro e he
          rcases List.mem_append.1 he with he | he
          · exact hacc e he
          · rw [List.mem_singleton] at he
            subst he
            exact hc
        · exact hacc
      · simp [parseItems, hx, ht] at h

/-- Claim C2. Every TimeEntry of a successful ParseTimeEntries result has a
non-empty Issue and Seconds strictly greater than 0. The time values "0" and ""
parse to 0 and "-1" parses to -3600, and the entries "PROJ-9=0", "PROJ-9=" and
"PROJ-9=-1" are dropped without an error, whatever the alias map, while a
positive entry next to one is kept. -/
theorem C2_entries_positive (rt : Runtime) (raw : Str) (aliases : AliasMap) :
    (∀ es, (ParseTimeEntries rt raw aliases).1 = some es →
      ∀ e ∈ es, e.Issue ≠ [] ∧ 0 < e.Seconds) ∧
    ToTimeSpentSeconds rt "0".toList = (0, none) ∧
    ToTimeSpentSeconds rt [] = (0, none) ∧
    ToTimeSpentSeconds rt "-1".toList = (-3600, none) ∧
    ParseTimeEntries rt "PROJ-9=0".toList aliases = (some [], none) ∧
    ParseTimeEntries rt "PROJ-9=".toList aliases = (some [], none) ∧
    ParseTimeEntries rt "PROJ-9=-1".toList aliases = (some [], none) ∧
    ParseTimeEntries rt "PROJ-9=0;PROJ-8=1h".toList (fun _ => none) =
      (some [⟨"PROJ-8".toList, 3600⟩], none) := by
  have t0 : ToTimeSpentSeconds rt "0".toList = (0, none) :=
    tts_float_exact rt _ "0".toList 0 rfl (by decide) (by decide) (by decide) (by decide)
      (by decide) (by decide) (by decide)
  have te : ToTimeSpentSeconds rt [] = (0, none) := tts_empty rt _ rfl
  have tn : ToTimeSpentSeconds rt "-1".toList = (-3600, none) :=
    tts_float_exact rt _ "-1".toList (-3600) rfl (by decide) (by decide) (by decide) (by decide)
      (by decide) (by decide) (by decide)
  have t1 : ToTimeSpentSeconds rt "1h".toList = (3600, none) := by
    rw [tts_hours rt "1h".toList "1h".toList "1".toList rfl (by decide) (by decide) (by decide)]
    rw [floatToInt_of_exactInt rt _ 3600 (by decide)]
  refine ⟨?_, t0, te, tn, ?_, ?_, ?_, ?_⟩
  · intro es h
    by_cases h0 : raw = []
    · subst h0
      simp only [ParseTimeEntries, if_true, Option.some.injEq] at h
      subst h
      simp
    · simp only [ParseTimeEntries, h0, if_false] at h
      exact parseItems_entries_valid rt aliases (splitItems raw) [] (by simp) es h
  · have hs : splitItems "PROJ-9=0".toList = ["PROJ-9=0".toList] := by decide
    rw [ParseTimeEntries, if_neg (by decide), hs,
      parseItems_cons_drop rt aliases _ _ _ "PROJ-9".toList "0".toList 0 (by decide) t0
        (le_refl 0)]
    rfl
  · have hs : splitItems "PROJ-9=".toList = ["PROJ-9=".toList] := by decide
    rw [ParseTimeEntries, if_neg (by decide), hs,
      parseItems_cons_drop rt aliases _ _ _ "PROJ-9".toList [] 0 (by decide) te (le_refl 0)]
    rfl
  · have hs : splitItems "PROJ-9=-1".toList = ["PROJ-9=-1".toList] := by decide
    rw [ParseTimeEntries, if_neg (by decide), hs,
      parseItems_cons_drop rt aliases _ _ _ "PROJ-9".toList "-1".toList (-3600) (by decide) tn
        (by decide)]
    rfl
  · have hs : splitItems "PROJ-9=0;PROJ-8=1h".toList = ["PROJ-9=0".toList, "PROJ-8=1h".toList] := by
      decide
    rw [ParseTimeEntries, if_neg (by decide), hs,
      parseItems_cons_drop rt _ _ _ _ "PROJ-9".toList "0".toList 0 (by decide) t0 (le_refl 0),
      parseItems_cons_ok rt _ _ _ _ "PROJ-8".toList "1h".toList 3600 (by decide) t1]
    rfl

end JiraWorklogger

namespace JiraWorklogger

/-! ## float64: values that are represented exactly -/

theorem bitLengthLoop_le_iff :
    ∀ (fuel n k : Nat), n ≤ fuel → (bitLengthLoop fuel n ≤ k ↔ n < 2 ^ k) := by
  intro fuel
  induction fuel with
  | zero =>
    intro n k hn
    have h0 : n = 0 := by omega
    subst h0
    simp [bitLengthLoop]
  | succ fuel ih =>
    intro n k hn
    by_cases h0 : n = 0
    · subst h0
      simp [bitLengthLoop]
    · simp only [bitLengthLoop, h0, if_false]
      cases k with
      | zero =>
        simp only [Nat.add_one_ne_zero, Nat.le_zero_eq, pow_zero, Nat.lt_one_iff, h0]
      | succ k =>
        rw [Nat.add_le_add_iff_right, ih (n / 2) k (by omega), pow_succ]
        omega

theorem bitLength_le_iff (n k : Nat) : bitLength n ≤ k ↔ n < 2 ^ k :=
  bitLengthLoop_le_iff n n k (le_refl n)

theorem roundHalfEven_mul (a d : Nat) (hd : 0 < d) : roundHalfEven (a * d) d = a := by
  simp [roundHalfEven, Nat.mul_div_cancel _ hd, hd]

theorem floorLog2Quot_le (q k : Nat) (hq : q < 2 ^ 53) :
    floorLog2Quot (q * 2 ^ k) (2 ^ k) ≤ 52 := by
  have h1 : bitLength (q * 2 ^ k) ≤ k + 53 := by
    rw [bitLength_le_iff, pow_add, mul_comm (2 ^ k)]
    exact Nat.mul_lt_mul_of_pos_right hq (by positivity)
  have h2 : k + 1 ≤ bitLength (2 ^ k) := by
    by_contra h
    have h3 : bitLength (2 ^ k) ≤ k := by omega
    rw [bitLength_le_iff] at h3
    exact lt_irrefl _ h3
  unfold floorLog2Quot
  simp only
  split <;> omega

/-- A number `q < 2^53`, given as the quotient of `q·2^k` by `2^k`, is a float64. -/
theorem roundToF64_exact (neg : Bool) (q k : Nat) (hq0 : 0 < q) (hq : q < 2 ^ 53) :
    ∃ j : Nat, roundToF64 neg (q * 2 ^ k) (2 ^ k) = F64.fin neg (q * 2 ^ j) (-(j : Int)) := by
  have hl := floorLog2Quot_le q k hq
  have hk : 0 < 2 ^ k := by positivity
  have hne : ¬ (q * 2 ^ k = 0 ∨ 2 ^ k = 0) := by
    have : 0 < q * 2 ^ k := Nat.mul_pos hq0 hk
    omega
  unfold roundToF64
  simp only [hne, if_false]
  generalize floorLog2Quot (q * 2 ^ k) (2 ^ k) = fl at hl
  by_cases he : (0 : Int) ≤ max (fl - 52) (-1074)
  · have he0 : max (fl - 52) (-1074) = 0 := by omega
    refine ⟨0, ?_⟩
    simp only [he0, le_refl, if_true, Int.toNat_zero, pow_zero, mul_one, roundHalfEven_mul q _ hk,
      true_and, Nat.cast_zero, neg_zero]
    rw [if_neg]
    intro h
    exact absurd (lt_of_lt_of_le hq (Nat.pow_le_pow_right (by decide) (by decide))) (not_lt.2 h)
  · refine ⟨(-(max (fl - 52) (-1074))).toNat, ?_⟩
    simp only [he, if_false, false_and]
    have h1 : q * 2 ^ k * 2 ^ (-(max (fl - 52) (-1074))).toNat =
        (q * 2 ^ (-(max (fl - 52) (-1074))).toNat) * 2 ^ k := by ring
    rw [h1, roundHalfEven_mul _ _ hk]
    congr 1
    omega

theorem exactInt_scaled (neg : Bool) (q j : Nat) (hq : q < 2 ^ 63) :
    (F64.fin neg (q * 2 ^ j) (-(j : Int))).exactInt = some (if neg then -(q : Int) else q) := by
  have hj : 0 < 2 ^ j := by positivity
  have ht : F64.truncate neg (q * 2 ^ j) (-(j : Int)) = if neg then -(q : Int) else q := by
    unfold F64.truncate
    by_cases h0 : j = 0
    · subst h0; simp
    · have : ¬ (0 : Int) ≤ -(j : Int) := by omega
      simp only [this, if_false, neg_neg, Int.toNat_ofNat, Nat.mul_div_cancel _ hj]
  have hq2 : (q : Int) < 2 ^ 63 := by exact_mod_cast hq
  unfold F64.exactInt
  simp only [ht]
  cases neg
  · simp only [Bool.false_eq_true, if_false]
    rw [if_pos]
    constructor <;> omega
  · simp only [if_true]
    rw [if_pos]
    constructor <;> omega

theorem mul_f3600_scaled (neg : Bool) (q j : Nat) :
    (F64.fin neg (q * 2 ^ j) (-(j : Int))).mul f3600 =
      roundToF64 neg (q * 3600 * 2 ^ j) (2 ^ j) := by
  have h1 : q * 2 ^ j * 3600 = q * 3600 * 2 ^ j := by ring
  by_cases h0 : j = 0
  · subst h0
    simp [F64.mul, f3600]
  · have : ¬ (0 : Int) ≤ -(j : Int) + 0 := by omega
    simp only [F64.mul, f3600, this, if_false, Bool.xor_false, h1]
    congr 2
    omega

/-- For a whole number of hours `h` with `h·3600 < 2^53` the float64 product
`float64(h) * 3600` converts to exactly `h·3600`. -/
theorem exactInt_hours (h : Nat) (hh : h * 3600 < 2 ^ 53) :
    ((roundToF64 false h 1).mul f3600).exactInt = some ((h : Int) * 3600) := by
  by_cases h0 : h = 0
  · subst h0
    decide
  · have hpos : 0 < h := Nat.pos_of_ne_zero h0
    have hlt : h < 2 ^ 53 := by omega
    obtain ⟨j, hj⟩ := roundToF64_exact false h 0 hpos hlt
    simp only [pow_zero, mul_one] at hj
    rw [hj, mul_f3600_scaled]
    obtain ⟨i, hi⟩ := roundToF64_exact false (h * 3600) j (by omega) hh
    rw [hi, exactInt_scaled false (h * 3600) i (by
      have : (2 : Nat) ^ 53 < 2 ^ 63 := Nat.pow_lt_pow_right (by norm_num) (by norm_num)
      omega)]
    simp

end JiraWorklogger

namespace JiraWorklogger

/-! ## Tokens made of digits and lower-case marks -/

theorem toLowerRune_of_isPlain (rt : Runtime) (c : Char) (h : isPlain c) :
    toLowerRune rt c = c := by
  simp only [isPlain, Bool.decide_or, Bool.decide_and, Bool.or_eq_true, Bool.and_eq_true,
    decide_eq_true_eq] at h
  unfold toLowerRune
  rw [if_pos (by omega), if_neg (by omega)]

theorem not_isSpace_of_isPlain (c : Char) (h : isPlain c) : isSpace c = false := by
  simp only [isPlain, Bool.decide_or, Bool.decide_and, Bool.or_eq_true, Bool.and_eq_true,
    decide_eq_true_eq] at h
  simp only [isSpace, Bool.decide_or, Bool.decide_and, Bool.or_eq_false_iff,
    Bool.and_eq_false_imp, decide_eq_true_eq, decide_eq_false_iff_not]
  omega

theorem ToLower_of_isPlain (rt : Runtime) (s : Str) (h : ∀ c ∈ s, isPlain c) :
    ToLower rt s = s := by
  unfold ToLower
  induction s with
  | nil => rfl
  | cons c cs ih =>
    rw [List.map_cons, toLowerRune_of_isPlain rt c (h c (List.mem_cons_self _ _)),
      ih (fun d hd => h d (List.mem_cons_of_mem _ hd))]

theorem TrimSpace_of_isPlain (s : Str) (h : ∀ c ∈ s, isPlain c) : TrimSpace s = s := by
  unfold TrimSpace
  have h1 : s.dropWhile isSpace = s := by
    cases s with
    | nil => rfl
    | cons c cs =>
      simp [List.dropWhile, not_isSpace_of_isPlain c (h c (List.mem_cons_self _ _))]
  rw [h1, List.rdropWhile_eq_self_iff]
  intro hne
  simp [not_isSpace_of_isPlain _ (h _ (List.getLast_mem hne))]

theorem token_of_isPlain (rt : Runtime) (s : Str) (h : ∀ c ∈ s, isPlain c) :
    TrimSpace (ToLower rt s) = s := by
  rw [ToLower_of_isPlain rt s h, TrimSpace_of_isPlain s h]

theorem isPlain_of_isDigit (c : Char) (h : isDigit c) : isPlain c := by
  simp only [isDigit, Bool.decide_and, Bool.and_eq_true, decide_eq_true_eq] at h
  simp only [isPlain, Bool.decide_or, Bool.decide_and, Bool.or_eq_true, Bool.and_eq_true,
    decide_eq_true_eq]
  omega

theorem takeWhile_digits_append (ds rest : Str) (hd : ∀ c ∈ ds, isDigit c) :
    (ds ++ rest).takeWhile isDigit = ds ++ rest.takeWhile isDigit := by
  induction ds with
  | nil => rfl
  | cons c cs ih =>
    simp [List.takeWhile, hd c (List.mem_cons_self _ _),
      ih (fun d h => hd d (List.mem_cons_of_mem _ h))]

theorem dropWhile_digits_append (ds rest : Str) (hd : ∀ c ∈ ds, isDigit c) :
    (ds ++ rest).dropWhile isDigit = rest.dropWhile isDigit := by
  induction ds with
  | nil => rfl
  | cons c cs ih =>
    simp [List.dropWhile, hd c (List.mem_cons_self _ _),
      ih (fun d h => hd d (List.mem_cons_of_mem _ h))]

/-- The group `(\d+)` takes a maximal run of digits. -/
theorem matchInt_digits (ds : Str) (c : Char) (rest : Str) (hne : ds ≠ [])
    (hd : ∀ d ∈ ds, isDigit d) (hc : isDigit c = false) :
    matchInt (ds ++ c :: rest) = some (ds, c :: rest) := by
  simp [matchInt, takeWhile_digits_append ds _ hd, dropWhile_digits_append ds _ hd,
    List.takeWhile, List.dropWhile, hc, hne]

theorem matchInt_digits_end (ds : Str) (hne : ds ≠ []) (hd : ∀ d ∈ ds, isDigit d) :
    matchInt ds = some (ds, []) := by
  have h := takeWhile_digits_append ds [] hd
  have h2 := dropWhile_digits_append ds [] hd
  simp only [List.append_nil, List.takeWhile_nil, List.dropWhile_nil] at h h2
  simp [matchInt, h, h2, hne]

/-- The group `(\d+(\.\d+)?)` on digits followed by a character that is neither
a digit nor a point. -/
theorem matchNumber_digits (ds : Str) (c : Char) (rest : Str) (hne : ds ≠ [])
    (hd : ∀ d ∈ ds, isDigit d) (hc : isDigit c = false) (hp : c ≠ '.') :
    matchNumber (ds ++ c :: rest) = some (ds, c :: rest) := by
  unfold matchNumber
  simp only [takeWhile_digits_append ds _ hd, dropWhile_digits_append ds _ hd,
    List.takeWhile, List.dropWhile, hc, List.append_nil, hne, if_false]
  split
  · rename_i h
    simp only [List.cons.injEq] at h
    exact absurd h.1 hp
  · rfl

/-- Value of a string of digits, by its last digit. -/
theorem digitsVal_append (ds es : Str) :
    digitsVal (ds ++ es) = digitsVal ds * 10 ^ es.length + digitsVal es := by
  unfold digitsVal
  induction es using List.reverseRecOn with
  | nil => simp
  | append_singleton es c ih =>
    rw [← List.append_assoc, List.foldl_append, ih, List.foldl_append]
    simp only [List.foldl_cons, List.foldl_nil, List.length_append, List.length_singleton]
    ring

theorem Atoi_digits (ds : Str) (hne : ds ≠ []) (hd : ∀ d ∈ ds, isDigit d)
    (hv : digitsVal ds < 2 ^ 63) : Atoi ds = ((digitsVal ds : Int), none) := by
  cases ds with
  | nil => exact absurd rfl hne
  | cons c cs =>
    have hc : isDigit c := hd c (List.mem_cons_self _ _)
    have h1 : c ≠ '-' := by rintro rfl; exact absurd hc (by decide)
    have h2 : c ≠ '+' := by rintro rfl; exact absurd hc (by decide)
    have hall : (c :: cs).all isDigit = true := by
      rw [List.all_eq_true]; exact hd
    have hv2 : digitsVal (c :: cs) < 9223372036854775808 := by
      have h63 : (2 : Nat) ^ 63 = 9223372036854775808 := by norm_num
      omega
    simp [Atoi, h1, h2, hall, hv2]

end JiraWorklogger

namespace JiraWorklogger

/-! ## strconv on plain decimal text -/

theorem digitsVal_cons (c : Char) (cs : Str) :
    digitsVal (c :: cs) = digitVal c * 10 ^ cs.length + digitsVal cs := by
  have h := digitsVal_append [c] cs
  simpa [digitsVal] using h

theorem isDigit_ne (c : Char) (h : isDigit c) :
    c ≠ '_' ∧ c ≠ '.' ∧ c ≠ '+' ∧ c ≠ '-' ∧ c ≠ 'i' ∧ c ≠ 'I' ∧ c ≠ 'n' ∧ c ≠ 'N' := by
  refine ⟨?_, ?_, ?_, ?_, ?_, ?_, ?_, ?_⟩ <;> (rintro rfl; exact absurd h (by decide))

/-- The digit loop of readFloat on a run of digits. -/
theorem readDigits_digits (ds : Str) (hd : ∀ c ∈ ds, isDigit c) :
    ∀ (rest : Str) (st : Digits),
      readDigits false (ds ++ rest) st =
        readDigits false rest
          { mant := st.mant * 10 ^ ds.length + digitsVal ds
            nfrac := if st.sawdot then st.nfrac + ds.length else st.nfrac
            sawdot := st.sawdot
            sawdigits := st.sawdigits || decide (ds ≠ [])
            underscores := st.underscores } := by
  induction ds with
  | nil =>
    intro rest st
    simp [digitsVal]
  | cons c cs ih =>
    intro rest st
    have hc : isDigit c = true := hd c (List.mem_cons_self _ _)
    obtain ⟨h1, h2, -⟩ := isDigit_ne c hc
    rw [List.cons_append, readDigits]
    simp only [h1, h2, if_false, hc, if_true, Bool.false_eq_true]
    rw [ih (fun d h => hd d (List.mem_cons_of_mem _ h))]
    congr 1
    rw [Digits.mk.injEq]
    refine ⟨?_, ?_, rfl, ?_, rfl⟩
    · simp only [digitsVal_cons, List.length_cons, pow_succ]
      ring
    · cases st.sawdot <;> simp only [List.length_cons, Bool.false_eq_true, if_false, if_true]
      omega
    · simp

theorem special_of_digit (c : Char) (cs : Str) (hc : isDigit c) : special (c :: cs) = none := by
  obtain ⟨-, -, h3, h4, h5, h6, h7, h8⟩ := isDigit_ne c hc
  simp [special, h3, h4, h5, h6, h7, h8]

theorem isLetterCI_x_of_digit_or_point (x : Char) (h : isDigit x ∨ x = '.') :
    isLetterCI 'x' x = false := by
  rcases h with h | rfl
  · simp only [isDigit, Bool.decide_and, Bool.and_eq_true, decide_eq_true_eq] at h
    have hx : x ≠ 'x' := by rintro rfl; revert h; decide
    have hn : ('x' : Char).toNat = 120 := by decide
    simp only [isLetterCI, hx, hn, Bool.decide_or, decide_False, Bool.false_or,
      decide_eq_false_iff_not]
    omega
  · decide

/-- What readFloat reads from digits, a point and digits. -/
theorem readFloat_decimal (ip fp : Str) (hne : ip ≠ []) (hi : ∀ c ∈ ip, isDigit c)
    (hf : ∀ c ∈ fp, isDigit c) :
    readFloat (ip ++ '.' :: fp) =
      some (⟨false, digitsVal (ip ++ fp), false, -(fp.length : Int)⟩, []) := by
  cases ip with
  | nil => exact absurd rfl hne
  | cons c0 ip1 =>
    have hc0 : isDigit c0 = true := hi c0 (List.mem_cons_self _ _)
    obtain ⟨-, -, h3, h4, -⟩ := isDigit_ne c0 hc0
    have hhex : (match c0 :: ip1 ++ '.' :: fp with
        | '0' :: x :: _ :: _ => isLetterCI 'x' x
        | _ => false) = false := by
      split
      · rename_i x _ _ heq
        apply isLetterCI_x_of_digit_or_point
        cases ip1 with
        | nil =>
          simp only [List.cons_append, List.nil_append, List.cons.injEq] at heq
          exact Or.inr heq.2.1.symm
        | cons c1 ip2 =>
          simp only [List.cons_append, List.cons.injEq] at heq
          exact Or.inl (heq.2.1 ▸ hi c1 (by simp))
      · rfl
    have hrd : readDigits false (c0 :: ip1 ++ '.' :: fp) ⟨0, 0, false, false, false⟩ =
        (⟨digitsVal ((c0 :: ip1) ++ fp), fp.length, true, true, false⟩, []) := by
      rw [readDigits_digits (c0 :: ip1) hi, readDigits]
      simp only [show ('.' : Char) ≠ '_' by decide, if_false, Bool.false_eq_true, if_true]
      have h := readDigits_digits fp hf []
        ⟨0 * 10 ^ (c0 :: ip1).length + digitsVal (c0 :: ip1), 0, true, false || true, false⟩
      rw [List.append_nil] at h
      rw [show (false || decide (c0 :: ip1 ≠ [])) = (false || true) by simp]
      rw [h]
      simp only [readDigits, zero_mul, zero_add, if_true, Bool.or_true, Bool.true_or,
        digitsVal_append]
    unfold readFloat
    simp only [List.cons_append, h3, h4, or_self, if_false, decide_False]
    simp only [← List.cons_append, hhex, Bool.false_eq_true, if_false, hrd]
    simp

/-- What readFloat reads from digits alone. -/
theorem readFloat_digits (ip : Str) (hne : ip ≠ []) (hi : ∀ c ∈ ip, isDigit c) :
    readFloat ip = some (⟨false, digitsVal ip, false, 0⟩, []) := by
  cases ip with
  | nil => exact absurd rfl hne
  | cons c0 ip1 =>
    have hc0 : isDigit c0 = true := hi c0 (List.mem_cons_self _ _)
    obtain ⟨-, -, h3, h4, -⟩ := isDigit_ne c0 hc0
    have hhex : (match c0 :: ip1 with
        | '0' :: x :: _ :: _ => isLetterCI 'x' x
        | _ => false) = false := by
      split
      · rename_i x _ _ heq
        apply isLetterCI_x_of_digit_or_point
        simp only [List.cons.injEq] at heq
        exact Or.inl (hi x (by rw [heq.2]; simp))
      · rfl
    have hrd : readDigits false (c0 :: ip1) ⟨0, 0, false, false, false⟩ =
        (⟨digitsVal (c0 :: ip1), 0, false, true, false⟩, []) := by
      have h := readDigits_digits (c0 :: ip1) hi [] ⟨0, 0, false, false, false⟩
      rw [List.append_nil] at h
      rw [h]
      simp [readDigits]
    unfold readFloat
    simp only [h3, h4, or_self, if_false, decide_False, hhex, Bool.false_eq_true, hrd]
    simp

end JiraWorklogger

namespace JiraWorklogger

theorem ParseFloat_of_readFloat (s : Str) (l : FloatLit) (m : Nat) (e : Int)
    (hs : special s = none) (hr : readFloat s = some (l, [])) (hv : l.toF64 = F64.fin false m e) :
    ParseFloat s = (F64.fin false m e, none) := by
  simp [ParseFloat, hs, hr, hv]

theorem wrap64_of_range (x : Int) (h1 : -(2 ^ 63) ≤ x) (h2 : x < 2 ^ 63) : wrap64 x = x := by
  unfold wrap64
  have h63 : (2 : Int) ^ 63 = 9223372036854775808 := by norm_num
  have h64 : (2 : Int) ^ 64 = 18446744073709551616 := by norm_num
  rw [h63, h64] at *
  omega

/-- A whole number of hours `h·3600 < 2^53`, written in digits, parses to a
float64 whose product with 3600 converts to exactly `h·3600`. -/
theorem floatToInt_hours_digits (rt : Runtime) (hs : Str) (hne : hs ≠ [])
    (hd : ∀ c ∈ hs, isDigit c) (hb : digitsVal hs * 3600 < 2 ^ 53) :
    floatToInt rt ((ParseFloat hs).1.mul f3600) = (digitsVal hs : Int) * 3600 := by
  have hx := exactInt_hours (digitsVal hs) hb
  have hv : (⟨false, digitsVal hs, false, 0⟩ : FloatLit).toF64 =
      roundToF64 false (digitsVal hs) 1 := by
    simp [FloatLit.toF64]
  have hfin : ∃ m e, roundToF64 false (digitsVal hs) 1 = F64.fin false m e := by
    by_cases h0 : digitsVal hs = 0
    · exact ⟨0, 0, by rw [h0]; decide⟩
    · obtain ⟨j, hj⟩ := roundToF64_exact false (digitsVal hs) 0 (Nat.pos_of_ne_zero h0) (by omega)
      simp only [pow_zero, mul_one] at hj
      exact ⟨_, _, hj⟩
  obtain ⟨m, e, hme⟩ := hfin
  cases hs with
  | nil => exact absurd rfl hne
  | cons c cs =>
    have hp := ParseFloat_of_readFloat (c :: cs) _ m e
      (special_of_digit c cs (hd c (List.mem_cons_self _ _)))
      (readFloat_digits (c :: cs) hne hd) (hv.trans hme)
    rw [hp]
    simp only
    rw [← hme]
    exact floatToInt_of_exactInt rt _ _ hx

end JiraWorklogger

namespace JiraWorklogger

/-! ## The three forms of claim C3 -/

theorem isPlain_forall_append (a b : Str) (ha : ∀ c ∈ a, isPlain c) (hb : ∀ c ∈ b, isPlain c) :
    ∀ c ∈ a ++ b, isPlain c := by
  intro c hc
  rcases List.mem_append.1 hc with h | h
  · exact ha c h
  · exact hb c h

theorem isPlain_forall_digits (ds : Str) (hd : ∀ c ∈ ds, isDigit c) : ∀ c ∈ ds, isPlain c :=
  fun c hc => isPlain_of_isDigit c (hd c hc)

theorem dropWhile_isReSpace_digits (ds rest : Str) (hne : ds ≠ []) (hd : ∀ c ∈ ds, isDigit c) :
    (ds ++ rest).dropWhile isReSpace = ds ++ rest := by
  cases ds with
  | nil => exact absurd rfl hne
  | cons c cs =>
    have hc := hd c (List.mem_cons_self _ _)
    have : isReSpace c = false := by
      simp only [isDigit, Bool.decide_and, Bool.and_eq_true, decide_eq_true_eq] at hc
      simp only [isReSpace, Bool.decide_or, Bool.or_eq_false_iff, decide_eq_false_iff_not]
      omega
    simp [List.dropWhile, this]

theorem regex_minutes_form (ms : Str) (hne : ms ≠ []) (hd : ∀ c ∈ ms, isDigit c) :
    hoursAndMinutes (ms ++ ['m']) = none ∧ hours (ms ++ ['m']) = none ∧
      minutes (ms ++ ['m']) = some ms := by
  have h1 := matchNumber_digits ms 'm' [] hne hd (by decide) (by decide)
  have h2 := matchInt_digits ms 'm' [] hne hd (by decide)
  refine ⟨?_, ?_, ?_⟩
  · simp [hoursAndMinutes, h1, List.dropWhile, isReSpace]
  · simp [hours, h1, List.dropWhile, isReSpace]
  · simp [minutes, h2, List.dropWhile, isReSpace]

theorem regex_colon_form (hs ms : Str) (hhne : hs ≠ []) (hmne : ms ≠ [])
    (hh : ∀ c ∈ hs, isDigit c) (hm : ∀ c ∈ ms, isDigit c) :
    hoursAndMinutes (hs ++ ':' :: ms) = none ∧ hours (hs ++ ':' :: ms) = none ∧
      minutes (hs ++ ':' :: ms) = none ∧ hoursMinutes (hs ++ ':' :: ms) = some (hs, ms) := by
  have h1 := matchNumber_digits hs ':' ms hhne hh (by decide) (by decide)
  have h2 := matchInt_digits hs ':' ms hhne hh (by decide)
  have h3 := matchInt_digits_end ms hmne hm
  refine ⟨?_, ?_, ?_, ?_⟩
  · simp [hoursAndMinutes, h1, List.dropWhile, isReSpace]
  · simp [hours, h1, List.dropWhile, isReSpace]
  · simp [minutes, h2, List.dropWhile, isReSpace]
  · simp [hoursMinutes, h2, h3]

theorem regex_hm_form (hs ms : Str) (hhne : hs ≠ []) (hmne : ms ≠ [])
    (hh : ∀ c ∈ hs, isDigit c) (hm : ∀ c ∈ ms, isDigit c) :
    hoursAndMinutes (hs ++ 'h' :: (ms ++ ['m'])) = some (hs, ms) := by
  have h1 := matchNumber_digits hs 'h' (ms ++ ['m']) hhne hh (by decide) (by decide)
  have h2 := matchInt_digits ms 'm' [] hmne hm (by decide)
  have h3 := dropWhile_isReSpace_digits ms ['m'] hmne hm
  simp [hoursAndMinutes, h1, List.dropWhile, isReSpace, h3, h2]

/-- Claim C3, amended. For digit strings `hs` and `ms` (any length, leading zeros
allowed, minutes not limited to 0..59) with values H and M:
the token "Mm" yields M·60 when M·60 < 2^63, the token "H:M" yields
H·3600 + M·60 when that sum is below 2^63, and the token "HhMm" yields
H·3600 + M·60 when moreover H·3600 < 2^53. -/
theorem C3_forms_bounded (rt : Runtime) (hs ms : Str) (hhne : hs ≠ []) (hmne : ms ≠ [])
    (hh : ∀ c ∈ hs, isDigit c) (hm : ∀ c ∈ ms, isDigit c) :
    (digitsVal ms * 60 < 2 ^ 63 →
      ToTimeSpentSeconds rt (ms ++ ['m']) = ((digitsVal ms : Int) * 60, none)) ∧
    (digitsVal hs * 3600 + digitsVal ms * 60 < 2 ^ 63 →
      ToTimeSpentSeconds rt (hs ++ ':' :: ms) =
        ((digitsVal hs : Int) * 3600 + (digitsVal ms : Int) * 60, none)) ∧
    (digitsVal hs * 3600 < 2 ^ 53 → digitsVal hs * 3600 + digitsVal ms * 60 < 2 ^ 63 →
      ToTimeSpentSeconds rt (hs ++ 'h' :: (ms ++ ['m'])) =
        ((digitsVal hs : Int) * 3600 + (digitsVal ms : Int) * 60, none)) := by
  have hph := isPlain_forall_digits hs hh
  have hpm := isPlain_forall_digits ms hm
  have h63 : (2 : Nat) ^ 63 = 9223372036854775808 := by norm_num
  have h63i : (2 : Int) ^ 63 = 9223372036854775808 := by norm_num
  refine ⟨?_, ?_, ?_⟩
  · intro hb
    obtain ⟨r1, r2, r3⟩ := regex_minutes_form ms hmne hm
    have htok := token_of_isPlain rt (ms ++ ['m'])
      (isPlain_forall_append _ _ hpm (by simp; decide))
    rw [tts_minutes rt _ _ ms htok (by simp) r1 r2 r3, Atoi_digits ms hmne hm (by omega)]
    simp only
    rw [wrap64_of_range _ (by omega) (by omega)]
  · intro hb
    obtain ⟨r1, r2, r3, r4⟩ := regex_colon_form hs ms hhne hmne hh hm
    have htok := token_of_isPlain rt (hs ++ ':' :: ms)
      (isPlain_forall_append _ _ hph (by
        intro c hc
        rcases List.mem_cons.1 hc with rfl | h
        · decide
        · exact hpm c h))
    rw [tts_hoursMinutes rt _ _ hs ms htok (by simp) r1 r2 r3 r4,
      Atoi_digits ms hmne hm (by omega), Atoi_digits hs hhne hh (by omega)]
    simp only
    rw [wrap64_of_range ((digitsVal hs : Int) * 3600) (by omega) (by omega),
      wrap64_of_range ((digitsVal ms : Int) * 60) (by omega) (by omega),
      wrap64_of_range _ (by omega) (by omega)]
  · intro hb1 hb
    have r1 := regex_hm_form hs ms hhne hmne hh hm
    have htok := token_of_isPlain rt (hs ++ 'h' :: (ms ++ ['m']))
      (isPlain_forall_append _ _ hph (by
        intro c hc
        rcases List.mem_cons.1 hc with rfl | h
        · decide
        · exact isPlain_forall_append _ _ hpm (by simp; decide) c h))
    rw [tts_hoursAndMinutes rt _ _ hs ms htok (by simp) r1,
      floatToInt_hours_digits rt hs hhne hh hb1, Atoi_digits ms hmne hm (by omega)]
    simp only
    rw [wrap64_of_range ((digitsVal ms : Int) * 60) (by omega) (by omega),
      wrap64_of_range _ (by omega) (by omega)]

/-- Claim C3 at "1" and "30", and at "90": the tokens "1:30", "1h30m" and "90m"
all yield 5400. -/
theorem C3_forms_bounded_witness :
    ToTimeSpentSeconds exampleRuntime "90m".toList = (5400, none) ∧
    ToTimeSpentSeconds exampleRuntime "1:30".toList = (5400, none) ∧
    ToTimeSpentSeconds exampleRuntime "1h30m".toList = (5400, none) := by
  have h := C3_forms_bounded exampleRuntime "1".toList "30".toList (by decide) (by decide)
    (by decide) (by decide)
  have h2 := C3_forms_bounded exampleRuntime "1".toList "90".toList (by decide) (by decide)
    (by decide) (by decide)
  exact ⟨h2.1 (by decide), h.2.1 (by decide), h.2.2 (by decide) (by decide)⟩

set_option exponentiation.threshold 1100 in
/-- Claim C3 as stated fails for large numbers: with M = 99999999999999999999 the
token "Mm" yields -60, not M·60, and with H = 2251799813685249 the token "Hh0m"
yields 8106479329266896896 while "H:0" yields H·3600 = 8106479329266896400. -/
theorem C3_counterexample :
    ToTimeSpentSeconds exampleRuntime "99999999999999999999m".toList = (-60, none) ∧
    ((-60 : Int) ≠ 99999999999999999999 * 60) ∧
    ToTimeSpentSeconds exampleRuntime "2251799813685249h0m".toList =
      (8106479329266896896, none) ∧
    ToTimeSpentSeconds exampleRuntime "2251799813685249:0".toList =
      (8106479329266896400, none) ∧
    ((8106479329266896896 : Int) ≠ 2251799813685249 * 3600 + 0 * 60) := by
  refine ⟨by decide, by decide, by decide, by decide, by decide⟩

end JiraWorklogger

namespace JiraWorklogger

/-! ## Splitting a concatenation -/

theorem Split_ne_nil (sep : Char) (s : Str) : Split sep s ≠ [] := by
  cases s with
  | nil => simp [Split]
  | cons c cs =>
    unfold Split
    split
    · simp
    · split <;> simp

/-- Splitting at a separator between two strings splits each of them. -/
theorem Split_append_sep (sep : Char) (a b : Str) :
    Split sep (a ++ sep :: b) = Split sep a ++ Split sep b := by
  induction a with
  | nil => simp [Split]
  | cons c cs ih =>
    rw [List.cons_append, Split, Split, ih]
    by_cases hc : c = sep
    · simp [hc]
    · simp only [hc, if_false]
      rcases hs : Split sep cs with _ | ⟨w, ws⟩
      · exact absurd hs (Split_ne_nil sep cs)
      · simp

/-- Splitting a concatenation joins the last part of the first string with the
first part of the second. -/
theorem Split_append (sep : Char) (a b : Str) :
    Split sep (a ++ b) = joinLast (Split sep a) (Split sep b).head! ++ (Split sep b).tail := by
  induction a with
  | nil =>
    rcases hs : Split sep b with _ | ⟨w, ws⟩
    · exact absurd hs (Split_ne_nil sep b)
    · simp [Split, joinLast, hs]
  | cons c cs ih =>
    rw [List.cons_append, Split, Split, ih]
    rcases hs : Split sep cs with _ | ⟨w, ws⟩
    · exact absurd hs (Split_ne_nil sep cs)
    · by_cases hc : c = sep
      · simp only [hc, if_true]
        cases ws <;> simp [joinLast]
      · simp only [hc, if_false]
        cases ws <;> simp [joinLast]

theorem flatMap_joinLast (f : Str → List Str) (x w : Str) (hf : ∀ u, f (u ++ x) = f u ++ f w) :
    ∀ l : List Str, l ≠ [] → (joinLast l x).flatMap f = l.flatMap f ++ f w := by
  intro l
  induction l with
  | nil => intro h; exact absurd rfl h
  | cons u us ih =>
    intro _
    cases us with
    | nil => simp [joinLast, hf]
    | cons v vs =>
      have := ih (by simp)
      simp only [joinLast, List.flatMap_cons, List.append_assoc] at this ⊢
      rw [this]

/-- The parts of one line: split on semicolons, trimmed, the empty ones dropped. -/
theorem lineParts_append (u w : Str) :
    (((Split ';' (u ++ ';' :: w)).map TrimSpace).filter (fun part => part ≠ [])) =
      (((Split ';' u).map TrimSpace).filter (fun part => part ≠ [])) ++
      (((Split ';' w).map TrimSpace).filter (fun part => part ≠ [])) := by
  rw [Split_append_sep, List.map_append, List.filter_append]

theorem splitItems_append_newline (a b : Str) :
    splitItems (a ++ Char.ofNat 10 :: b) = splitItems a ++ splitItems b := by
  simp only [splitItems, Split_append_sep, List.flatMap_append]

theorem splitItems_append_semicolon (a b : Str) :
    splitItems (a ++ ';' :: b) = splitItems a ++ splitItems b := by
  unfold splitItems
  rw [Split_append (Char.ofNat 10) a (';' :: b)]
  have hsb : Split (Char.ofNat 10) (';' :: b) =
      (';' :: (Split (Char.ofNat 10) b).head!) :: (Split (Char.ofNat 10) b).tail := by
    rw [Split, if_neg (by decide)]
    rcases hs : Split (Char.ofNat 10) b with _ | ⟨w, ws⟩
    · exact absurd hs (Split_ne_nil _ b)
    · simp
  rw [hsb]
  simp only [List.head!_cons, List.tail_cons, List.flatMap_append]
  rw [flatMap_joinLast _ (';' :: (Split (Char.ofNat 10) b).head!) (Split (Char.ofNat 10) b).head!
    (fun u => lineParts_append u _) _ (Split_ne_nil _ a)]
  rcases hs : Split (Char.ofNat 10) b with _ | ⟨w, ws⟩
  · exact absurd hs (Split_ne_nil _ b)
  · simp

/-! ## The second loop on a concatenation -/

theorem parseItems_append (rt : Runtime) (aliases : AliasMap) (xs ys : List Str) :
    ∀ (entries e1 : List TimeEntry), parseItems rt aliases xs entries = (some e1, none) →
      parseItems rt aliases (xs ++ ys) entries = parseItems rt aliases ys e1 := by
  induction xs with
  | nil =>
    intro entries e1 h
    simp only [parseItems, Prod.mk.injEq, Option.some.injEq, and_true] at h
    rw [List.nil_append, h]
  | cons item rest ih =>
    intro entries e1 h
    rcases hx : extractParts item with _ | ⟨issue0, tv⟩
    · simp only [List.cons_append, parseItems, hx] at h ⊢
      exact ih entries e1 h
    · rcases ht : ToTimeSpentSeconds rt tv with ⟨secs, _ | err⟩
      · rw [parseItems_cons_ok rt aliases item rest entries issue0 tv secs hx ht] at h
        rw [List.cons_append,
          parseItems_cons_ok rt aliases item (rest ++ ys) entries issue0 tv secs hx ht]
        exact ih _ e1 h
      · simp [parseItems, hx, ht] at h

/-- The entries already collected are kept in front of the new ones. -/
theorem parseItems_entries (rt : Runtime) (aliases : AliasMap) (ys : List Str) :
    ∀ (acc1 acc2 es : List TimeEntry), parseItems rt aliases ys acc1 = (some es, none) →
      ∃ es1, es = acc1 ++ es1 ∧ parseItems rt aliases ys acc2 = (some (acc2 ++ es1), none) := by
  induction ys with
  | nil =>
    intro acc1 acc2 es h
    simp only [parseItems, Prod.mk.injEq, Option.some.injEq, and_true] at h
    exact ⟨[], by simp [h], by simp [parseItems]⟩
  | cons item rest ih =>
    intro acc1 acc2 es h
    rcases hx : extractParts item with _ | ⟨issue0, tv⟩
    · simp only [parseItems, hx] at h ⊢
      exact ih acc1 acc2 es h
    · rcases ht : ToTimeSpentSeconds rt tv with ⟨secs, _ | err⟩
      · rw [parseItems_cons_ok rt aliases item rest acc1 issue0 tv secs hx ht] at h
        rw [parseItems_cons_ok rt aliases item rest acc2 issue0 tv secs hx ht]
        split at h
        · rename_i hc
          rw [if_pos hc]
          obtain ⟨es1, h1, h2⟩ := ih _ (acc2 ++ [⟨_, secs⟩]) es h
          exact ⟨_ :: es1, by simpa using h1, by simpa using h2⟩
        · rename_i hc
          rw [if_neg hc]
          exact ih acc1 acc2 es h
      · simp [parseItems, hx, ht] at h

theorem ParseTimeEntries_eq (rt : Runtime) (s : Str) (aliases : AliasMap) :
    ParseTimeEntries rt s aliases = parseItems rt aliases (splitItems s) [] := by
  by_cases h : s = []
  · subst h
    have h0 : splitItems [] = [] := by decide
    simp [ParseTimeEntries, h0, parseItems]
  · simp [ParseTimeEntries, h]

theorem parseItems_concat (rt : Runtime) (aliases : AliasMap) (xs ys : List Str)
    (ea eb : List TimeEntry) (ha : parseItems rt aliases xs [] = (some ea, none))
    (hb : parseItems rt aliases ys [] = (some eb, none)) :
    parseItems rt aliases (xs ++ ys) [] = (some (ea ++ eb), none) := by
  rw [parseItems_append rt aliases xs ys [] ea ha]
  obtain ⟨es1, h1, h2⟩ := parseItems_entries rt aliases ys [] ea eb hb
  simp only [List.nil_append] at h1
  rw [h2, h1]

/-- Claim C4. ParseTimeEntries preserves input order and distributes over the
separators: when parsing `a` and parsing `b` both succeed, parsing `a;b` and
parsing `a`, newline, `b` succeed with the entries of `a` followed by those of `b`. -/
theorem C4_distributes (rt : Runtime) (a b : Str) (aliases : AliasMap)
    (ea eb : List TimeEntry) (ha : ParseTimeEntries rt a aliases = (some ea, none))
    (hb : ParseTimeEntries rt b aliases = (some eb, none)) :
    ParseTimeEntries rt (a ++ ';' :: b) aliases = (some (ea ++ eb), none) ∧
    ParseTimeEntries rt (a ++ Char.ofNat 10 :: b) aliases = (some (ea ++ eb), none) := by
  rw [ParseTimeEntries_eq] at ha hb
  rw [ParseTimeEntries_eq, ParseTimeEntries_eq, splitItems_append_semicolon,
    splitItems_append_newline]
  exact ⟨parseItems_concat rt aliases _ _ ea eb ha hb, parseItems_concat rt aliases _ _ ea eb ha hb⟩

/-- Claim C4 at "meetings=1h" and "support=30m" with the aliases meetings to
PROJ-1 and support to PROJ-2: the joined string yields PROJ-1 with 3600 seconds,
then PROJ-2 with 1800 seconds. -/
theorem C4_distributes_witness :
    ParseTimeEntries exampleRuntime "meetings=1h;support=30m".toList exampleAliases =
      (some [⟨"PROJ-1".toList, 3600⟩, ⟨"PROJ-2".toList, 1800⟩], none) ∧
    ParseTimeEntries exampleRuntime "meetings=1h\nsupport=30m".toList exampleAliases =
      (some [⟨"PROJ-1".toList, 3600⟩, ⟨"PROJ-2".toList, 1800⟩], none) :=
  C4_distributes exampleRuntime "meetings=1h".toList "support=30m".toList exampleAliases
    [⟨"PROJ-1".toList, 3600⟩] [⟨"PROJ-2".toList, 1800⟩] (by decide) (by decide)

end JiraWorklogger

namespace JiraWorklogger

/-- Claim C5. Alias resolution is case-insensitive with verbatim fallback. Take
an item whose issue token, after stripping a trailing colon, is `T`, with a
duration of `secs > 0` seconds. If the lower-cased `T` is a key with non-empty
value `v`, the loop appends the entry with issue `v` itself (whether or not `v`
is a key), and a second item whose token differs from the first only in letter
case gives the same result; if the lower-cased `T` is not a key and `T` is not
empty, the entry has issue `T` in its original case. The same holds for
ParseTimeEntries on a string made of that one item. No assumption on the case
of the keys is needed. -/
theorem C5_alias_resolution (rt : Runtime) (aliases : AliasMap) (raw1 raw2 item1 item2 : Str)
    (tok1 tok2 tv : Str) (secs : Int) (rest : List Str) (entries : List TimeEntry)
    (hs1 : splitItems raw1 = [item1]) (hs2 : splitItems raw2 = [item2])
    (hx1 : extractParts item1 = some (tok1, tv)) (hx2 : extractParts item2 = some (tok2, tv))
    (ht : ToTimeSpentSeconds rt tv = (secs, none)) (hpos : 0 < secs) :
    (∀ v, aliases (ToLower rt (TrimSuffix tok1 [':'])) = some v → v ≠ [] →
      parseItems rt aliases (item1 :: rest) entries =
        parseItems rt aliases rest (entries ++ [⟨v, secs⟩]) ∧
      ParseTimeEntries rt raw1 aliases = (some [⟨v, secs⟩], none) ∧
      (ToLower rt (TrimSuffix tok2 [':']) = ToLower rt (TrimSuffix tok1 [':']) →
        parseItems rt aliases (item2 :: rest) entries =
          parseItems rt aliases (item1 :: rest) entries ∧
        ParseTimeEntries rt raw2 aliases = ParseTimeEntries rt raw1 aliases)) ∧
    (aliases (ToLower rt (TrimSuffix tok1 [':'])) = none → TrimSuffix tok1 [':'] ≠ [] →
      parseItems rt aliases (item1 :: rest) entries =
        parseItems rt aliases rest (entries ++ [⟨TrimSuffix tok1 [':'], secs⟩]) ∧
      ParseTimeEntries rt raw1 aliases = (some [⟨TrimSuffix tok1 [':'], secs⟩], none)) := by
  have step1 := fun (r : List Str) (es : List TimeEntry) =>
    parseItems_cons_ok rt aliases item1 r es tok1 tv secs hx1 ht
  have step2 := fun (r : List Str) (es : List TimeEntry) =>
    parseItems_cons_ok rt aliases item2 r es tok2 tv secs hx2 ht
  refine ⟨?_, ?_⟩
  · intro v hv hne
    have e1 : ∀ (r : List Str) (es : List TimeEntry),
        parseItems rt aliases (item1 :: r) es = parseItems rt aliases r (es ++ [⟨v, secs⟩]) := by
      intro r es
      rw [step1, hv, Option.getD_some, if_pos ⟨hne, hpos⟩]
    refine ⟨e1 rest entries, ?_, ?_⟩
    · rw [ParseTimeEntries_eq, hs1, e1]
      rfl
    · intro hcase
      have e2 : ∀ (r : List Str) (es : List TimeEntry),
          parseItems rt aliases (item2 :: r) es = parseItems rt aliases r (es ++ [⟨v, secs⟩]) := by
        intro r es
        rw [step2, hcase, hv, Option.getD_some, if_pos ⟨hne, hpos⟩]
      refine ⟨by rw [e1, e2], ?_⟩
      rw [ParseTimeEntries_eq, ParseTimeEntries_eq, hs1, hs2, e1, e2]
  · intro hv hne
    have e1 : ∀ (r : List Str) (es : List TimeEntry),
        parseItems rt aliases (item1 :: r) es =
          parseItems rt aliases r (es ++ [⟨TrimSuffix tok1 [':'], secs⟩]) := by
      intro r es
      rw [step1, hv, Option.getD_none, if_pos ⟨hne, hpos⟩]
    refine ⟨e1 rest entries, ?_⟩
    rw [ParseTimeEntries_eq, hs1, e1]
    rfl

/-- Claim C5 on examples. With the aliases a to b and b to c, "A:=1h" and "a=1h"
both yield the single entry b (not c) with 3600 seconds; with the aliases
meetings and support, "MEETINGS=1h" and "meetings=1h" both yield PROJ-1, and
"Proj-9=1h", whose token is no alias, keeps its case. -/
theorem C5_alias_resolution_witness :
    (ParseTimeEntries exampleRuntime "A:=1h".toList chainAliases =
        (some [⟨"b".toList, 3600⟩], none) ∧
      ParseTimeEntries exampleRuntime "a=1h".toList chainAliases =
        ParseTimeEntries exampleRuntime "A:=1h".toList chainAliases) ∧
    (ParseTimeEntries exampleRuntime "MEETINGS=1h".toList exampleAliases =
        (some [⟨"PROJ-1".toList, 3600⟩], none) ∧
      ParseTimeEntries exampleRuntime "meetings=1h".toList exampleAliases =
        ParseTimeEntries exampleRuntime "MEETINGS=1h".toList exampleAliases) ∧
    ParseTimeEntries exampleRuntime "Proj-9=1h".toList exampleAliases =
      (some [⟨"Proj-9".toList, 3600⟩], none) := by
  have h1 := (C5_alias_resolution exampleRuntime chainAliases "A:=1h".toList "a=1h".toList
    "A:=1h".toList "a=1h".toList "A:".toList "a".toList "1h".toList 3600 [] []
    (by decide) (by decide) (by decide) (by decide) (by decide) (by decide)).1
    "b".toList (by decide) (by decide)
  have h2 := (C5_alias_resolution exampleRuntime exampleAliases "MEETINGS=1h".toList
    "meetings=1h".toList "MEETINGS=1h".toList "meetings=1h".toList "MEETINGS".toList
    "meetings".toList "1h".toList 3600 [] []
    (by decide) (by decide) (by decide) (by decide) (by decide) (by decide)).1
    "PROJ-1".toList (by decide) (by decide)
  have h3 := (C5_alias_resolution exampleRuntime exampleAliases "Proj-9=1h".toList
    "Proj-9=1h".toList "Proj-9=1h".toList "Proj-9=1h".toList "Proj-9".toList
    "Proj-9".toList "1h".toList 3600 [] []
    (by decide) (by decide) (by decide) (by decide) (by decide) (by decide)).2
    (by decide) (by decide)
  exact ⟨⟨h1.2.1, (h1.2.2 (by decide)).2⟩, ⟨h2.2.1, (h2.2.2 (by decide)).2⟩, h3.2⟩

end JiraWorklogger

namespace JiraWorklogger

/-! ## Conversion to int is truncation toward zero -/

theorem floor_scaled (m : Nat) (e : Int) :
    ⌊(m : ℚ) * (2 : ℚ) ^ e⌋ =
      ((if 0 ≤ e then m * 2 ^ e.toNat else m / 2 ^ (-e).toNat : Nat) : Int) := by
  by_cases he : 0 ≤ e
  · obtain ⟨k, rfl⟩ := Int.eq_ofNat_of_zero_le he
    simp only [he, if_true, Int.toNat_ofNat, zpow_natCast]
    have : (m : ℚ) * 2 ^ k = ((m * 2 ^ k : Nat) : ℚ) := by push_cast; ring
    rw [this]
    exact_mod_cast Int.floor_natCast (m * 2 ^ k)
  · obtain ⟨k, hk⟩ : ∃ k : Nat, e = -(k : Int) := ⟨(-e).toNat, by omega⟩
    subst hk
    simp only [he, if_false, neg_neg, Int.toNat_ofNat, zpow_neg, zpow_natCast]
    have : (m : ℚ) * ((2 : ℚ) ^ k)⁻¹ = ((m : Int) : ℚ) / ((2 ^ k : Nat) : ℚ) := by
      push_cast; rw [div_eq_mul_inv]
    rw [this, Rat.floor_intCast_div_natCast]
    push_cast
    rfl

theorem truncate_eq_floor (neg : Bool) (m : Nat) (e : Int) :
    F64.truncate neg m e =
      if neg then -⌊(m : ℚ) * (2 : ℚ) ^ e⌋ else ⌊(m : ℚ) * (2 : ℚ) ^ e⌋ := by
  rw [floor_scaled]
  rfl

theorem truncQ_signed (neg : Bool) (q : ℚ) (hq : 0 ≤ q) :
    truncQ ((if neg then -1 else 1) * q) = if neg then -⌊q⌋ else ⌊q⌋ := by
  unfold truncQ
  cases neg
  · simp only [Bool.false_eq_true, if_false, one_mul]
    rw [if_neg (not_lt.2 hq)]
  · simp only [if_true, neg_one_mul]
    by_cases h0 : q = 0
    · subst h0
      simp
    · have hpos : 0 < q := lt_of_le_of_ne hq (Ne.symm h0)
      rw [if_pos (by linarith), Int.ceil_neg]

/-- The int of a float64 that fits is its value truncated toward zero. -/
theorem exactInt_eq_truncQ (x : F64) (v : Int) (h : x.exactInt = some v) : v = truncQ x.toRat := by
  cases x with
  | nan => simp [F64.exactInt] at h
  | inf neg => simp [F64.exactInt] at h
  | fin neg m e =>
    simp only [F64.exactInt] at h
    split at h
    · simp only [Option.some.injEq] at h
      rw [← h, truncate_eq_floor]
      have hnn : (0 : ℚ) ≤ (m : ℚ) * (2 : ℚ) ^ e := by positivity
      have := truncQ_signed neg _ hnn
      rw [← this]
      simp only [F64.toRat, mul_assoc]
    · simp at h

end JiraWorklogger

namespace JiraWorklogger

/-! ## Plain decimal numbers -/

theorem matchNumber_decimal (ip fp : Str) (hne : ip ≠ []) (hfne : fp ≠ [])
    (hi : ∀ c ∈ ip, isDigit c) (hf : ∀ c ∈ fp, isDigit c) :
    matchNumber (ip ++ '.' :: fp) = some (ip ++ '.' :: fp, []) := by
  have h1 := takeWhile_digits_append fp [] hf
  have h2 := dropWhile_digits_append fp [] hf
  simp only [List.append_nil, List.takeWhile_nil, List.dropWhile_nil] at h1 h2
  unfold matchNumber
  simp only [takeWhile_digits_append ip _ hi, dropWhile_digits_append ip _ hi]
  simp [List.takeWhile, List.dropWhile, show isDigit '.' = false by decide, hne, h1, h2, hfne]

theorem matchNumber_digits_end (ip : Str) (hne : ip ≠ []) (hi : ∀ c ∈ ip, isDigit c) :
    matchNumber ip = some (ip, []) := by
  have h1 := takeWhile_digits_append ip [] hi
  have h2 := dropWhile_digits_append ip [] hi
  simp only [List.append_nil, List.takeWhile_nil, List.dropWhile_nil] at h1 h2
  simp [matchNumber, h1, h2, hne]

/-- No regular expression of ToTimeSpentSeconds matches a plain decimal number. -/
theorem regex_decimal_form (ip fp : Str) (hne : ip ≠ [])
    (hi : ∀ c ∈ ip, isDigit c) (hf : ∀ c ∈ fp, isDigit c) :
    hoursAndMinutes (decimalText ip fp) = none ∧ hours (decimalText ip fp) = none ∧
      minutes (decimalText ip fp) = none ∧ hoursMinutes (decimalText ip fp) = none := by
  unfold decimalText
  by_cases hfp : fp = []
  · simp only [hfp, if_true]
    have h1 := matchNumber_digits_end ip hne hi
    have h2 := matchInt_digits_end ip hne hi
    refine ⟨?_, ?_, ?_, ?_⟩
    · simp [hoursAndMinutes, h1]
    · simp [hours, h1]
    · simp [minutes, h2]
    · simp [hoursMinutes, h2]
  · simp only [hfp, if_false]
    have h1 := matchNumber_decimal ip fp hne hfp hi hf
    have h2 := matchInt_digits ip '.' fp hne hi (by decide)
    refine ⟨?_, ?_, ?_, ?_⟩
    · simp [hoursAndMinutes, h1]
    · simp [hours, h1]
    · simp [minutes, h2, List.dropWhile, isReSpace]
    · simp [hoursMinutes, h2]

theorem isPlain_decimalText (ip fp : Str) (hi : ∀ c ∈ ip, isDigit c) (hf : ∀ c ∈ fp, isDigit c) :
    ∀ c ∈ decimalText ip fp, isPlain c := by
  unfold decimalText
  split
  · exact isPlain_forall_digits ip hi
  · refine isPlain_forall_append _ _ (isPlain_forall_digits ip hi) ?_
    intro c hc
    rcases List.mem_cons.1 hc with rfl | h
    · decide
    · exact isPlain_of_isDigit c (hf c h)

theorem roundToF64_eq_inf (neg neg2 : Bool) (num den : Nat)
    (h : roundToF64 neg num den = F64.inf neg2) : neg2 = neg := by
  simp only [roundToF64] at h
  split_ifs at h
  all_goals first | (cases h; done) | (cases h; rfl)

/-- A plain decimal number in the float64 range parses to the float64 nearest to it. -/
theorem ParseFloat_decimalText (ip fp : Str) (hne : ip ≠ [])
    (hi : ∀ c ∈ ip, isDigit c) (hf : ∀ c ∈ fp, isDigit c)
    (hfin : roundToF64 false (digitsVal (ip ++ fp)) (10 ^ fp.length) ≠ F64.inf false) :
    ParseFloat (decimalText ip fp) =
      (roundToF64 false (digitsVal (ip ++ fp)) (10 ^ fp.length), none) := by
  have hsp : special (decimalText ip fp) = none := by
    cases ip with
    | nil => exact absurd rfl hne
    | cons c cs =>
      unfold decimalText
      split
      · exact special_of_digit c cs (hi c (List.mem_cons_self _ _))
      · exact special_of_digit c _ (hi c (List.mem_cons_self _ _))
  have hrf : ∃ l, readFloat (decimalText ip fp) = some (l, []) ∧
      l.toF64 = roundToF64 false (digitsVal (ip ++ fp)) (10 ^ fp.length) := by
    unfold decimalText
    by_cases hfp : fp = []
    · subst hfp
      exact ⟨_, by simpa using readFloat_digits ip hne hi, by simp [FloatLit.toF64]⟩
    · refine ⟨_, by simpa [hfp] using readFloat_decimal ip fp hne hi hf, ?_⟩
      have hl : ¬ (0 : Int) ≤ -(fp.length : Int) := by
        have := List.length_pos.2 hfp
        omega
      simp [FloatLit.toF64, hl]
  obtain ⟨l, hl1, hl2⟩ := hrf
  unfold ParseFloat
  simp only [hsp, hl1, hl2]
  split
  · rename_i neg heq
    have hneg : neg = false := roundToF64_eq_inf _ _ _ _ heq
    subst hneg
    exact absurd heq hfin
  · rfl

/-- Claim C6, amended. A plain unsigned decimal number (digits, optionally a
point and more digits) whose nearest float64 `x` is finite is read as hours: the
result is the Go conversion to int of the float64 product `x * 3600`, and when
that product fits the 64-bit int it is the product truncated toward zero, not
rounded to the nearest second. -/
theorem C6_plain_decimal_truncates (rt : Runtime) (ip fp : Str) (hne : ip ≠ [])
    (hi : ∀ c ∈ ip, isDigit c) (hf : ∀ c ∈ fp, isDigit c)
    (hfin : roundToF64 false (digitsVal (ip ++ fp)) (10 ^ fp.length) ≠ F64.inf false) :
    ParseFloat (decimalText ip fp) =
      (roundToF64 false (digitsVal (ip ++ fp)) (10 ^ fp.length), none) ∧
    ToTimeSpentSeconds rt (decimalText ip fp) =
      (floatToInt rt ((roundToF64 false (digitsVal (ip ++ fp)) (10 ^ fp.length)).mul f3600),
        none) ∧
    ∀ v, ((roundToF64 false (digitsVal (ip ++ fp)) (10 ^ fp.length)).mul f3600).exactInt = some v →
      ToTimeSpentSeconds rt (decimalText ip fp) = (v, none) ∧
      v = truncQ ((roundToF64 false (digitsVal (ip ++ fp)) (10 ^ fp.length)).mul f3600).toRat := by
  have hp := ParseFloat_decimalText ip fp hne hi hf hfin
  obtain ⟨r1, r2, r3, r4⟩ := regex_decimal_form ip fp hne hi hf
  have htok := token_of_isPlain rt _ (isPlain_decimalText ip fp hi hf)
  have hnn : decimalText ip fp ≠ [] := by
    unfold decimalText
    split
    · exact hne
    · simp
  have ht := tts_float rt _ _ _ htok hnn r1 r2 r3 r4 hp
  refine ⟨hp, ht, ?_⟩
  intro v hv
  exact ⟨by rw [ht, floatToInt_of_exactInt rt _ v hv], exactInt_eq_truncQ _ v hv⟩

/-- Claim C6 on its examples: "2" yields 7200, "0.25" yields 900 and "0.0005",
whose product with 3600 is 1.8, yields 1. -/
theorem C6_plain_decimal_truncates_witness :
    ToTimeSpentSeconds exampleRuntime "2".toList = (7200, none) ∧
    ToTimeSpentSeconds exampleRuntime "0.25".toList = (900, none) ∧
    ToTimeSpentSeconds exampleRuntime "0.0005".toList = (1, none) :=
  ⟨((C6_plain_decimal_truncates exampleRuntime "2".toList [] (by decide) (by decide)
      (by decide) (by decide)).2.2 7200 (by decide)).1,
   ((C6_plain_decimal_truncates exampleRuntime "0".toList "25".toList (by decide) (by decide)
      (by decide) (by decide)).2.2 900 (by decide)).1,
   ((C6_plain_decimal_truncates exampleRuntime "0".toList "0005".toList (by decide) (by decide)
      (by decide) (by decide)).2.2 1 (by decide)).1⟩

/-- Claim C6 as stated fails: "0.0005" is 1.8 seconds, which rounds to 2, but
the result is 1; and "1.13" is exactly 4068 seconds, but the result is 4067. -/
theorem C6_counterexample :
    ToTimeSpentSeconds exampleRuntime "0.0005".toList = (1, none) ∧
    round ((5 : ℚ) / 10000 * 3600) = 2 ∧
    ToTimeSpentSeconds exampleRuntime "1.13".toList = (4067, none) ∧
    round ((113 : ℚ) / 100 * 3600) = 4068 := by
  refine ⟨by decide, ?_, by decide, ?_⟩
  · norm_num [round_eq]
  · norm_num [round_eq]

end JiraWorklogger

namespace JiraWorklogger

/-! ## The characters of a text accepted by ParseFloat -/

theorem readDigits_split (hex : Bool) :
    ∀ (s : Str) (st : Digits),
      ∃ pre, s = pre ++ (readDigits hex s st).2 ∧ ∀ c ∈ pre, isFloatChar c := by
  intro s
  induction s with
  | nil => intro st; exact ⟨[], by simp [readDigits], by simp⟩
  | cons c cs ih =>
    intro st
    unfold readDigits
    by_cases h1 : c = '_'
    · simp only [h1, if_true]
      obtain ⟨pre, hp, hc⟩ := ih { st with underscores := true }
      refine ⟨'_' :: pre, by rw [List.cons_append, ← hp], ?_⟩
      intro d hd
      rcases List.mem_cons.1 hd with rfl | hd
      · decide
      · exact hc d hd
    · simp only [h1, if_false]
      by_cases h2 : c = '.'
      · simp only [h2, if_true]
        by_cases h3 : st.sawdot = true
        · simp only [h3, if_true]
          exact ⟨[], by simp, by simp⟩
        · simp only [h3, Bool.false_eq_true, if_false]
          obtain ⟨pre, hp, hc⟩ := ih { st with sawdot := true }
          refine ⟨'.' :: pre, by rw [List.cons_append, ← hp], ?_⟩
          intro d hd
          rcases List.mem_cons.1 hd with rfl | hd
          · decide
          · exact hc d hd
      · simp only [h2, if_false]
        by_cases h3 : isDigit c = true
        · simp only [h3, if_true]
          obtain ⟨pre, hp, hc⟩ := ih { st with
            sawdigits := true
            mant := st.mant * (if hex then 16 else 10) + digitVal c
            nfrac := if st.sawdot then st.nfrac + 1 else st.nfrac }
          refine ⟨c :: pre, by rw [List.cons_append, ← hp], ?_⟩
          intro d hd
          rcases List.mem_cons.1 hd with rfl | hd
          · simp [isFloatChar, h3]
          · exact hc d hd
        · simp only [h3, Bool.false_eq_true, if_false]
          by_cases h4 : hex = true ∧ isHexLetter c = true
          · obtain ⟨hh, hl⟩ := h4
            subst hh
            simp only [hl, and_self, if_true]
            obtain ⟨pre, hp, hc⟩ := ih { st with
              sawdigits := true
              mant := st.mant * 16 + hexLetterVal c
              nfrac := if st.sawdot then st.nfrac + 1 else st.nfrac }
            refine ⟨c :: pre, by rw [List.cons_append, ← hp], ?_⟩
            intro d hd
            rcases List.mem_cons.1 hd with rfl | hd
            · simp [isFloatChar, hl]
            · exact hc d hd
          · simp only [h4, if_false]
            exact ⟨[], by simp, by simp⟩

theorem readExpDigits_split :
    ∀ (s : Str) (e : Nat) (us : Bool),
      ∃ pre, s = pre ++ (readExpDigits s e us).2.2 ∧ ∀ c ∈ pre, isFloatChar c := by
  intro s
  induction s with
  | nil => intro e us; exact ⟨[], by simp [readExpDigits], by simp⟩
  | cons c cs ih =>
    intro e us
    unfold readExpDigits
    by_cases h1 : c = '_'
    · simp only [h1, if_true]
      obtain ⟨pre, hp, hc⟩ := ih e true
      refine ⟨'_' :: pre, by rw [List.cons_append, ← hp], ?_⟩
      intro d hd
      rcases List.mem_cons.1 hd with rfl | hd
      · decide
      · exact hc d hd
    · simp only [h1, if_false]
      by_cases h3 : isDigit c = true
      · simp only [h3, if_true]
        obtain ⟨pre, hp, hc⟩ := ih (if e < 10000 then e * 10 + digitVal c else e) us
        refine ⟨c :: pre, by rw [List.cons_append, ← hp], ?_⟩
        intro d hd
        rcases List.mem_cons.1 hd with rfl | hd
        · simp [isFloatChar, h3]
        · exact hc d hd
      · simp only [h3, Bool.false_eq_true, if_false]
        exact ⟨[], by simp, by simp⟩

end JiraWorklogger

namespace JiraWorklogger

theorem isFloatChar_of_isLetterCI (l c : Char) (hl : isFloatChar l = true)
    (hu : ∀ u : Char, u.toNat + 32 = l.toNat → isFloatChar u = true)
    (h : isLetterCI l c = true) : isFloatChar c = true := by
  simp only [isLetterCI, Bool.decide_or, Bool.or_eq_true, decide_eq_true_eq] at h
  rcases h with rfl | h
  · exact hl
  · exact hu c h

theorem char_eq_of_toNat (u : Char) (n : Nat) (h : u.toNat = n) : u = Char.ofNat n := by
  subst h
  exact (Char.ofNat_toNat u).symm

theorem isFloatChar_x (c : Char) (h : isLetterCI 'x' c = true) : isFloatChar c = true :=
  isFloatChar_of_isLetterCI 'x' c (by decide)
    (fun u hu => by
      have := char_eq_of_toNat u 88 (by have h2 : ('x' : Char).toNat = 120 := rfl; omega)
      subst this; decide) h

theorem isFloatChar_e (c : Char) (h : isLetterCI 'e' c = true) : isFloatChar c = true :=
  isFloatChar_of_isLetterCI 'e' c (by decide)
    (fun u hu => by
      have := char_eq_of_toNat u 69 (by have h2 : ('e' : Char).toNat = 101 := rfl; omega)
      subst this; decide) h

theorem isFloatChar_p (c : Char) (h : isLetterCI 'p' c = true) : isFloatChar c = true :=
  isFloatChar_of_isLetterCI 'p' c (by decide)
    (fun u hu => by
      have := char_eq_of_toNat u 80 (by have h2 : ('p' : Char).toNat = 112 := rfl; omega)
      subst this; decide) h

theorem readFloat_chars (s : Str) (l : FloatLit) (h : readFloat s = some (l, [])) :
    ∀ c ∈ s, isFloatChar c = true := by
  cases s with
  | nil => simp [readFloat] at h
  | cons c0 tl =>
    unfold readFloat at h
    simp only at h
    generalize hs1 : (if c0 = '+' ∨ c0 = '-' then (c0 :: tl).tail else c0 :: tl) = s1 at h
    generalize hhex : (match s1 with
      | '0' :: x :: _ :: _ => isLetterCI 'x' x
      | _ => false) = hex at h
    generalize hs2 : (if hex = true then List.drop 2 s1 else s1) = s2 at h
    rcases hrd : readDigits hex s2 ⟨0, 0, false, false, false⟩ with ⟨d, s3⟩
    rw [hrd] at h
    simp only at h
    -- the sign
    have hA : (∀ c ∈ s1, isFloatChar c = true) → ∀ c ∈ c0 :: tl, isFloatChar c = true := by
      intro hall
      by_cases hsg : c0 = '+' ∨ c0 = '-'
      · rw [if_pos hsg, List.tail_cons] at hs1
        subst hs1
        intro c hc
        rcases List.mem_cons.1 hc with rfl | hc
        · rcases hsg with rfl | rfl <;> decide
        · exact hall c hc
      · rw [if_neg hsg] at hs1
        subst hs1
        exact hall
    -- the base mark
    have hB : (∀ c ∈ s2, isFloatChar c = true) → ∀ c ∈ s1, isFloatChar c = true := by
      intro hall
      cases hex with
      | false =>
        simp only [Bool.false_eq_true, if_false] at hs2
        subst hs2
        exact hall
      | true =>
        simp only [if_true] at hs2
        split at hhex
        · rename_i x y ys
          simp only [List.drop_succ_cons, List.drop_zero] at hs2
          subst hs2
          intro c hc
          rcases List.mem_cons.1 hc with rfl | hc
          · decide
          · rcases List.mem_cons.1 hc with rfl | hc
            · exact isFloatChar_x _ hhex
            · exact hall c hc
        · cases hhex
    -- the digits
    have hC : (∀ c ∈ s3, isFloatChar c = true) → ∀ c ∈ s2, isFloatChar c = true := by
      intro hall
      obtain ⟨pre, hp, hc⟩ := readDigits_split hex s2 ⟨0, 0, false, false, false⟩
      rw [hrd] at hp
      rw [hp]
      intro c hcm
      rcases List.mem_append.1 hcm with hcm | hcm
      · exact hc c hcm
      · exact hall c hcm
    apply hA
    apply hB
    apply hC
    -- the exponent
    have hsd : d.sawdigits = true := by
      by_contra hn
      simp [hn] at h
    simp only [hsd, not_true_eq_false, if_false] at h
    cases s3 with
    | nil => intro c hc; cases hc
    | cons c s4 =>
      simp only at h
      by_cases hexp : isLetterCI (if hex = true then 'p' else 'e') c = true
      · rw [if_pos hexp] at h
        have hcexp : isFloatChar c = true := by
          cases hex with
          | false => exact isFloatChar_e c (by simpa using hexp)
          | true => exact isFloatChar_p c (by simpa using hexp)
        cases s4 with
        | nil => simp at h
        | cons c1 s5 =>
          simp only at h
          generalize hs6 : (if c1 = '+' ∨ c1 = '-' then s5 else c1 :: s5) = s6 at h
          cases s6 with
          | nil => simp at h
          | cons c2 t2 =>
            simp only at h
            by_cases hd2 : isDigit c2 = true
            · simp only [hd2, not_true_eq_false, if_false] at h
              split at h
              · simp at h
              · simp only [Option.some.injEq, Prod.mk.injEq] at h
                obtain ⟨pre, hp, hc⟩ := readExpDigits_split (c2 :: t2) 0 d.underscores
                rw [h.2, List.append_nil] at hp
                have h6 : ∀ c ∈ c2 :: t2, isFloatChar c = true := by rw [hp]; exact hc
                have h45 : ∀ c ∈ c1 :: s5, isFloatChar c = true := by
                  by_cases hsg : c1 = '+' ∨ c1 = '-'
                  · rw [if_pos hsg] at hs6
                    subst hs6
                    intro c hcm
                    rcases List.mem_cons.1 hcm with rfl | hcm
                    · rcases hsg with rfl | rfl <;> decide
                    · exact h6 c hcm
                  · rw [if_neg hsg] at hs6
                    rw [hs6]
                    exact h6
                intro c hcm
                rcases List.mem_cons.1 hcm with rfl | hcm
                · exact hcexp
                · exact h45 c hcm
            · simp [hd2] at h
      · rw [if_neg hexp] at h
        split at h
        · simp at h
        · split at h
          · simp at h
          · simp at h

end JiraWorklogger

namespace JiraWorklogger

theorem isFloatChar_CI (l c : Char) (hl : isFloatChar l = true)
    (hU : isFloatChar (Char.ofNat (l.toNat - 32)) = true) (h : isLetterCI l c = true) :
    isFloatChar c = true := by
  refine isFloatChar_of_isLetterCI l c hl (fun u hu => ?_) h
  have := char_eq_of_toNat u (l.toNat - 32) (by omega)
  rw [this]
  exact hU

theorem commonLenIgnoreCase_le : ∀ (s p : Str), commonLenIgnoreCase s p ≤ s.length := by
  intro s
  induction s with
  | nil => intro p; simp [commonLenIgnoreCase]
  | cons c cs ih =>
    intro p
    cases p with
    | nil => simp [commonLenIgnoreCase]
    | cons q ps =>
      unfold commonLenIgnoreCase
      split
      · have := ih ps
        simp only [List.length_cons]
        omega
      · omega

theorem commonLenIgnoreCase_chars : ∀ (s p : Str), commonLenIgnoreCase s p = s.length →
    ∀ c ∈ s, ∃ l ∈ p, isLetterCI l c = true := by
  intro s
  induction s with
  | nil => intro p _ c hc; cases hc
  | cons c cs ih =>
    intro p h d hd
    cases p with
    | nil => simp [commonLenIgnoreCase] at h
    | cons q ps =>
      unfold commonLenIgnoreCase at h
      split at h
      · rename_i hq
        simp only [List.length_cons, Nat.add_right_cancel_iff] at h
        rcases List.mem_cons.1 hd with rfl | hd
        · exact ⟨q, List.mem_cons_self _ _, hq⟩
        · obtain ⟨l, hl, hl2⟩ := ih ps h d hd
          exact ⟨l, List.mem_cons_of_mem _ hl, hl2⟩
      · simp at h

theorem isFloatChar_of_word (p : Str)
    (hp : ∀ l ∈ p, isFloatChar l = true ∧ isFloatChar (Char.ofNat (l.toNat - 32)) = true)
    (s : Str) (h : commonLenIgnoreCase s p = s.length) : ∀ c ∈ s, isFloatChar c = true := by
  intro c hc
  obtain ⟨l, hl, hl2⟩ := commonLenIgnoreCase_chars s p h c hc
  exact isFloatChar_CI l c (hp l hl).1 (hp l hl).2 hl2

theorem specialInf_chars (neg : Bool) (nsign : Nat) (s : Str) (v : F64) (n : Nat)
    (h : specialInf neg nsign s = some (v, n)) (hn : n = nsign + s.length) :
    ∀ c ∈ s, isFloatChar c = true := by
  have hle := commonLenIgnoreCase_le s "infinity".toList
  apply isFloatChar_of_word "infinity".toList (by decide) s
  unfold specialInf at h
  generalize commonLenIgnoreCase s "infinity".toList = k at h hle ⊢
  simp only at h
  split_ifs at h with h1 h2 h3
  · simp only [Option.some.injEq, Prod.mk.injEq] at h
    omega
  · simp only [Option.some.injEq, Prod.mk.injEq] at h
    omega

theorem special_chars (s : Str) (v : F64) (n : Nat) (h : special s = some (v, n))
    (hn : n = s.length) : ∀ c ∈ s, isFloatChar c = true := by
  cases s with
  | nil => simp [special] at h
  | cons c cs =>
    simp only [special] at h
    split_ifs at h with h1 h2 h3 h4
    · have := specialInf_chars _ 1 cs v n h (by simp only [List.length_cons] at hn; omega)
      intro d hd
      rcases List.mem_cons.1 hd with rfl | hd
      · rcases h1 with rfl | rfl <;> decide
      · exact this d hd
    · exact specialInf_chars _ 0 (c :: cs) v n h (by omega)
    · simp only [Option.some.injEq, Prod.mk.injEq] at h
      apply isFloatChar_of_word "nan".toList (by decide) (c :: cs)
      rw [h4, ← hn, h.2]

/-- A text accepted by strconv.ParseFloat is made of float characters only. -/
theorem ParseFloat_chars (s : Str) (h : (ParseFloat s).2 = none) :
    ∀ c ∈ s, isFloatChar c = true := by
  unfold ParseFloat at h
  split at h
  · rename_i v n hsp
    split at h
    · rename_i hn
      exact special_chars s v n hsp hn
    · simp at h
  · split at h
    · rename_i l hr
      exact readFloat_chars s l hr
    · simp at h

/-- A text containing `h`, `m` or a colon is rejected by strconv.ParseFloat. -/
theorem ParseFloat_rejects_marks (s : Str) (h : 'h' ∈ s ∨ 'm' ∈ s ∨ ':' ∈ s) :
    (ParseFloat s).2.isSome = true := by
  by_contra hn
  have hnone : (ParseFloat s).2 = none := by
    cases hp : (ParseFloat s).2 with
    | none => rfl
    | some e => simp [hp] at hn
  have hc := ParseFloat_chars s hnone
  rcases h with h | h | h
  · exact absurd (hc _ h) (by decide)
  · exact absurd (hc _ h) (by decide)
  · exact absurd (hc _ h) (by decide)

end JiraWorklogger

namespace JiraWorklogger

/-! ## Which inputs ToTimeSpentSeconds accepts -/

theorem isSpace_toLowerRune (rt : Runtime)
    (hsp : ∀ c, isSpace c = true → isSpace (rt.unicodeLower c) = true) (c : Char)
    (h : isSpace c = true) : isSpace (toLowerRune rt c) = true := by
  unfold toLowerRune
  split
  · split
    · rename_i h1 h2
      simp only [isSpace, Bool.decide_or, Bool.decide_and, Bool.or_eq_true, Bool.and_eq_true,
        decide_eq_true_eq] at h
      omega
    · exact h
  · exact hsp c h

theorem TrimSpace_of_all_space (s : Str) (h : ∀ c ∈ s, isSpace c = true) : TrimSpace s = [] := by
  unfold TrimSpace
  have : s.dropWhile isSpace = [] := by
    rw [List.dropWhile_eq_nil_iff]
    exact h
  rw [this]
  rfl

/-- Claim C7, amended. A string whose lower-cased, trimmed form is empty yields 0
with no error; so does every string of white space, provided lower-casing maps
white space to white space. Any other input fails exactly when its trimmed,
lower-cased token matches none of the four regular expressions and is rejected
by strconv.ParseFloat; a failure returns 0 and the message "unable to parse
time: " followed by that token. "garbage", "1.5m" and "1h30" are rejected, but
"1e3" is accepted (3600000 seconds). -/
theorem C7_accepts_iff (rt : Runtime) (s : Str) :
    (TrimSpace (ToLower rt s) = [] → ToTimeSpentSeconds rt s = (0, none)) ∧
    ((∀ c, isSpace c = true → isSpace (rt.unicodeLower c) = true) →
      (∀ c ∈ s, isSpace c = true) → ToTimeSpentSeconds rt s = (0, none)) ∧
    (TrimSpace (ToLower rt s) ≠ [] →
      ((ToTimeSpentSeconds rt s).2.isSome = true ↔
        hoursAndMinutes (TrimSpace (ToLower rt s)) = none ∧
        hours (TrimSpace (ToLower rt s)) = none ∧
        minutes (TrimSpace (ToLower rt s)) = none ∧
        hoursMinutes (TrimSpace (ToLower rt s)) = none ∧
        (ParseFloat (TrimSpace (ToLower rt s))).2.isSome = true) ∧
      ((ToTimeSpentSeconds rt s).2.isSome = true →
        ToTimeSpentSeconds rt s =
          (0, some ("unable to parse time: ".toList ++ TrimSpace (ToLower rt s))))) ∧
    ToTimeSpentSeconds rt "garbage".toList =
      (0, some "unable to parse time: garbage".toList) ∧
    ToTimeSpentSeconds rt "1.5m".toList = (0, some "unable to parse time: 1.5m".toList) ∧
    ToTimeSpentSeconds rt "1h30".toList = (0, some "unable to parse time: 1h30".toList) ∧
    ToTimeSpentSeconds rt "1e3".toList = (3600000, none) := by
  refine ⟨tts_empty rt s, ?_, ?_, ?_, ?_, ?_, ?_⟩
  · intro hsp hall
    apply tts_empty
    apply TrimSpace_of_all_space
    intro c hc
    simp only [ToLower, List.mem_map] at hc
    obtain ⟨d, hd, rfl⟩ := hc
    exact isSpace_toLowerRune rt hsp d (hall d hd)
  · intro hne
    generalize ht : TrimSpace (ToLower rt s) = t at hne ⊢
    rcases h1 : hoursAndMinutes t with _ | ⟨g1, g3⟩
    · rcases h2 : hours t with _ | g1
      · rcases h3 : minutes t with _ | g1
        · rcases h4 : hoursMinutes t with _ | ⟨g1, g2⟩
          · rcases h5 : ParseFloat t with ⟨x, _ | e⟩
            · rw [tts_float rt s t x ht hne h1 h2 h3 h4 h5]
              simp
            · rw [tts_reject rt s t ht hne h1 h2 h3 h4 (by simp [h5])]
              simp
          · rw [tts_hoursMinutes rt s t g1 g2 ht hne h1 h2 h3 h4]
            simp
        · rw [tts_minutes rt s t g1 ht hne h1 h2 h3]
          simp
      · rw [tts_hours rt s t g1 ht hne h1 h2]
        simp
    · rw [tts_hoursAndMinutes rt s t g1 g3 ht hne h1]
      simp
  · exact tts_reject rt _ "garbage".toList rfl (by decide) (by decide) (by decide) (by decide)
      (by decide) (by decide)
  · exact tts_reject rt _ "1.5m".toList rfl (by decide) (by decide) (by decide) (by decide)
      (by decide) (by decide)
  · exact tts_reject rt _ "1h30".toList rfl (by decide) (by decide) (by decide) (by decide)
      (by decide) (by decide)
  · exact tts_float_exact rt _ "1e3".toList 3600000 rfl (by decide) (by decide) (by decide)
      (by decide) (by decide) (by decide) (by decide)

/-- Claim C7 as stated fails: "1e3" and "inf" are not rejected. -/
theorem C7_counterexample :
    ToTimeSpentSeconds exampleRuntime "1e3".toList = (3600000, none) ∧
    (ToTimeSpentSeconds exampleRuntime "inf".toList).2 = none := by
  refine ⟨by decide, by decide⟩

end JiraWorklogger

namespace JiraWorklogger

/-! ## Tokens that begin with a minus sign -/

theorem readFloat_neg (c0 : Char) (tl : Str) (l : FloatLit) (r : Str)
    (h : readFloat (c0 :: tl) = some (l, r)) : l.neg = decide (c0 = '-') := by
  unfold readFloat at h
  simp only at h
  generalize (if c0 = '+' ∨ c0 = '-' then (c0 :: tl).tail else c0 :: tl) = s1 at h
  generalize (match s1 with
    | '0' :: x :: _ :: _ => isLetterCI 'x' x
    | _ => false) = hex at h
  generalize (if hex = true then List.drop 2 s1 else s1) = s2 at h
  generalize readDigits hex s2 ⟨0, 0, false, false, false⟩ = p at h
  obtain ⟨d, s3⟩ := p
  simp only at h
  repeat' split at h
  all_goals first
    | (simp at h; done)
    | (simp only [Option.some.injEq, Prod.mk.injEq] at h; rw [← h.1])

theorem ite_inf_or_fin (neg : Bool) (C : Prop) [Decidable C] (m : Nat) (e : Int) :
    (if C then F64.inf neg else F64.fin neg m e) = F64.inf neg ∨
      ∃ m1 e1, (if C then F64.inf neg else F64.fin neg m e) = F64.fin neg m1 e1 := by
  split_ifs
  · exact Or.inl rfl
  · exact Or.inr ⟨_, _, rfl⟩

theorem roundToF64_sign (neg : Bool) (num den : Nat) :
    roundToF64 neg num den = F64.inf neg ∨ ∃ m e, roundToF64 neg num den = F64.fin neg m e := by
  unfold roundToF64
  by_cases h0 : num = 0 ∨ den = 0
  · rw [if_pos h0]
    exact Or.inr ⟨_, _, rfl⟩
  · rw [if_neg h0]
    exact ite_inf_or_fin neg _ _ _

theorem specialInf_value (neg : Bool) (nsign : Nat) (s : Str) (v : F64) (n : Nat)
    (h : specialInf neg nsign s = some (v, n)) : v = F64.inf neg := by
  unfold specialInf at h
  simp only at h
  split_ifs at h
  all_goals simp only [Option.some.injEq, Prod.mk.injEq] at h
  all_goals exact h.1.symm

theorem toF64_sign (l : FloatLit) :
    l.toF64 = F64.inf l.neg ∨ ∃ m e, l.toF64 = F64.fin l.neg m e := by
  unfold FloatLit.toF64
  simp only
  split
  · exact roundToF64_sign _ _ _
  · exact roundToF64_sign _ _ _

/-- A text with a leading minus sign that ParseFloat accepts is the negative
infinity or a finite value with the sign bit set. -/
theorem ParseFloat_minus (rest : Str) (x : F64) (h : ParseFloat ('-' :: rest) = (x, none)) :
    x = F64.inf true ∨ ∃ m e, x = F64.fin true m e := by
  unfold ParseFloat at h
  split at h
  · rename_i v n hsp
    split at h
    · simp only [Prod.mk.injEq, and_true] at h
      subst h
      simp only [special, or_true, if_true, decide_True] at hsp
      exact Or.inl (specialInf_value _ _ _ _ _ hsp)
    · simp at h
  · split at h
    · rename_i l hr
      have hn := readFloat_neg '-' rest l [] hr
      simp only [decide_True] at hn
      have hs := toF64_sign l
      rw [hn] at hs
      split at h
      · simp at h
      · rename_i hv
        simp only [Prod.mk.injEq, and_true] at h
        subst h
        rcases hs with hs | hs
        · exact absurd hs (hv true)
        · exact Or.inr hs
    · simp at h

theorem mul_f3600_minus (x : F64) (hx : x = F64.inf true ∨ ∃ m e, x = F64.fin true m e) :
    x.mul f3600 = F64.inf true ∨ ∃ m e, x.mul f3600 = F64.fin true m e := by
  rcases hx with rfl | ⟨m, e, rfl⟩
  · left
    decide
  · simp only [F64.mul, f3600, Bool.xor_false]
    split
    · exact roundToF64_sign true _ _
    · exact roundToF64_sign true _ _

theorem regex_minus (rest : Str) :
    hoursAndMinutes ('-' :: rest) = none ∧ hours ('-' :: rest) = none ∧
      minutes ('-' :: rest) = none ∧ hoursMinutes ('-' :: rest) = none := by
  have h1 : matchNumber ('-' :: rest) = none := by
    simp [matchNumber, List.takeWhile, show isDigit '-' = false by decide]
  have h2 : matchInt ('-' :: rest) = none := by
    simp [matchInt, List.takeWhile, show isDigit '-' = false by decide]
  exact ⟨by simp [hoursAndMinutes, h1], by simp [hours, h1], by simp [minutes, h2],
    by simp [hoursMinutes, h2]⟩

end JiraWorklogger

namespace JiraWorklogger

theorem toRat_nonpos_of_minus (y : F64)
    (hy : y = F64.inf true ∨ ∃ m e, y = F64.fin true m e) : y.toRat ≤ 0 := by
  rcases hy with rfl | ⟨m, e, rfl⟩
  · simp [F64.toRat]
  · have hnn : (0 : ℚ) ≤ (m : ℚ) * (2 : ℚ) ^ e := by positivity
    simp only [F64.toRat, if_true, neg_one_mul, neg_mul]
    linarith

theorem truncQ_nonpos (q : ℚ) (hq : q ≤ 0) : truncQ q ≤ 0 := by
  unfold truncQ
  split
  · exact Int.ceil_le.2 (by exact_mod_cast hq)
  · have h0 : q = 0 := le_antisymm hq (not_lt.1 ‹_›)
    subst h0
    simp

/-- Claim C8, amended. Let the trimmed, lower-cased token begin with "-". No
regular expression matches it, so ToTimeSpentSeconds fails exactly when
strconv.ParseFloat rejects the token, which it does whenever the token contains
an `h`, an `m` or a colon. When ParseFloat accepts it with value `x`, the result
is the Go conversion to int of the float64 product `x * 3600`, whose value is
never positive; when that product fits the 64-bit int the result is the product
truncated toward zero, with no clamping, and it is not positive. -/
theorem C8_minus_tokens (rt : Runtime) (s rest : Str)
    (ht : TrimSpace (ToLower rt s) = '-' :: rest) :
    ((ToTimeSpentSeconds rt s).2.isSome = true ↔ (ParseFloat ('-' :: rest)).2.isSome = true) ∧
    (('h' ∈ rest ∨ 'm' ∈ rest ∨ ':' ∈ rest) →
      ToTimeSpentSeconds rt s = (0, some ("unable to parse time: ".toList ++ '-' :: rest))) ∧
    (∀ x, ParseFloat ('-' :: rest) = (x, none) →
      ToTimeSpentSeconds rt s = (floatToInt rt (x.mul f3600), none) ∧
      (x.mul f3600).toRat ≤ 0 ∧
      ∀ v, (x.mul f3600).exactInt = some v →
        ToTimeSpentSeconds rt s = (v, none) ∧ v ≤ 0 ∧ v = truncQ (x.mul f3600).toRat) := by
  obtain ⟨r1, r2, r3, r4⟩ := regex_minus rest
  have hne : ('-' :: rest) ≠ [] := by simp
  refine ⟨?_, ?_, ?_⟩
  · rcases h5 : ParseFloat ('-' :: rest) with ⟨x, _ | e⟩
    · rw [tts_float rt s _ x ht hne r1 r2 r3 r4 h5]
      simp
    · rw [tts_reject rt s _ ht hne r1 r2 r3 r4 (by simp [h5])]
      simp
  · intro hm
    apply tts_reject rt s _ ht hne r1 r2 r3 r4
    apply ParseFloat_rejects_marks
    rcases hm with h | h | h
    · exact Or.inl (List.mem_cons_of_mem _ h)
    · exact Or.inr (Or.inl (List.mem_cons_of_mem _ h))
    · exact Or.inr (Or.inr (List.mem_cons_of_mem _ h))
  · intro x hx
    have hres := tts_float rt s _ x ht hne r1 r2 r3 r4 hx
    have hsign := mul_f3600_minus x (ParseFloat_minus rest x hx)
    have hrat := toRat_nonpos_of_minus _ hsign
    refine ⟨hres, hrat, ?_⟩
    intro v hv
    have hvq := exactInt_eq_truncQ _ v hv
    refine ⟨by rw [hres, floatToInt_of_exactInt rt _ v hv], ?_, hvq⟩
    rw [hvq]
    exact truncQ_nonpos _ hrat

/-- Claim C8 on its examples: "-1.5" yields -5400, and "-1h", "-30m" and "-1:30"
are rejected. -/
theorem C8_minus_tokens_witness :
    ToTimeSpentSeconds exampleRuntime "-1.5".toList = (-5400, none) ∧
    ToTimeSpentSeconds exampleRuntime "-1h".toList =
      (0, some "unable to parse time: -1h".toList) ∧
    ToTimeSpentSeconds exampleRuntime "-30m".toList =
      (0, some "unable to parse time: -30m".toList) ∧
    ToTimeSpentSeconds exampleRuntime "-1:30".toList =
      (0, some "unable to parse time: -1:30".toList) :=
  ⟨(((C8_minus_tokens exampleRuntime "-1.5".toList "1.5".toList (by decide)).2.2
      (ParseFloat "-1.5".toList).1 (by decide)).2.2 (-5400) (by decide)).1,
   (C8_minus_tokens exampleRuntime "-1h".toList "1h".toList (by decide)).2.1 (by decide),
   (C8_minus_tokens exampleRuntime "-30m".toList "30m".toList (by decide)).2.1 (by decide),
   (C8_minus_tokens exampleRuntime "-1:30".toList "1:30".toList (by decide)).2.1 (by decide)⟩

/-- Claim C8 as stated fails: -1.13 hours are exactly -4068 seconds, but the
token "-1.13" yields -4067. -/
theorem C8_counterexample :
    ToTimeSpentSeconds exampleRuntime "-1.13".toList = (-4067, none) ∧
    truncQ (-(113 : ℚ) / 100 * 3600) = -4068 := by
  refine ⟨by decide, ?_⟩
  have h : -(113 : ℚ) / 100 * 3600 = ((-4068 : Int) : ℚ) := by norm_num
  rw [h, truncQ, if_pos (by norm_num), Int.ceil_intCast]

end JiraWorklogger

namespace JiraWorklogger

/-! ## PostWorklog -/

/-- Claim C10. For every issue, start time, settings and network, and every
seconds <= 0, PostWorklog sends no request and returns the result with the
given issue and seconds, Success true, Code 0 and Body "Skipped zero seconds". -/
theorem C10_skip_nonpositive (net : Http) (settings : Settings) (issue startedISO : Str)
    (seconds : Int) (h : seconds ≤ 0) :
    PostWorklog net settings issue seconds startedISO =
      (⟨issue, seconds, true, 0, "Skipped zero seconds".toList⟩, []) := by
  simp [PostWorklog, h]

/-- Claim C10 at 0 and at -5 seconds; with 60 seconds the same network is sent
one request. -/
theorem C10_skip_nonpositive_witness :
    PostWorklog exampleHttp exampleSettings "PROJ-1".toList 0 [] =
      (⟨"PROJ-1".toList, 0, true, 0, "Skipped zero seconds".toList⟩, []) ∧
    PostWorklog exampleHttp exampleSettings "PROJ-1".toList (-5) [] =
      (⟨"PROJ-1".toList, -5, true, 0, "Skipped zero seconds".toList⟩, []) ∧
    (PostWorklog exampleHttp exampleSettings "PROJ-1".toList 60 []).2.length = 1 :=
  ⟨C10_skip_nonpositive exampleHttp exampleSettings "PROJ-1".toList [] 0 (by decide),
   C10_skip_nonpositive exampleHttp exampleSettings "PROJ-1".toList [] (-5) (by decide),
   by decide⟩

end JiraWorklogger

namespace JiraWorklogger

/-! ## The calendar of package time -/

/-- The cycles of 400, 100 and 4 years in a number of years. -/
theorem year_cycles (Y : Int) :
    ∃ a b c e : Int, Y = 400 * a + 100 * b + 4 * c + e ∧ 0 ≤ b ∧ b ≤ 3 ∧ 0 ≤ c ∧ c ≤ 24 ∧
      0 ≤ e ∧ e ≤ 3 :=
  ⟨Y / 400, Y % 400 / 100, Y % 100 / 4, Y % 4, by omega, by omega, by omega, by omega, by omega,
    by omega, by omega⟩

theorem isLeap_iff (y : Int) : isLeap y = true ↔ y % 4 = 0 ∧ (y % 100 ≠ 0 ∨ y % 400 = 0) := by
  simp [isLeap]

set_option maxHeartbeats 1000000 in
/-- Year and day of the year of the day `yd` of year `y`. -/
theorem absYearDay_daysSinceEpoch (y yd : Int) (h0 : 0 ≤ yd)
    (h1 : yd < 365 + (if isLeap y then 1 else 0)) :
    absYearDay (daysSinceEpoch y + yd) = (y, yd) := by
  obtain ⟨a, b, c, e, hY, hb0, hb3, hc0, hc24, he0, he3⟩ := year_cycles (y - 1)
  have q4 : (y - 1) / 4 = 100 * a + 25 * b + c := by omega
  have q100 : (y - 1) / 100 = 4 * a + b := by omega
  have q400 : (y - 1) / 400 = a := by omega
  have hyd : yd ≤ 364 ∨ (yd = 365 ∧ e = 3 ∧ (c ≠ 24 ∨ b = 3)) := by
    by_cases hl : isLeap y = true
    · rw [if_pos hl] at h1
      rw [isLeap_iff] at hl
      by_cases h365 : yd = 365
      · right
        refine ⟨h365, by omega, ?_⟩
        rcases hl.2 with h | h
        · left; omega
        · right; omega
      · left; omega
    · rw [if_neg hl] at h1
      left; omega
  have hdays : daysSinceEpoch y + yd =
      146097 * a + (36524 * b + 1461 * c + 365 * e + yd) := by
    simp only [daysSinceEpoch]
    rw [q4, q100, q400]
    omega
  have hR : 0 ≤ 36524 * b + 1461 * c + 365 * e + yd ∧
      36524 * b + 1461 * c + 365 * e + yd < 146097 := by omega
  have hrest : 1461 * c + 365 * e + yd < 36524 ∨ (b = 3 ∧ 1461 * c + 365 * e + yd = 36524) := by
    omega
  rw [hdays]
  have hy : y = 400 * a + 100 * b + 4 * c + e + 1 := by omega
  clear hdays q4 q100 q400 hY h1
  have hq : (146097 * a + (36524 * b + 1461 * c + 365 * e + yd)) / 146097 = a := by omega
  have hd : (146097 * a + (36524 * b + 1461 * c + 365 * e + yd)) % 146097 =
      36524 * b + 1461 * c + 365 * e + yd := by omega
  simp only [absYearDay, hq, hd]
  have hn100 : (36524 * b + 1461 * c + 365 * e + yd) / 36524 -
      (36524 * b + 1461 * c + 365 * e + yd) / 36524 / 4 = b := by omega
  rw [hn100]
  have hd1 : 36524 * b + 1461 * c + 365 * e + yd - 36524 * b = 1461 * c + 365 * e + yd := by
    omega
  rw [hd1]
  have hn4 : (1461 * c + 365 * e + yd) / 1461 = c := by omega
  rw [hn4]
  have hd2 : 1461 * c + 365 * e + yd - 1461 * c = 365 * e + yd := by omega
  rw [hd2]
  have hn1 : (365 * e + yd) / 365 - (365 * e + yd) / 365 / 4 = e := by omega
  rw [hn1]
  refine Prod.ext ?_ ?_ <;> simp only <;> omega

theorem daysBefore_values :
    daysBefore 0 = 0 ∧ daysBefore 1 = 31 ∧ daysBefore 2 = 59 ∧ daysBefore 3 = 90 ∧
    daysBefore 4 = 120 ∧ daysBefore 5 = 151 ∧ daysBefore 6 = 181 ∧ daysBefore 7 = 212 ∧
    daysBefore 8 = 243 ∧ daysBefore 9 = 273 ∧ daysBefore 10 = 304 ∧ daysBefore 11 = 334 ∧
    daysBefore 12 = 365 := by
  decide

set_option linter.unnecessarySeqFocus false in
/-- Month and day of the month of a day of a non-leap year. -/
theorem month_of_day (day m d : Int) (hm1 : 1 ≤ m) (hm12 : m ≤ 12) (hd1 : 1 ≤ d)
    (hdn : d ≤ daysBefore m - daysBefore (m - 1)) (hday : day = daysBefore (m - 1) + (d - 1)) :
    (if daysBefore (day / 31 + 1) ≤ day then
        (day / 31 + 2, day - daysBefore (day / 31 + 1) + 1)
      else (day / 31 + 1, day - daysBefore (day / 31) + 1)) = (m, d) := by
  obtain ⟨v0, v1, v2, v3, v4, v5, v6, v7, v8, v9, v10, v11, v12⟩ := daysBefore_values
  have hq : day / 31 = m - 2 ∨ day / 31 = m - 1 := by
    interval_cases m <;> simp only [Int.reduceSub, v0, v1, v2, v3, v4, v5, v6, v7, v8, v9, v10,
      v11, v12] at hdn hday <;> omega
  rcases hq with hq | hq <;> rw [hq] <;>
    (interval_cases m) <;>
    simp only [Int.reduceSub, Int.reduceAdd, v0, v1, v2, v3, v4, v5, v6, v7, v8, v9, v10, v11,
      v12] at hdn hday hq ⊢ <;>
    (first
      | omega
      | (split_ifs with hc <;> first
          | omega
          | (refine Prod.ext ?_ ?_ <;> simp only <;> omega)))

/-- The date of a day number: the inverse of the day count of time.Date. -/
theorem absDate_civil (y m d : Int) (hm1 : 1 ≤ m) (hm12 : m ≤ 12) (hd1 : 1 ≤ d)
    (hdn : d ≤ daysIn m y) :
    absDate (daysSinceEpoch y + daysBefore (m - 1) +
      (if isLeap y ∧ 3 ≤ m then 1 else 0) + (d - 1)) = (y, m, d) := by
  obtain ⟨v0, v1, v2, v3, v4, v5, v6, v7, v8, v9, v10, v11, v12⟩ := daysBefore_values
  have key : ∀ yd : Int, yd = daysBefore (m - 1) + (if isLeap y ∧ 3 ≤ m then 1 else 0) + (d - 1) →
      absDate (daysSinceEpoch y + yd) = (y, m, d) := by
    intro yd hyd
    have hlen : daysBefore m - daysBefore (m - 1) ≤ 31 ∧
        (m = 2 → daysBefore m - daysBefore (m - 1) = 28) ∧
        daysBefore (m - 1) + (daysBefore m - daysBefore (m - 1)) ≤ 365 ∧
        0 ≤ daysBefore (m - 1) ∧ (3 ≤ m → 59 ≤ daysBefore (m - 1)) ∧
        (m ≤ 2 → daysBefore (m - 1) + (daysBefore m - daysBefore (m - 1)) ≤ 59) := by
      clear hdn hyd
      interval_cases m <;> decide
    obtain ⟨hl1, hl2, hl3, hl4, hl5, hl6⟩ := hlen
    unfold daysIn at hdn
    cases hl : isLeap y
    · simp only [hl, Bool.false_eq_true, and_false, false_and, if_false, add_zero] at hyd hdn
      unfold absDate
      rw [absYearDay_daysSinceEpoch y yd (by omega) (by simp only [hl]; omega)]
      simp only [hl, Bool.false_eq_true, false_and, if_false]
      have := month_of_day yd m d hm1 hm12 hd1 hdn hyd
      split_ifs at this ⊢ with hc <;> rw [this]
    · have hdn1 : d ≤ if m = 2 then 29 else daysBefore m - daysBefore (m - 1) := by
        simpa [hl] using hdn
      have hyd1 : yd = daysBefore (m - 1) + (if 3 ≤ m then 1 else 0) + (d - 1) := by
        simpa [hl] using hyd
      clear hdn hyd
      have hb0 : 0 ≤ yd := by split_ifs at hyd1 <;> omega
      have hb1 : yd < 366 := by
        by_cases hm2 : m = 2
        · subst hm2
          have e1 : daysBefore ((2 : Int) - 1) = 31 := by decide
          rw [e1, if_neg (show ¬ (3 : Int) ≤ 2 by omega)] at hyd1
          rw [if_pos rfl] at hdn1
          omega
        · rw [if_neg hm2] at hdn1
          split_ifs at hyd1 <;> omega
      unfold absDate
      rw [absYearDay_daysSinceEpoch y yd hb0 (by simp only [hl, if_true]; omega)]
      simp only [hl, true_and]
      by_cases h29 : m = 2 ∧ d = 29
      · obtain ⟨rfl, rfl⟩ := h29
        have e1 : daysBefore ((2 : Int) - 1) = 31 := by decide
        rw [e1, if_neg (show ¬ (3 : Int) ≤ 2 by omega)] at hyd1
        rw [if_pos (show yd = 59 by omega)]
      · by_cases hm3 : 3 ≤ m
        · rw [if_pos hm3] at hyd1
          rw [if_neg (by omega)] at hdn1
          have h59 := hl5 hm3
          have hgt : 59 < yd := by omega
          rw [if_neg (show ¬ yd = 59 by omega)]
          simp only [if_pos hgt]
          have := month_of_day (yd - 1) m d hm1 hm12 hd1 hdn1 (by omega)
          split_ifs at this ⊢ with hc <;> rw [this]
        · rw [if_neg hm3] at hyd1
          have hdn2 : d ≤ daysBefore m - daysBefore (m - 1) := by
            split_ifs at hdn1 with h2
            · have := hl2 h2
              omega
            · exact hdn1
          have h59 := hl6 (by omega)
          have hlt : yd < 59 := by omega
          rw [if_neg (show ¬ yd = 59 by omega)]
          simp only [if_neg (show ¬ 59 < yd by omega)]
          have := month_of_day yd m d hm1 hm12 hd1 hdn2 (by omega)
          split_ifs at this ⊢ with hc <;> rw [this]
  have := key _ rfl
  rw [← this]
  congr 1
  ring

end JiraWorklogger

namespace JiraWorklogger

/-! ## time.Parse and the valid dates -/

theorem daysIn_eq_monthLength (y m : Nat) (h1 : 1 ≤ m) (h12 : m ≤ 12) :
    daysIn (m : Int) (y : Int) = (monthLength y m : Int) := by
  have hleap : isLeap (y : Int) = decide (y % 4 = 0 ∧ (y % 100 ≠ 0 ∨ y % 400 = 0)) := by
    unfold isLeap
    congr 1
    apply propext
    omega
  unfold daysIn monthLength
  rw [hleap]
  interval_cases m <;> simp [daysBefore]

theorem getnum_some (s : Str) (n : Int) (rest : Str) (h : getnum s = some (n, rest)) :
    ∃ a b, s = a :: b :: rest ∧ isDigit a = true ∧ isDigit b = true ∧
      n = ((digitsVal [a, b] : Nat) : Int) := by
  unfold getnum at h
  split at h
  · rename_i a b r
    split at h
    · rename_i hd
      simp only [Option.some.injEq, Prod.mk.injEq] at h
      refine ⟨a, b, by rw [h.2], hd.1, hd.2, ?_⟩
      rw [← h.1]
      simp [digitsVal]
    · simp at h
  · simp at h

/-- What time.Parse accepts: ten characters with digits around two hyphens, a
month from 1 to 12 and a day of that month. -/
theorem timeParse_ok_inv (s : Str) (t : Time) (h : timeParse s = Except.ok t) :
    ∃ y1 y2 y3 y4 m1 m2 d1 d2 : Char,
      s = [y1, y2, y3, y4, '-', m1, m2, '-', d1, d2] ∧
      isDigit y1 = true ∧ isDigit y2 = true ∧ isDigit y3 = true ∧ isDigit y4 = true ∧
      isDigit m1 = true ∧ isDigit m2 = true ∧ isDigit d1 = true ∧ isDigit d2 = true ∧
      1 ≤ digitsVal [m1, m2] ∧ digitsVal [m1, m2] ≤ 12 ∧ 1 ≤ digitsVal [d1, d2] ∧
      ((digitsVal [d1, d2] : Nat) : Int) ≤
        daysIn (digitsVal [m1, m2] : Nat) (digitsVal [y1, y2, y3, y4] : Nat) ∧
      t = Date (digitsVal [y1, y2, y3, y4] : Nat) (digitsVal [m1, m2] : Nat)
        (digitsVal [d1, d2] : Nat) 0 0 utcLoc := by
  unfold timeParse at h
  split at h
  · rename_i y1 y2 y3 y4 v1
    split at h
    · simp at h
    · rename_i hdig
      simp only [not_not] at hdig
      split at h
      · rename_i v2
        split at h
        · simp at h
        · rename_i month v3 hg1
          obtain ⟨m1, m2, rfl, hm1, hm2, rfl⟩ := getnum_some _ _ _ hg1
          split at h
          · simp at h
          · rename_i hmr
            split at h
            · rename_i v4
              split at h
              · simp at h
              · rename_i day v5 hg2
                obtain ⟨d1, d2, rfl, hd1, hd2, rfl⟩ := getnum_some _ _ _ hg2
                split at h
                · simp at h
                · rename_i hv5
                  simp only [ne_eq, not_not] at hv5
                  subst hv5
                  simp only at h
                  split at h
                  · simp at h
                  · rename_i hdr
                    simp only [Except.ok.injEq] at h
                    refine ⟨y1, y2, y3, y4, m1, m2, d1, d2, rfl, hdig.1, hdig.2.1, hdig.2.2.1,
                      hdig.2.2.2, hm1, hm2, hd1, hd2, ?_, ?_, ?_, ?_, h.symm⟩
                    · omega
                    · omega
                    · omega
                    · omega
            · simp at h
      · simp at h
  · simp at h

end JiraWorklogger

namespace JiraWorklogger

/-- The valid dates, character by character. -/
theorem validDate_iff_shape (s : Str) :
    validDate s = true ↔
      ∃ y1 y2 y3 y4 m1 m2 d1 d2 : Char,
        s = [y1, y2, y3, y4, '-', m1, m2, '-', d1, d2] ∧
        isDigit y1 = true ∧ isDigit y2 = true ∧ isDigit y3 = true ∧ isDigit y4 = true ∧
        isDigit m1 = true ∧ isDigit m2 = true ∧ isDigit d1 = true ∧ isDigit d2 = true ∧
        1 ≤ digitsVal [m1, m2] ∧ digitsVal [m1, m2] ≤ 12 ∧ 1 ≤ digitsVal [d1, d2] ∧
        digitsVal [d1, d2] ≤ monthLength (digitsVal [y1, y2, y3, y4]) (digitsVal [m1, m2]) := by
  constructor
  · intro h
    rcases s with _ | ⟨c0, _ | ⟨c1, _ | ⟨c2, _ | ⟨c3, _ | ⟨c4, _ | ⟨c5, _ | ⟨c6, _ | ⟨c7, _ |
      ⟨c8, _ | ⟨c9, _ | ⟨c10, rest⟩⟩⟩⟩⟩⟩⟩⟩⟩⟩⟩
    all_goals try (simp [validDate] at h; done)
    · simp only [validDate, dateYear, dateMonth, dateDay, List.length_cons, List.length_nil,
        List.take, List.drop, List.all_cons, List.all_nil, Bool.and_true, List.get?,
        Option.some.injEq, Bool.decide_and, Bool.and_eq_true, decide_eq_true_eq] at h
      obtain ⟨-, ⟨hy1, hy2, hy3, hy4⟩, rfl, ⟨hm1, hm2⟩, rfl, ⟨hd1, hd2⟩, h1, h2, h3, h4⟩ := h
      exact ⟨c0, c1, c2, c3, c5, c6, c8, c9, rfl, hy1, hy2, hy3, hy4, hm1, hm2, hd1, hd2, h1, h2,
        h3, h4⟩
  · rintro ⟨y1, y2, y3, y4, m1, m2, d1, d2, rfl, hy1, hy2, hy3, hy4, hm1, hm2, hd1, hd2, h1, h2,
      h3, h4⟩
    simp only [validDate, dateYear, dateMonth, dateDay, List.length_cons, List.length_nil,
      List.take, List.drop, List.all_cons, List.all_nil, Bool.and_true, List.get?,
      Bool.decide_and, Bool.and_eq_true, decide_eq_true_eq]
    exact ⟨trivial, ⟨hy1, hy2, hy3, hy4⟩, trivial, ⟨hm1, hm2⟩, trivial, ⟨hd1, hd2⟩, h1, h2, h3, h4⟩

/-- The function time.Parse accepts exactly the valid dates, and returns the
midnight in UTC of the date written. -/
theorem timeParse_valid (s : Str) :
    (validDate s = true →
      timeParse s = Except.ok (Date (dateYear s) (dateMonth s) (dateDay s) 0 0 utcLoc)) ∧
    (validDate s = false → ∃ e, timeParse s = Except.error e) := by
  constructor
  · intro h
    obtain ⟨y1, y2, y3, y4, m1, m2, d1, d2, rfl, hy1, hy2, hy3, hy4, hm1, hm2, hd1, hd2, h1, h2,
      h3, h4⟩ := (validDate_iff_shape s).1 h
    have hdi := daysIn_eq_monthLength (digitsVal [y1, y2, y3, y4]) (digitsVal [m1, m2]) h1 h2
    have hg1 : getnum [m1, m2, '-', d1, d2] =
        some (((digitsVal [m1, m2] : Nat) : Int), ['-', d1, d2]) := by
      simp [getnum, hm1, hm2, digitsVal]
    have hg2 : getnum [d1, d2] = some (((digitsVal [d1, d2] : Nat) : Int), []) := by
      simp [getnum, hd1, hd2, digitsVal]
    have hmr : ¬ (((digitsVal [m1, m2] : Nat) : Int) ≤ 0 ∨ 12 < ((digitsVal [m1, m2] : Nat) : Int)) := by
      omega
    have hdr : ¬ (((digitsVal [d1, d2] : Nat) : Int) < 1 ∨
        daysIn (digitsVal [m1, m2] : Nat) (digitsVal [y1, y2, y3, y4] : Nat) <
          ((digitsVal [d1, d2] : Nat) : Int)) := by
      rw [hdi]
      omega
    simp only [timeParse, hy1, hy2, hy3, hy4, and_self, not_true_eq_false, if_false, hg1, hmr,
      hg2, ne_eq, not_true_eq_false, hdr, dateYear, dateMonth, dateDay, List.take, List.drop]
  · intro h
    rcases hp : timeParse s with e | t
    · exact ⟨e, rfl⟩
    · exfalso
      obtain ⟨y1, y2, y3, y4, m1, m2, d1, d2, rfl, hy1, hy2, hy3, hy4, hm1, hm2, hd1, hd2, h1, h2,
        h3, h4, -⟩ := timeParse_ok_inv s t hp
      have hdi := daysIn_eq_monthLength (digitsVal [y1, y2, y3, y4]) (digitsVal [m1, m2]) h1 h2
      rw [hdi] at h4
      have hv : validDate [y1, y2, y3, y4, '-', m1, m2, '-', d1, d2] = true :=
        (validDate_iff_shape _).2 ⟨y1, y2, y3, y4, m1, m2, d1, d2, rfl, hy1, hy2, hy3, hy4,
          hm1, hm2, hd1, hd2, h1, h2, h3, by exact_mod_cast h4⟩
      rw [hv] at h
      cases h

end JiraWorklogger

namespace JiraWorklogger

/-! ## The fields of a time built by time.Date -/

/-- The wall clock of a time whose local seconds are those of a civil date and
a time of day. -/
theorem Time_fields (t : Time) (y m d h mi : Int) (hm1 : 1 ≤ m) (hm12 : m ≤ 12) (hd1 : 1 ≤ d)
    (hdn : d ≤ daysIn m y) (hh0 : 0 ≤ h) (hh : h < 24) (hmi0 : 0 ≤ mi) (hmi : mi < 60)
    (habs : t.abs = civilToUnix y m d h mi + unixEpochDays * 86400) :
    t.Year = y ∧ t.Month = m ∧ t.Day = d ∧ t.Hour = h ∧ t.Minute = mi ∧ t.Second = 0 := by
  have hc := absDate_civil y m d hm1 hm12 hd1 hdn
  simp only [civilToUnix] at habs
  generalize daysSinceEpoch y + daysBefore (m - 1) + (if isLeap y ∧ 3 ≤ m then 1 else 0) +
    (d - 1) = D at hc habs
  have hq : t.abs / 86400 = D := by omega
  simp only [Time.Year, Time.Month, Time.Day, Time.Hour, Time.Minute, Time.Second, hq, hc]
  refine ⟨trivial, trivial, trivial, ?_, ?_, ?_⟩ <;> omega

/-- When the offset of the zone does not change between the civil time read as
UTC and the instant that offset earlier, time.Date returns the instant whose wall
clock is the civil time. -/
theorem Date_abs (y m d h mi : Int) (loc : Location)
    (hcond : (loc (civilToUnix y m d h mi - (loc (civilToUnix y m d h mi)).offset)).offset =
      (loc (civilToUnix y m d h mi)).offset) :
    (Date y m d h mi loc).abs = civilToUnix y m d h mi + unixEpochDays * 86400 ∧
    ((Date y m d h mi loc).loc (Date y m d h mi loc).unix).offset =
      (loc (civilToUnix y m d h mi)).offset := by
  generalize hw : civilToUnix y m d h mi = w at hcond
  have hD : Date y m d h mi loc = ⟨w - (loc w).offset, loc⟩ := by
    simp only [Date, hw]
    by_cases h0 : (loc w).offset = 0
    · simp [h0]
    · simp only [ne_eq, h0, not_false_eq_true, if_true, hcond, ite_self]
  rw [hD]
  refine ⟨?_, hcond⟩
  simp only [Time.abs]
  rw [hcond]
  omega

theorem Date_utc (y m d : Int) :
    Date y m d 0 0 utcLoc = ⟨civilToUnix y m d 0 0, utcLoc⟩ := by
  simp [Date, utcLoc]

/-- Year, month and day of the midnight in UTC of a date are those of the date. -/
theorem Date_utc_fields (y m d : Int) (hm1 : 1 ≤ m) (hm12 : m ≤ 12) (hd1 : 1 ≤ d)
    (hdn : d ≤ daysIn m y) :
    (Date y m d 0 0 utcLoc).Year = y ∧ (Date y m d 0 0 utcLoc).Month = m ∧
      (Date y m d 0 0 utcLoc).Day = d := by
  have h := Time_fields (Date y m d 0 0 utcLoc) y m d 0 0 hm1 hm12 hd1 hdn (le_refl 0)
    (by omega) (le_refl 0) (by omega) (Date_abs y m d 0 0 utcLoc (by simp [utcLoc])).1
  exact ⟨h.1, h.2.1, h.2.2.1⟩

end JiraWorklogger

namespace JiraWorklogger

/-! ## Formatting numbers -/

theorem digitChar_digitVal (c : Char) (h : isDigit c = true) : digitChar (digitVal c) = c := by
  simp only [isDigit, Bool.decide_and, Bool.and_eq_true, decide_eq_true_eq] at h
  unfold digitChar digitVal
  rw [show 48 + (c.toNat - 48) = c.toNat by omega]
  exact Char.ofNat_toNat c

theorem isDigit_digitChar (n : Nat) (h : n < 10) : isDigit (digitChar n) = true := by
  interval_cases n <;> decide

theorem natDigitsLoop_one (f n : Nat) (h : n < 10) : natDigitsLoop (f + 1) n = [digitChar n] := by
  simp [natDigitsLoop, h]

theorem natDigitsLoop_two (f n : Nat) (h1 : 10 ≤ n) (h : n < 100) :
    natDigitsLoop (f + 2) n = [digitChar (n / 10), digitChar (n % 10)] := by
  rw [natDigitsLoop, if_neg (by omega), natDigitsLoop_one f (n / 10) (by omega)]
  rfl

theorem natDigitsLoop_three (f n : Nat) (h1 : 100 ≤ n) (h : n < 1000) :
    natDigitsLoop (f + 3) n =
      [digitChar (n / 100), digitChar (n / 10 % 10), digitChar (n % 10)] := by
  rw [natDigitsLoop, if_neg (by omega), natDigitsLoop_two f (n / 10) (by omega) (by omega)]
  rw [show n / 10 / 10 = n / 100 by omega]
  rfl

theorem natDigitsLoop_four (f n : Nat) (h1 : 1000 ≤ n) (h : n < 10000) :
    natDigitsLoop (f + 4) n =
      [digitChar (n / 1000), digitChar (n / 100 % 10), digitChar (n / 10 % 10),
        digitChar (n % 10)] := by
  rw [natDigitsLoop, if_neg (by omega), natDigitsLoop_three f (n / 10) (by omega) (by omega)]
  rw [show n / 10 / 100 = n / 1000 by omega, show n / 10 / 10 % 10 = n / 100 % 10 by omega]
  rfl

theorem appendInt_natCast (n width : Nat) :
    appendInt (n : Int) width =
      List.replicate (width - (natDigits n).length) '0' ++ natDigits n := by
  simp [appendInt]

/-- A number below 100 is written with two digits. -/
theorem appendInt_two (n : Nat) (h : n < 100) :
    appendInt (n : Int) 2 = [digitChar (n / 10), digitChar (n % 10)] := by
  rw [appendInt_natCast]
  by_cases h10 : n < 10
  · rw [natDigits, natDigitsLoop_one n n h10]
    rw [show n / 10 = 0 by omega, show n % 10 = n by omega]
    rfl
  · obtain ⟨f, hf⟩ : ∃ f, n + 1 = f + 2 := ⟨n - 1, by omega⟩
    rw [natDigits, hf, natDigitsLoop_two f n (by omega) h]
    rfl

/-- A number below 10000 is written with four digits. -/
theorem appendInt_four (n : Nat) (h : n < 10000) :
    appendInt (n : Int) 4 =
      [digitChar (n / 1000), digitChar (n / 100 % 10), digitChar (n / 10 % 10),
        digitChar (n % 10)] := by
  rw [appendInt_natCast]
  by_cases h10 : n < 10
  · rw [natDigits, natDigitsLoop_one n n h10]
    rw [show n / 1000 = 0 by omega, show n / 100 % 10 = 0 by omega,
      show n / 10 % 10 = 0 by omega, show n % 10 = n by omega]
    rfl
  · by_cases h100 : n < 100
    · obtain ⟨f, hf⟩ : ∃ f, n + 1 = f + 2 := ⟨n - 1, by omega⟩
      rw [natDigits, hf, natDigitsLoop_two f n (by omega) h100]
      rw [show n / 1000 = 0 by omega, show n / 100 % 10 = 0 by omega,
        show n / 10 % 10 = n / 10 by omega]
      rfl
    · by_cases h1000 : n < 1000
      · obtain ⟨f, hf⟩ : ∃ f, n + 1 = f + 3 := ⟨n - 2, by omega⟩
        rw [natDigits, hf, natDigitsLoop_three f n (by omega) h1000]
        rw [show n / 1000 = 0 by omega, show n / 100 % 10 = n / 100 by omega]
        rfl
      · obtain ⟨f, hf⟩ : ∃ f, n + 1 = f + 4 := ⟨n - 3, by omega⟩
        rw [natDigits, hf, natDigitsLoop_four f n (by omega) h]
        rfl

theorem digitVal_lt (c : Char) (h : isDigit c = true) : digitVal c < 10 := by
  simp only [isDigit, Bool.decide_and, Bool.and_eq_true, decide_eq_true_eq] at h
  unfold digitVal
  omega

/-- Writing the number read from two digits gives the two digits back. -/
theorem appendInt_digitsVal_two (a b : Char) (ha : isDigit a = true) (hb : isDigit b = true) :
    appendInt ((digitsVal [a, b] : Nat) : Int) 2 = [a, b] := by
  have h1 := digitVal_lt a ha
  have h2 := digitVal_lt b hb
  have hv : digitsVal [a, b] = digitVal a * 10 + digitVal b := by simp [digitsVal]
  rw [appendInt_two _ (by omega), hv, show (digitVal a * 10 + digitVal b) / 10 = digitVal a by omega,
    show (digitVal a * 10 + digitVal b) % 10 = digitVal b by omega, digitChar_digitVal a ha,
    digitChar_digitVal b hb]

/-- Writing the number read from four digits gives the four digits back. -/
theorem appendInt_digitsVal_four (a b c d : Char) (ha : isDigit a = true) (hb : isDigit b = true)
    (hc : isDigit c = true) (hd : isDigit d = true) :
    appendInt ((digitsVal [a, b, c, d] : Nat) : Int) 4 = [a, b, c, d] := by
  have h1 := digitVal_lt a ha
  have h2 := digitVal_lt b hb
  have h3 := digitVal_lt c hc
  have h4 := digitVal_lt d hd
  have hv : digitsVal [a, b, c, d] =
      ((digitVal a * 10 + digitVal b) * 10 + digitVal c) * 10 + digitVal d := by
    simp [digitsVal]
  rw [appendInt_four _ (by omega), hv]
  rw [show (((digitVal a * 10 + digitVal b) * 10 + digitVal c) * 10 + digitVal d) / 1000 =
      digitVal a by omega,
    show (((digitVal a * 10 + digitVal b) * 10 + digitVal c) * 10 + digitVal d) / 100 % 10 =
      digitVal b by omega,
    show (((digitVal a * 10 + digitVal b) * 10 + digitVal c) * 10 + digitVal d) / 10 % 10 =
      digitVal c by omega,
    show (((digitVal a * 10 + digitVal b) * 10 + digitVal c) * 10 + digitVal d) % 10 =
      digitVal d by omega,
    digitChar_digitVal a ha, digitChar_digitVal b hb, digitChar_digitVal c hc,
    digitChar_digitVal d hd]

/-- The zone of an offset below 100 hours: a sign and four digits. -/
theorem formatZone_shape (offset : Int) (h1 : -360000 < offset) (h2 : offset < 360000) :
    ∃ (sign : Char) (a b c d : Nat), (sign = '+' ∨ sign = '-') ∧ a < 10 ∧ b < 10 ∧ c < 10 ∧
      d < 10 ∧ formatZone offset = [sign, digitChar a, digitChar b, digitChar c, digitChar d] := by
  unfold formatZone
  simp only
  generalize hz : (if offset < 0 then -(-offset / 60) else offset / 60) = zone
  generalize hza : (if zone < 0 then -zone else zone) = zabs
  have hb : 0 ≤ zabs ∧ zabs < 6000 := by
    subst hza hz
    split_ifs <;> omega
  obtain ⟨n, rfl⟩ := Int.eq_ofNat_of_zero_le hb.1
  have hn : n < 6000 := by omega
  have e1 : ((n : Int) / 60) = ((n / 60 : Nat) : Int) := by omega
  have e2 : ((n : Int) % 60) = ((n % 60 : Nat) : Int) := by omega
  rw [e1, e2, appendInt_two _ (by omega), appendInt_two _ (by omega)]
  refine ⟨if zone < 0 then '-' else '+', n / 60 / 10, n / 60 % 10, n % 60 / 10, n % 60 % 10,
    ?_, by omega, by omega, by omega, by omega, rfl⟩
  split_ifs
  · exact Or.inr rfl
  · exact Or.inl rfl

end JiraWorklogger

namespace JiraWorklogger

/-! ## ISOStartForDate -/

theorem validDate_ne_nil (s : Str) (h : validDate s = true) : s ≠ [] := by
  rintro rfl
  simp [validDate] at h

theorem ISOStartForDate_error_iff (clk : Clock) (s z : Str) (h mi : Int) (hs : s ≠ []) :
    (ISOStartForDate clk s h mi z).2.isSome = true ↔ validDate s = false := by
  unfold ISOStartForDate ParseDate
  rw [if_neg hs]
  cases hv : validDate s
  · obtain ⟨e, he⟩ := (timeParse_valid s).2 hv
    simp [he]
  · rw [(timeParse_valid s).1 hv]
    simp

theorem ISOStartForDate_ok (clk : Clock) (dateStr tz : Str) (hour minute : Int) (date : Time)
    (loc : Location)
    (hloc : loc = resolvedLocation clk tz)
    (hp : ParseDate clk dateStr = Except.ok date) :
    ISOStartForDate clk dateStr hour minute tz =
      ((Date date.Year date.Month date.Day hour minute loc).Format, none) := by
  subst hloc
  simp only [ISOStartForDate, hp]
  rfl

/-- The timestamp of a valid date at an hour and a minute, in a zone whose offset
does not change between the civil time read as UTC and the instant that offset
earlier. -/
theorem ISOStartForDate_valid (clk : Clock) (dateStr tz : Str) (hour minute : Int)
    (hv : validDate dateStr = true) (hh0 : 0 ≤ hour) (hh : hour < 24) (hm0 : 0 ≤ minute)
    (hm : minute < 60) (loc : Location)
    (hloc : loc = resolvedLocation clk tz)
    (w : Int)
    (hw : w = civilToUnix (dateYear dateStr) (dateMonth dateStr) (dateDay dateStr) hour minute)
    (hcond : (loc (w - (loc w).offset)).offset = (loc w).offset) :
    (ISOStartForDate clk dateStr hour minute tz).1 =
      dateStr ++ 'T' :: digitChar (hour.toNat / 10) :: digitChar (hour.toNat % 10) :: ':' ::
        digitChar (minute.toNat / 10) :: digitChar (minute.toNat % 10) :: ":00.000".toList ++
        formatZone (loc w).offset := by
  have hne := validDate_ne_nil dateStr hv
  have hparse := (timeParse_valid dateStr).1 hv
  obtain ⟨y1, y2, y3, y4, m1, m2, d1, d2, rfl, hy1, hy2, hy3, hy4, hm1, hm2, hd1, hd2, h1, h2,
    h3, h4⟩ := (validDate_iff_shape dateStr).1 hv
  have eY : dateYear [y1, y2, y3, y4, '-', m1, m2, '-', d1, d2] = digitsVal [y1, y2, y3, y4] := rfl
  have eM : dateMonth [y1, y2, y3, y4, '-', m1, m2, '-', d1, d2] = digitsVal [m1, m2] := rfl
  have eD : dateDay [y1, y2, y3, y4, '-', m1, m2, '-', d1, d2] = digitsVal [d1, d2] := rfl
  rw [eY, eM, eD] at hparse hw
  have hdi := daysIn_eq_monthLength (digitsVal [y1, y2, y3, y4]) (digitsVal [m1, m2]) h1 h2
  have r1 : (1 : Int) ≤ (digitsVal [m1, m2] : Nat) := by omega
  have r2 : ((digitsVal [m1, m2] : Nat) : Int) ≤ 12 := by omega
  have r3 : (1 : Int) ≤ (digitsVal [d1, d2] : Nat) := by omega
  have r4 : ((digitsVal [d1, d2] : Nat) : Int) ≤
      daysIn (digitsVal [m1, m2] : Nat) (digitsVal [y1, y2, y3, y4] : Nat) := by
    rw [hdi]
    omega
  obtain ⟨fy, fm, fd⟩ := Date_utc_fields (digitsVal [y1, y2, y3, y4] : Nat)
    (digitsVal [m1, m2] : Nat) (digitsVal [d1, d2] : Nat) r1 r2 r3 r4
  have hp : ParseDate clk [y1, y2, y3, y4, '-', m1, m2, '-', d1, d2] = Except.ok
      (Date (digitsVal [y1, y2, y3, y4] : Nat) (digitsVal [m1, m2] : Nat)
        (digitsVal [d1, d2] : Nat) 0 0 utcLoc) := by
    unfold ParseDate
    rw [if_neg hne, hparse]
  rw [ISOStartForDate_ok clk _ tz hour minute _ loc hloc hp, fy, fm, fd]
  subst hw
  obtain ⟨habs, hoff⟩ := Date_abs (digitsVal [y1, y2, y3, y4] : Nat) (digitsVal [m1, m2] : Nat)
    (digitsVal [d1, d2] : Nat) hour minute loc hcond
  obtain ⟨gy, gm, gd, gh, gmi, gs⟩ := Time_fields _ (digitsVal [y1, y2, y3, y4] : Nat)
    (digitsVal [m1, m2] : Nat) (digitsVal [d1, d2] : Nat) hour minute r1 r2 r3 r4 hh0 hh hm0 hm
    habs
  unfold Time.Format
  rw [gy, gm, gd, gh, gmi, gs, hoff]
  obtain ⟨hn, rfl⟩ := Int.eq_ofNat_of_zero_le hh0
  obtain ⟨mn, rfl⟩ := Int.eq_ofNat_of_zero_le hm0
  rw [appendInt_digitsVal_four y1 y2 y3 y4 hy1 hy2 hy3 hy4, appendInt_digitsVal_two m1 m2 hm1 hm2,
    appendInt_digitsVal_two d1 d2 hd1 hd2, appendInt_two hn (by omega),
    appendInt_two mn (by omega), show (0 : Int) = ((0 : Nat) : Int) from rfl,
    appendInt_two 0 (by omega)]
  simp only [Int.toNat_ofNat]
  rfl

theorem sprintfZero_natCast (n width : Nat) : sprintfZero (n : Int) width = appendInt (n : Int) width := by
  rw [appendInt_natCast]
  simp [sprintfZero]

theorem digitVal_digitChar (n : Nat) (h : n < 10) : digitVal (digitChar n) = n := by
  interval_cases n <;> rfl

theorem digitsVal_two (a b : Nat) (ha : a < 10) (hb : b < 10) :
    digitsVal [digitChar a, digitChar b] = a * 10 + b := by
  simp [digitsVal, digitVal_digitChar a ha, digitVal_digitChar b hb]

theorem digitsVal_four (a b c d : Nat) (ha : a < 10) (hb : b < 10) (hc : c < 10) (hd : d < 10) :
    digitsVal [digitChar a, digitChar b, digitChar c, digitChar d] =
      ((a * 10 + b) * 10 + c) * 10 + d := by
  simp [digitsVal, digitVal_digitChar a ha, digitVal_digitChar b hb, digitVal_digitChar c hc,
    digitVal_digitChar d hd]

/-- The date string of a clock that shows a calendar date of the years 0 to 9999
is a valid date. -/
theorem DefaultDateStr_valid (clk : Clock) (hy0 : 0 ≤ clk.todayYear) (hy : clk.todayYear ≤ 9999)
    (hm1 : 1 ≤ clk.todayMonth) (hm12 : clk.todayMonth ≤ 12) (hd1 : 1 ≤ clk.todayDay)
    (hd : clk.todayDay ≤ daysIn clk.todayMonth clk.todayYear) :
    validDate (DefaultDateStr clk) = true := by
  obtain ⟨y, ey⟩ := Int.eq_ofNat_of_zero_le hy0
  obtain ⟨m, em⟩ := Int.eq_ofNat_of_zero_le (le_trans (by decide) hm1)
  obtain ⟨d, ed⟩ := Int.eq_ofNat_of_zero_le (le_trans (by decide) hd1)
  rw [ey, em, ed] at hd
  rw [ey] at hy
  rw [em] at hm1 hm12
  rw [ed] at hd1
  have hm1n : 1 ≤ m := by omega
  have hm12n : m ≤ 12 := by omega
  rw [daysIn_eq_monthLength y m hm1n hm12n] at hd
  have hml : monthLength y m ≤ 31 := by
    unfold monthLength
    split_ifs <;> omega
  have hdn : d ≤ monthLength y m := by omega
  have hyn : y < 10000 := by omega
  unfold DefaultDateStr
  rw [ey, em, ed, sprintfZero_natCast, sprintfZero_natCast, sprintfZero_natCast,
    appendInt_four y hyn, appendInt_two m (by omega), appendInt_two d (by omega)]
  apply (validDate_iff_shape _).2
  refine ⟨_, _, _, _, _, _, _, _, rfl, ?_⟩
  have e4 := digitsVal_four (y / 1000) (y / 100 % 10) (y / 10 % 10) (y % 10) (by omega)
    (by omega) (by omega) (by omega)
  have e2 := digitsVal_two (m / 10) (m % 10) (by omega) (by omega)
  have e3 := digitsVal_two (d / 10) (d % 10) (by omega) (by omega)
  have e4y : digitsVal [digitChar (y / 1000), digitChar (y / 100 % 10), digitChar (y / 10 % 10),
      digitChar (y % 10)] = y := by omega
  have e2m : digitsVal [digitChar (m / 10), digitChar (m % 10)] = m := by omega
  have e3d : digitsVal [digitChar (d / 10), digitChar (d % 10)] = d := by omega
  rw [e4y, e2m, e3d]
  exact ⟨isDigit_digitChar _ (by omega), isDigit_digitChar _ (by omega),
    isDigit_digitChar _ (by omega), isDigit_digitChar _ (by omega),
    isDigit_digitChar _ (by omega), isDigit_digitChar _ (by omega),
    isDigit_digitChar _ (by omega), isDigit_digitChar _ (by omega), hm1n, hm12n, by omega, hdn⟩

/-- An empty date string stands for the date string of the clock. -/
theorem ISOStartForDate_empty (clk : Clock) (tz : Str) (hour minute : Int) :
    ISOStartForDate clk [] hour minute tz =
      ISOStartForDate clk (DefaultDateStr clk) hour minute tz := by
  unfold ISOStartForDate ParseDate
  simp

end JiraWorklogger

namespace JiraWorklogger

end JiraWorklogger

namespace JiraWorklogger

/-! ## The loop of main that posts the worklogs -/

/-- The loop posts every entry, in order: the successes and the failures are the
results with and without Success, the requests those of the calls one after the
other. -/
theorem postWorklogs_eq (net : Http) (settings : Settings) (startedISO : Str)
    (entries : List TimeEntry) :
    ∀ (successes failures : List WorklogResult) (sent : List Request),
      postWorklogs net settings startedISO entries successes failures sent =
        (successes ++ (entries.map fun e =>
            (PostWorklog net settings e.Issue e.Seconds startedISO).1).filter (fun r => r.Success),
          failures ++ (entries.map fun e =>
            (PostWorklog net settings e.Issue e.Seconds startedISO).1).filter
              (fun r => !r.Success),
          sent ++ entries.flatMap fun e =>
            (PostWorklog net settings e.Issue e.Seconds startedISO).2) := by
  induction entries with
  | nil => intro s f r; simp [postWorklogs]
  | cons e rest ih =>
    intro s f r
    unfold postWorklogs
    by_cases h : (PostWorklog net settings e.Issue e.Seconds startedISO).1.Success = true
    · simp only [h, if_true]
      rw [ih]
      simp [h, List.filter_cons]
    · have hf : (PostWorklog net settings e.Issue e.Seconds startedISO).1.Success = false := by
        simpa using h
      simp only [hf, Bool.false_eq_true, if_false]
      rw [ih]
      simp [hf, List.filter_cons]

theorem filter_length_add {α : Type} (p : α → Bool) (l : List α) :
    (l.filter p).length + (l.filter fun x => !p x).length = l.length := by
  induction l with
  | nil => rfl
  | cons a t ih =>
    cases h : p a <;> simp [List.filter_cons, h] <;> omega

/-- The result of PostWorklog carries the issue and the seconds it was given. -/
theorem PostWorklog_fields (net : Http) (settings : Settings) (issue startedISO : Str)
    (seconds : Int) :
    (PostWorklog net settings issue seconds startedISO).1.Issue = issue ∧
    (PostWorklog net settings issue seconds startedISO).1.Seconds = seconds ∧
    (PostWorklog net settings issue seconds startedISO).2.length ≤ 1 := by
  unfold PostWorklog
  simp only
  split_ifs
  · simp
  · split
    · simp
    · split
      · simp
      · split <;> simp

/-- With a positive duration PostWorklog succeeds exactly when it has sent one
request and the answer to it has status 200 or 201. -/
theorem PostWorklog_success_iff (net : Http) (settings : Settings) (issue startedISO : Str)
    (seconds : Int) (h : 0 < seconds) :
    (PostWorklog net settings issue seconds startedISO).1.Success = true ↔
      ∃ req code body, (PostWorklog net settings issue seconds startedISO).2 = [req] ∧
        net.send req = SendOutcome.response code body ∧ (code = 200 ∨ code = 201) := by
  unfold PostWorklog
  simp only
  rw [if_neg (by omega)]
  split
  · simp
  · split
    · simp
    · split
      · rename_i err hs
        constructor
        · intro hc
          cases hc
        · rintro ⟨req, code, body, hreq, hsend, -⟩
          obtain ⟨rfl, -⟩ := List.cons.inj hreq
          rw [hs] at hsend
          cases hsend
      · rename_i err hs
        constructor
        · intro hc
          cases hc
        · rintro ⟨req, code, body, hreq, hsend, -⟩
          obtain ⟨rfl, -⟩ := List.cons.inj hreq
          rw [hs] at hsend
          cases hsend
      · rename_i code body hs
        constructor
        · intro hc
          exact ⟨_, code, body, rfl, hs, by simpa using hc⟩
        · rintro ⟨req, code2, body2, hreq, hsend, hcode⟩
          obtain ⟨rfl, -⟩ := List.cons.inj hreq
          rw [hs] at hsend
          cases hsend
          simpa using hcode

/-- With a positive duration, a payload that encodes and a URL that http.NewRequest
accepts, PostWorklog sends exactly one request: a POST to the worklog URL of the
issue with the encoded payload. -/
theorem PostWorklog_request (net : Http) (settings : Settings) (issue startedISO : Str)
    (seconds : Int) (h : 0 < seconds) (payload : Str)
    (hm : net.marshal (BuildWorklogPayload startedISO seconds settings.APIVersion) =
      Except.ok payload)
    (hr : net.newRequest "POST".toList (TrimSuffix settings.JiraBaseURL ['/'] ++
      "/rest/api/".toList ++ settings.APIVersion ++ "/issue/".toList ++ net.pathEscape issue ++
      "/worklog".toList) = none) :
    ∃ req, (PostWorklog net settings issue seconds startedISO).2 = [req] ∧
      req.method = "POST".toList ∧ req.body = payload ∧
      req.url = TrimSuffix settings.JiraBaseURL ['/'] ++ "/rest/api/".toList ++
        settings.APIVersion ++ "/issue/".toList ++ net.pathEscape issue ++ "/worklog".toList := by
  unfold PostWorklog
  simp only
  rw [if_neg (by omega)]
  simp only [hm, hr]
  split <;> exact ⟨_, rfl, rfl, rfl, rfl⟩

/-- The function main once the timestamp and the entries are there. -/
theorem main_eq (rt : Runtime) (clk : Clock) (net : Http) (settings : Settings)
    (date entriesStr startedISO : Str) (entries : List TimeEntry)
    (hd : ISOStartForDate clk (if date = [] then DefaultDateStr clk else date) 17 0
      settings.Timezone = (startedISO, none))
    (hp : ParseTimeEntries rt entriesStr settings.CategoryAliases = (some entries, none)) :
    main rt clk net settings date entriesStr =
      ⟨if (postWorklogs net settings startedISO entries [] [] []).2.1.length > 0 then 1 else 0,
        (postWorklogs net settings startedISO entries [] [] []).1,
        (postWorklogs net settings startedISO entries [] [] []).2.1,
        (postWorklogs net settings startedISO entries [] [] []).2.2⟩ := by
  unfold main
  simp only [hd, hp, Option.getD_some]
  by_cases he : entries.length = 0
  · have : entries = [] := List.length_eq_zero.1 he
    subst this
    simp [postWorklogs]
  · rw [if_neg he]
    split_ifs <;> rfl

/-- Claim C11. Let the date give the timestamp `startedISO` and the entries string
parse to `entries`. The loop of main calls PostWorklog for every parsed entry, in
parsed order: the requests sent are those of the calls one after the other, each
call sends at most one request, and exactly one (a POST to the worklog URL of
the issue) when the payload encodes and http.NewRequest accepts the URL. The
successes are the results with Success set, the failures the others; a result
has Success set exactly when its request was answered with status 200 or 201, so
an error of the transport is a failure and the loop goes on. The two lists have
as many results as there are entries, and the exit code is 1 exactly when there
is a failure, and 0 otherwise. -/
theorem C11_submission (rt : Runtime) (clk : Clock) (net : Http) (settings : Settings)
    (date entriesStr startedISO : Str) (entries : List TimeEntry)
    (hd : ISOStartForDate clk (if date = [] then DefaultDateStr clk else date) 17 0
      settings.Timezone = (startedISO, none))
    (hp : ParseTimeEntries rt entriesStr settings.CategoryAliases = (some entries, none)) :
    (main rt clk net settings date entriesStr).requests =
      entries.flatMap (fun e => (PostWorklog net settings e.Issue e.Seconds startedISO).2) ∧
    (main rt clk net settings date entriesStr).successes =
      (entries.map fun e => (PostWorklog net settings e.Issue e.Seconds startedISO).1).filter
        (fun r => r.Success) ∧
    (main rt clk net settings date entriesStr).failures =
      (entries.map fun e => (PostWorklog net settings e.Issue e.Seconds startedISO).1).filter
        (fun r => !r.Success) ∧
    (main rt clk net settings date entriesStr).successes.length +
      (main rt clk net settings date entriesStr).failures.length = entries.length ∧
    ((main rt clk net settings date entriesStr).exitCode = 1 ↔
      (main rt clk net settings date entriesStr).failures ≠ []) ∧
    ((main rt clk net settings date entriesStr).exitCode = 0 ↔
      (main rt clk net settings date entriesStr).failures = []) ∧
    ∀ e ∈ entries,
      (PostWorklog net settings e.Issue e.Seconds startedISO).1.Issue = e.Issue ∧
      (PostWorklog net settings e.Issue e.Seconds startedISO).1.Seconds = e.Seconds ∧
      (PostWorklog net settings e.Issue e.Seconds startedISO).2.length ≤ 1 ∧
      ((PostWorklog net settings e.Issue e.Seconds startedISO).1.Success = true ↔
        ∃ req code body, (PostWorklog net settings e.Issue e.Seconds startedISO).2 = [req] ∧
          net.send req = SendOutcome.response code body ∧ (code = 200 ∨ code = 201)) ∧
      (∀ payload,
        net.marshal (BuildWorklogPayload startedISO e.Seconds settings.APIVersion) =
          Except.ok payload →
        net.newRequest "POST".toList (TrimSuffix settings.JiraBaseURL ['/'] ++
          "/rest/api/".toList ++ settings.APIVersion ++ "/issue/".toList ++
          net.pathEscape e.Issue ++ "/worklog".toList) = none →
        ∃ req, (PostWorklog net settings e.Issue e.Seconds startedISO).2 = [req] ∧
          req.method = "POST".toList ∧ req.body = payload ∧
          req.url = TrimSuffix settings.JiraBaseURL ['/'] ++ "/rest/api/".toList ++
            settings.APIVersion ++ "/issue/".toList ++ net.pathEscape e.Issue ++
            "/worklog".toList) := by
  have hpos : ∀ e ∈ entries, e.Issue ≠ [] ∧ 0 < e.Seconds := by
    rw [ParseTimeEntries_eq] at hp
    exact parseItems_entries_valid rt settings.CategoryAliases (splitItems entriesStr) []
      (by simp) entries (by rw [hp])
  have hm := main_eq rt clk net settings date entriesStr startedISO entries hd hp
  rw [postWorklogs_eq] at hm
  simp only [List.nil_append] at hm
  rw [hm]
  dsimp only
  refine ⟨rfl, rfl, rfl, ?_, ?_, ?_, ?_⟩
  · rw [filter_length_add, List.length_map]
  · split_ifs with hl
    · exact ⟨fun _ => List.ne_nil_of_length_pos hl, fun _ => rfl⟩
    · have hnil := List.length_eq_zero.1 (Nat.le_zero.1 (Nat.not_lt.1 hl))
      exact ⟨fun hc => absurd hc (by decide), fun hne => absurd hnil hne⟩
  · split_ifs with hl
    · exact ⟨fun hc => absurd hc (by decide), fun hnil => absurd hl (by rw [hnil]; decide)⟩
    · exact ⟨fun _ => List.length_eq_zero.1 (Nat.le_zero.1 (Nat.not_lt.1 hl)), fun _ => rfl⟩
  · intro e he
    obtain ⟨f1, f2, f3⟩ := PostWorklog_fields net settings e.Issue startedISO e.Seconds
    exact ⟨f1, f2, f3,
      PostWorklog_success_iff net settings e.Issue startedISO e.Seconds (hpos e he).2,
      fun payload hm hr =>
        PostWorklog_request net settings e.Issue startedISO e.Seconds (hpos e he).2 payload hm hr⟩

/-- Claim C11 on its example: of the two entries "meetings=1h;support=30m" the
first is answered 201 and the second 400, which gives one success, one failure
and exit code 1, with the two requests sent in the order of the entries. -/
theorem C11_submission_witness :
    (main exampleRuntime exampleClock mixedHttp exampleSettings "2024-03-01".toList
      "meetings=1h;support=30m".toList).successes =
      [⟨"PROJ-1".toList, 3600, true, 201, []⟩] ∧
    (main exampleRuntime exampleClock mixedHttp exampleSettings "2024-03-01".toList
      "meetings=1h;support=30m".toList).failures =
      [⟨"PROJ-2".toList, 1800, false, 400, "Bad Request".toList⟩] ∧
    (main exampleRuntime exampleClock mixedHttp exampleSettings "2024-03-01".toList
      "meetings=1h;support=30m".toList).exitCode = 1 ∧
    (main exampleRuntime exampleClock mixedHttp exampleSettings "2024-03-01".toList
      "meetings=1h;support=30m".toList).requests.map (fun r => r.url) =
      ["https://jira.example.com/rest/api/3/issue/PROJ-1/worklog".toList,
       "https://jira.example.com/rest/api/3/issue/PROJ-2/worklog".toList] :=
  ⟨(C11_submission exampleRuntime exampleClock mixedHttp exampleSettings "2024-03-01".toList
      "meetings=1h;support=30m".toList "2024-03-01T17:00:00.000+0000".toList
      [⟨"PROJ-1".toList, 3600⟩, ⟨"PROJ-2".toList, 1800⟩] (by decide) (by decide)).2.1.trans
      (by decide),
   (C11_submission exampleRuntime exampleClock mixedHttp exampleSettings "2024-03-01".toList
      "meetings=1h;support=30m".toList "2024-03-01T17:00:00.000+0000".toList
      [⟨"PROJ-1".toList, 3600⟩, ⟨"PROJ-2".toList, 1800⟩] (by decide) (by decide)).2.2.1.trans
      (by decide),
   (C11_submission exampleRuntime exampleClock mixedHttp exampleSettings "2024-03-01".toList
      "meetings=1h;support=30m".toList "2024-03-01T17:00:00.000+0000".toList
      [⟨"PROJ-1".toList, 3600⟩, ⟨"PROJ-2".toList, 1800⟩] (by decide) (by decide)).2.2.2.2.1.2
      (by decide),
   (congrArg (List.map fun r => r.url)
      (C11_submission exampleRuntime exampleClock mixedHttp exampleSettings "2024-03-01".toList
        "meetings=1h;support=30m".toList "2024-03-01T17:00:00.000+0000".toList
        [⟨"PROJ-1".toList, 3600⟩, ⟨"PROJ-2".toList, 1800⟩] (by decide) (by decide)).1).trans
      (by decide)⟩

end JiraWorklogger

namespace JiraWorklogger

/-! ## Items with an issue only -/

/-- The time value "0" is zero seconds. -/
theorem tts_zero (rt : Runtime) : ToTimeSpentSeconds rt ['0'] = (0, none) :=
  tts_float_exact rt _ ['0'] 0 rfl (by decide) (by decide) (by decide) (by decide)
    (by decide) (by decide) (by decide)

/-- The loop of strings.Fields over a text with no white space. -/
theorem fieldsLoop_no_space (s : Str) (hs : ∀ c ∈ s, isSpace c = false) :
    ∀ cur : Str, fieldsLoop cur s = if cur = [] ∧ s = [] then [] else [cur.reverse ++ s] := by
  induction s with
  | nil =>
    intro cur
    by_cases h : cur = [] <;> simp [fieldsLoop, h]
  | cons c cs ih =>
    intro cur
    have hc : isSpace c = false := hs c (List.mem_cons_self _ _)
    have hstep : fieldsLoop cur (c :: cs) = fieldsLoop (c :: cur) cs := by
      simp [fieldsLoop, hc]
    rw [hstep, ih (fun x hx => hs x (List.mem_cons_of_mem _ hx)) (c :: cur)]
    simp

/-- A non-empty text with no white space is one field. -/
theorem Fields_no_space (s : Str) (hne : s ≠ []) (hs : ∀ c ∈ s, isSpace c = false) :
    Fields s = [s] := by
  rw [Fields, fieldsLoop_no_space s hs]
  simp [hne]

/-- An item with no equals sign and no white space is an issue with the time
value "0". -/
theorem extractParts_issue_only (item : Str) (hne : item ≠ []) (heq : '=' ∉ item)
    (hs : ∀ c ∈ item, isSpace c = false) : extractParts item = some (item, ['0']) := by
  unfold extractParts
  rw [SplitN2, if_neg heq, Fields_no_space item hne hs]

/-- The second loop over items that are an issue only changes nothing. -/
theorem parseItems_issue_only (rt : Runtime) (aliases : AliasMap) (items : List Str)
    (h : ∀ item ∈ items, item ≠ [] ∧ '=' ∉ item ∧ ∀ c ∈ item, isSpace c = false) :
    ∀ entries, parseItems rt aliases items entries = (some entries, none) := by
  induction items with
  | nil => intro entries; rfl
  | cons item rest ih =>
    intro entries
    obtain ⟨h1, h2, h3⟩ := h item (List.mem_cons_self _ _)
    rw [parseItems_cons_drop rt aliases item rest entries item ['0'] 0
      (extractParts_issue_only item h1 h2 h3) (tts_zero rt) (le_refl 0)]
    exact ih (fun x hx => h x (List.mem_cons_of_mem _ hx)) entries

/-- Claim C12. An item (a trimmed, non-empty fragment) with no equals sign and no
white space is taken as an issue with the time value "0", whatever its text:
the second loop goes past it with the entries unchanged and no error, for every
alias map. So a raw string all of whose items are of this kind yields an empty
list of entries and no error. -/
theorem C12_issue_only (rt : Runtime) (aliases : AliasMap) :
    (∀ (item : Str) (rest : List Str) (entries : List TimeEntry), item ≠ [] → '=' ∉ item →
      (∀ c ∈ item, isSpace c = false) →
      extractParts item = some (item, ['0']) ∧
      parseItems rt aliases (item :: rest) entries = parseItems rt aliases rest entries) ∧
    (∀ raw : Str,
      (∀ item ∈ splitItems raw, '=' ∉ item ∧ ∀ c ∈ item, isSpace c = false) →
      ParseTimeEntries rt raw aliases = (some [], none)) ∧
    ParseTimeEntries rt "PROJ-9".toList aliases = (some [], none) ∧
    ParseTimeEntries rt "PROJ-9:".toList aliases = (some [], none) ∧
    ParseTimeEntries rt "1h".toList aliases = (some [], none) ∧
    ParseTimeEntries rt "garbage".toList aliases = (some [], none) ∧
    ParseTimeEntries rt "PROJ-9;PROJ-9:\n1h; garbage ".toList aliases = (some [], none) := by
  have hitems : ∀ raw : Str, ∀ item ∈ splitItems raw, item ≠ [] := by
    intro raw item hi
    simp only [splitItems, List.mem_flatMap, List.mem_filter, List.mem_map,
      decide_eq_true_eq] at hi
    obtain ⟨_, _, _, hne⟩ := hi
    exact hne
  have hraw : ∀ raw : Str,
      (∀ item ∈ splitItems raw, '=' ∉ item ∧ ∀ c ∈ item, isSpace c = false) →
      ParseTimeEntries rt raw aliases = (some [], none) := by
    intro raw h
    rw [ParseTimeEntries_eq]
    exact parseItems_issue_only rt aliases (splitItems raw)
      (fun item hi => ⟨hitems raw item hi, h item hi⟩) []
  refine ⟨?_, hraw, ?_, ?_, ?_, ?_, ?_⟩
  · intro item rest entries h1 h2 h3
    have hx := extractParts_issue_only item h1 h2 h3
    exact ⟨hx, parseItems_cons_drop rt aliases item rest entries item ['0'] 0 hx (tts_zero rt)
      (le_refl 0)⟩
  · exact hraw _ (by decide)
  · exact hraw _ (by decide)
  · exact hraw _ (by decide)
  · exact hraw _ (by decide)
  · exact hraw _ (by decide)

end JiraWorklogger

namespace JiraWorklogger

/-! ## The trailing colon of an issue -/

/-- One colon at the end is taken off. -/
theorem TrimSuffix_colon_append (t : Str) : TrimSuffix (t ++ [':']) [':'] = t := by
  unfold TrimSuffix
  rw [if_pos (List.isSuffixOf_iff_suffix.2 ⟨t, rfl⟩)]
  simp

/-- A text that does not end with a colon is left as it is. -/
theorem TrimSuffix_colon_of_not (s : Str) (h : ¬ ∃ t, s = t ++ [':']) :
    TrimSuffix s [':'] = s := by
  unfold TrimSuffix
  rw [if_neg]
  intro hs
  obtain ⟨t, ht⟩ := List.isSuffixOf_iff_suffix.1 hs
  exact h ⟨t, ht.symm⟩

/-- What is left still ends with a colon exactly when the text ended with two. -/
theorem TrimSuffix_colon_ends (s : Str) :
    (∃ u, TrimSuffix s [':'] = u ++ [':']) ↔ ∃ u, s = u ++ [':', ':'] := by
  by_cases h : ∃ t, s = t ++ [':']
  · obtain ⟨t, rfl⟩ := h
    rw [TrimSuffix_colon_append]
    constructor
    · rintro ⟨u, rfl⟩
      exact ⟨u, by simp⟩
    · rintro ⟨u, hu⟩
      refine ⟨u, ?_⟩
      have hu2 : t ++ [':'] = (u ++ [':']) ++ [':'] := by simpa using hu
      exact List.append_cancel_right hu2
  · rw [TrimSuffix_colon_of_not s h]
    constructor
    · intro hc
      exact absurd hc h
    · rintro ⟨u, hu⟩
      exact absurd ⟨u ++ [':'], by simpa using hu⟩ h

/-- The step of the second loop depends on the issue token through the token
without its last colon only. -/
theorem parseItems_cons_same (rt : Runtime) (aliases : AliasMap) (item1 item2 : Str)
    (rest : List Str) (entries : List TimeEntry) (tok1 tok2 tv : Str)
    (hx1 : extractParts item1 = some (tok1, tv)) (hx2 : extractParts item2 = some (tok2, tv))
    (htok : TrimSuffix tok2 [':'] = TrimSuffix tok1 [':'])
    (hok : (ToTimeSpentSeconds rt tv).2 = none) :
    parseItems rt aliases (item2 :: rest) entries =
      parseItems rt aliases (item1 :: rest) entries := by
  have ht : ToTimeSpentSeconds rt tv = ((ToTimeSpentSeconds rt tv).1, none) := by
    rw [← hok]
  rw [parseItems_cons_ok rt aliases item1 rest entries tok1 tv _ hx1 ht,
    parseItems_cons_ok rt aliases item2 rest entries tok2 tv _ hx2 ht, htok]

/-- Claim C13, amended. ParseTimeEntries takes one trailing colon, and only one,
off the issue token before the alias lookup and before using it as the issue.
Take an item with issue token `tok` and a duration of `secs > 0` seconds. The
stripped token is `tok` without its last character when that is a colon, and
`tok` otherwise. When the lower-cased stripped token is not a key and the
stripped token is not empty, the entry appended has the stripped token as its
Issue, and that Issue ends with a colon exactly when `tok` ended with two
colons. When it is a key with a non-empty value, the entry has that value. An
item whose token is `tok` followed by one colon, where `tok` does not end with a
colon, gives the same result as the item with `tok`. -/
theorem C13_one_colon (rt : Runtime) (aliases : AliasMap) (item : Str) (rest : List Str)
    (entries : List TimeEntry) (tok tv : Str) (secs : Int)
    (hx : extractParts item = some (tok, tv)) (ht : ToTimeSpentSeconds rt tv = (secs, none))
    (hpos : 0 < secs) :
    (∀ t, tok = t ++ [':'] → TrimSuffix tok [':'] = t) ∧
    ((¬ ∃ t, tok = t ++ [':']) → TrimSuffix tok [':'] = tok) ∧
    (aliases (ToLower rt (TrimSuffix tok [':'])) = none → TrimSuffix tok [':'] ≠ [] →
      parseItems rt aliases (item :: rest) entries =
        parseItems rt aliases rest (entries ++ [⟨TrimSuffix tok [':'], secs⟩]) ∧
      ((∃ u, TrimSuffix tok [':'] = u ++ [':']) ↔ ∃ u, tok = u ++ [':', ':'])) ∧
    (∀ v, aliases (ToLower rt (TrimSuffix tok [':'])) = some v → v ≠ [] →
      parseItems rt aliases (item :: rest) entries =
        parseItems rt aliases rest (entries ++ [⟨v, secs⟩])) ∧
    (∀ item2, extractParts item2 = some (tok ++ [':'], tv) → (¬ ∃ t, tok = t ++ [':']) →
      parseItems rt aliases (item2 :: rest) entries =
        parseItems rt aliases (item :: rest) entries) := by
  have hstep := parseItems_cons_ok rt aliases item rest entries tok tv secs hx ht
  refine ⟨?_, TrimSuffix_colon_of_not tok, ?_, ?_, ?_⟩
  · rintro t rfl
    exact TrimSuffix_colon_append t
  · intro hnone hne
    refine ⟨?_, TrimSuffix_colon_ends tok⟩
    rw [hstep, hnone, Option.getD_none, if_pos ⟨hne, hpos⟩]
  · intro v hsome hne
    rw [hstep, hsome, Option.getD_some, if_pos ⟨hne, hpos⟩]
  · intro item2 hx2 hno
    apply parseItems_cons_same rt aliases item item2 rest entries tok (tok ++ [':']) tv hx hx2
    · rw [TrimSuffix_colon_append, TrimSuffix_colon_of_not tok hno]
    · rw [ht]

/-- Claim C13 on its examples: "PROJ-9: 1h" and "PROJ-9:=1h" yield the entry
PROJ-9 with 3600 seconds, and "meetings:=1h" resolves like "meetings=1h". -/
theorem C13_one_colon_witness :
    parseItems exampleRuntime (fun _ => none) ["PROJ-9: 1h".toList] [] =
      (some [⟨"PROJ-9".toList, 3600⟩], none) ∧
    parseItems exampleRuntime (fun _ => none) ["PROJ-9:=1h".toList] [] =
      (some [⟨"PROJ-9".toList, 3600⟩], none) ∧
    parseItems exampleRuntime exampleAliases ["meetings:=1h".toList] [] =
      parseItems exampleRuntime exampleAliases ["meetings=1h".toList] [] ∧
    parseItems exampleRuntime exampleAliases ["meetings=1h".toList] [] =
      (some [⟨"PROJ-1".toList, 3600⟩], none) ∧
    ParseTimeEntries exampleRuntime "PROJ-9: 1h".toList (fun _ => none) =
      (some [⟨"PROJ-9".toList, 3600⟩], none) ∧
    ParseTimeEntries exampleRuntime "meetings:=1h".toList exampleAliases =
      (some [⟨"PROJ-1".toList, 3600⟩], none) :=
  ⟨(((C13_one_colon exampleRuntime (fun _ => none) "PROJ-9: 1h".toList [] [] "PROJ-9:".toList
      "1h".toList 3600 (by decide) (by decide) (by decide)).2.2.1 (by decide) (by decide)).1).trans
      (by decide),
   (((C13_one_colon exampleRuntime (fun _ => none) "PROJ-9:=1h".toList [] [] "PROJ-9:".toList
      "1h".toList 3600 (by decide) (by decide) (by decide)).2.2.1 (by decide) (by decide)).1).trans
      (by decide),
   (C13_one_colon exampleRuntime exampleAliases "meetings=1h".toList [] [] "meetings".toList
      "1h".toList 3600 (by decide) (by decide) (by decide)).2.2.2.2 "meetings:=1h".toList
      (by decide) (by rintro ⟨t, ht⟩; exact absurd (congrArg List.getLast? ht) (by simp)),
   ((C13_one_colon exampleRuntime exampleAliases "meetings=1h".toList [] [] "meetings".toList
      "1h".toList 3600 (by decide) (by decide) (by decide)).2.2.2.1 "PROJ-1".toList (by decide)
      (by decide)).trans (by decide),
   by decide, by decide⟩

/-- Claim C13 as stated fails: of two trailing colons only one is taken off. The
token "PROJ-9::" is not an alias and the entry has the issue "PROJ-9:", which
ends with a colon; and "meetings::" is not resolved like the alias "meetings". -/
theorem C13_counterexample :
    ParseTimeEntries exampleRuntime "PROJ-9::=1h".toList (fun _ => none) =
      (some [⟨"PROJ-9:".toList, 3600⟩], none) ∧
    ParseTimeEntries exampleRuntime "meetings::=1h".toList exampleAliases =
      (some [⟨"meetings:".toList, 3600⟩], none) ∧
    ParseTimeEntries exampleRuntime "meetings=1h".toList exampleAliases =
      (some [⟨"PROJ-1".toList, 3600⟩], none) := by
  decide

end JiraWorklogger

namespace JiraWorklogger

/-! ## The recognition steps exclude each other -/

theorem matchInt_some (s g r : Str) (h : matchInt s = some (g, r)) :
    s = g ++ r ∧ ∀ c ∈ g, isDigit c = true := by
  unfold matchInt at h
  simp only at h
  split_ifs at h
  simp only [Option.some.injEq, Prod.mk.injEq] at h
  obtain ⟨rfl, rfl⟩ := h
  exact ⟨(List.takeWhile_append_dropWhile _ _).symm, fun c hc => List.mem_takeWhile_imp hc⟩

theorem matchNumber_some (s g r : Str) (h : matchNumber s = some (g, r)) : s = g ++ r := by
  unfold matchNumber at h
  simp only at h
  have hs := (List.takeWhile_append_dropWhile isDigit s).symm
  split_ifs at h
  split at h
  · rename_i r1 hr
    have hr1 := (List.takeWhile_append_dropWhile isDigit r1).symm
    split_ifs at h
    · simp only [Option.some.injEq, Prod.mk.injEq] at h
      obtain ⟨rfl, rfl⟩ := h
      exact hs
    · simp only [Option.some.injEq, Prod.mk.injEq] at h
      obtain ⟨rfl, rfl⟩ := h
      rw [List.append_assoc, List.cons_append, ← hr1, ← hr]
      exact hs
  · simp only [Option.some.injEq, Prod.mk.injEq] at h
    obtain ⟨rfl, rfl⟩ := h
    exact hs

/-- What is left after the white space of `\s*`. -/
theorem dropWhile_isReSpace_eq (r x : Str) (h : r.dropWhile isReSpace = x) :
    ∃ sp, r = sp ++ x ∧ ∀ c ∈ sp, isReSpace c = true := by
  subst h
  exact ⟨r.takeWhile isReSpace, (List.takeWhile_append_dropWhile _ _).symm,
    fun c hc => List.mem_takeWhile_imp hc⟩

/-- A match of the first expression has an `h` and ends with `m`. -/
theorem hoursAndMinutes_some (t : Str) (h : (hoursAndMinutes t).isSome = true) :
    'h' ∈ t ∧ ∃ p, t = p ++ ['m'] := by
  unfold hoursAndMinutes at h
  split at h
  · cases h
  · rename_i g1 r hn
    have e1 := matchNumber_some t g1 r hn
    split at h
    · rename_i r1 hr
      obtain ⟨sp1, e2, -⟩ := dropWhile_isReSpace_eq r _ hr
      split at h
      · cases h
      · rename_i g3 r2 hi
        obtain ⟨e3, -⟩ := matchInt_some _ g3 r2 hi
        obtain ⟨sp2, e3a, -⟩ := dropWhile_isReSpace_eq r1 _ e3
        split_ifs at h with hm
        · obtain ⟨sp3, e4, -⟩ := dropWhile_isReSpace_eq r2 _ hm
          constructor
          · rw [e1, e2]
            simp
          · refine ⟨g1 ++ (sp1 ++ 'h' :: (sp2 ++ (g3 ++ sp3))), ?_⟩
            rw [e1, e2, e3a, e4]
            simp
        · cases h
    · cases h

/-- A match of the second expression ends with `h`. -/
theorem hours_some (t : Str) (h : (hours t).isSome = true) : ∃ p, t = p ++ ['h'] := by
  unfold hours at h
  split at h
  · cases h
  · rename_i g1 r hn
    have e1 := matchNumber_some t g1 r hn
    split_ifs at h with hr
    · obtain ⟨sp, e2, -⟩ := dropWhile_isReSpace_eq r _ hr
      refine ⟨g1 ++ sp, ?_⟩
      rw [e1, e2]
      simp
    · cases h

/-- A match of the third expression has no `h` and ends with `m`. -/
theorem minutes_some (t : Str) (h : (minutes t).isSome = true) :
    'h' ∉ t ∧ ∃ p, t = p ++ ['m'] := by
  unfold minutes at h
  split at h
  · cases h
  · rename_i g1 r hn
    obtain ⟨e1, hd⟩ := matchInt_some t g1 r hn
    split_ifs at h with hr
    · obtain ⟨sp, e2, hsp⟩ := dropWhile_isReSpace_eq r _ hr
      constructor
      · rw [e1, e2]
        simp only [List.mem_append, List.mem_singleton, not_or]
        exact ⟨fun hc => absurd (hd _ hc) (by decide), fun hc => absurd (hsp _ hc) (by decide),
          by decide⟩
      · refine ⟨g1 ++ sp, ?_⟩
        rw [e1, e2]
        simp
    · cases h

/-- A match of the fourth expression has a colon, no `h` and no `m`. -/
theorem hoursMinutes_some (t : Str) (h : (hoursMinutes t).isSome = true) :
    'h' ∉ t ∧ 'm' ∉ t ∧ ':' ∈ t := by
  unfold hoursMinutes at h
  split at h
  · cases h
  · rename_i g1 r hn
    obtain ⟨e1, hd1⟩ := matchInt_some t g1 r hn
    split at h
    · rename_i r1
      split at h
      · rename_i g2 hi
        obtain ⟨e2, hd2⟩ := matchInt_some r1 g2 [] hi
        rw [e1, e2]
        simp only [List.append_nil, List.mem_append, List.mem_cons, not_or]
        refine ⟨⟨fun hc => absurd (hd1 _ hc) (by decide), by decide,
          fun hc => absurd (hd2 _ hc) (by decide)⟩,
          ⟨fun hc => absurd (hd1 _ hc) (by decide), by decide,
          fun hc => absurd (hd2 _ hc) (by decide)⟩, Or.inr (Or.inl trivial)⟩
      · cases h
    · cases h

theorem not_ends_both (t p q : Str) (a b : Char) (hab : a ≠ b) (h1 : t = p ++ [a])
    (h2 : t = q ++ [b]) : False := by
  have h := congrArg List.getLast? (h1.symm.trans h2)
  simp at h
  exact hab h

theorem mem_of_ends (t p : Str) (a : Char) (h : t = p ++ [a]) : a ∈ t := by
  rw [h]
  simp

/-- No text matches two of the four regular expressions, and a text that matches
one of them is rejected by strconv.ParseFloat. -/
theorem regex_exclusive (t : Str) :
    ¬ ((hoursAndMinutes t).isSome = true ∧ (hours t).isSome = true) ∧
    ¬ ((hoursAndMinutes t).isSome = true ∧ (minutes t).isSome = true) ∧
    ¬ ((hoursAndMinutes t).isSome = true ∧ (hoursMinutes t).isSome = true) ∧
    ¬ ((hours t).isSome = true ∧ (minutes t).isSome = true) ∧
    ¬ ((hours t).isSome = true ∧ (hoursMinutes t).isSome = true) ∧
    ¬ ((minutes t).isSome = true ∧ (hoursMinutes t).isSome = true) ∧
    ((hoursAndMinutes t).isSome = true → (ParseFloat t).2.isSome = true) ∧
    ((hours t).isSome = true → (ParseFloat t).2.isSome = true) ∧
    ((minutes t).isSome = true → (ParseFloat t).2.isSome = true) ∧
    ((hoursMinutes t).isSome = true → (ParseFloat t).2.isSome = true) := by
  refine ⟨?_, ?_, ?_, ?_, ?_, ?_, ?_, ?_, ?_, ?_⟩
  · rintro ⟨h1, h2⟩
    obtain ⟨-, p, hp⟩ := hoursAndMinutes_some t h1
    obtain ⟨q, hq⟩ := hours_some t h2
    exact not_ends_both t p q 'm' 'h' (by decide) hp hq
  · rintro ⟨h1, h3⟩
    exact (minutes_some t h3).1 (hoursAndMinutes_some t h1).1
  · rintro ⟨h1, h4⟩
    exact (hoursMinutes_some t h4).1 (hoursAndMinutes_some t h1).1
  · rintro ⟨h2, h3⟩
    obtain ⟨p, hp⟩ := hours_some t h2
    obtain ⟨-, q, hq⟩ := minutes_some t h3
    exact not_ends_both t p q 'h' 'm' (by decide) hp hq
  · rintro ⟨h2, h4⟩
    obtain ⟨p, hp⟩ := hours_some t h2
    exact (hoursMinutes_some t h4).1 (mem_of_ends t p 'h' hp)
  · rintro ⟨h3, h4⟩
    obtain ⟨-, p, hp⟩ := minutes_some t h3
    exact (hoursMinutes_some t h4).2.1 (mem_of_ends t p 'm' hp)
  · intro h1
    exact ParseFloat_rejects_marks t (Or.inl (hoursAndMinutes_some t h1).1)
  · intro h2
    obtain ⟨p, hp⟩ := hours_some t h2
    exact ParseFloat_rejects_marks t (Or.inl (mem_of_ends t p 'h' hp))
  · intro h3
    obtain ⟨-, p, hp⟩ := minutes_some t h3
    exact ParseFloat_rejects_marks t (Or.inr (Or.inl (mem_of_ends t p 'm' hp)))
  · intro h4
    exact ParseFloat_rejects_marks t (Or.inr (Or.inr (hoursMinutes_some t h4).2.2))

/-- What it takes for a step to recognise a token. -/
theorem recognise_isSome (rt : Runtime) (t : Str) :
    ((recognise rt Step.hoursAndMinutes t).isSome = true ↔
      (hoursAndMinutes t).isSome = true) ∧
    ((recognise rt Step.hours t).isSome = true ↔ (hours t).isSome = true) ∧
    ((recognise rt Step.minutes t).isSome = true ↔ (minutes t).isSome = true) ∧
    ((recognise rt Step.hoursMinutes t).isSome = true ↔ (hoursMinutes t).isSome = true) ∧
    ((recognise rt Step.number t).isSome = true ↔ ¬ (ParseFloat t).2.isSome = true) := by
  refine ⟨?_, ?_, ?_, ?_, ?_⟩
  · simp only [recognise, Option.isSome_map']
  · simp only [recognise, Option.isSome_map']
  · simp only [recognise, Option.isSome_map']
  · simp only [recognise, Option.isSome_map']
  · unfold recognise
    rcases hp : ParseFloat t with ⟨x, _ | e⟩
    · simp [hp]
    · simp [hp]

/-- At most one step recognises a token. -/
theorem recognise_unique (rt : Runtime) (t : Str) (a b : Step)
    (ha : (recognise rt a t).isSome = true) (hb : (recognise rt b t).isSome = true) : a = b := by
  obtain ⟨e12, e13, e14, e23, e24, e34, f1, f2, f3, f4⟩ := regex_exclusive t
  obtain ⟨n1, n2, n3, n4, n5⟩ := recognise_isSome rt t
  cases a
  · replace ha := n1.1 ha
    cases b
    · rfl
    · exact absurd ⟨ha, n2.1 hb⟩ e12
    · exact absurd ⟨ha, n3.1 hb⟩ e13
    · exact absurd ⟨ha, n4.1 hb⟩ e14
    · exact absurd (f1 ha) (n5.1 hb)
  · replace ha := n2.1 ha
    cases b
    · exact absurd ⟨n1.1 hb, ha⟩ e12
    · rfl
    · exact absurd ⟨ha, n3.1 hb⟩ e23
    · exact absurd ⟨ha, n4.1 hb⟩ e24
    · exact absurd (f2 ha) (n5.1 hb)
  · replace ha := n3.1 ha
    cases b
    · exact absurd ⟨n1.1 hb, ha⟩ e13
    · exact absurd ⟨n2.1 hb, ha⟩ e23
    · rfl
    · exact absurd ⟨ha, n4.1 hb⟩ e34
    · exact absurd (f3 ha) (n5.1 hb)
  · replace ha := n4.1 ha
    cases b
    · exact absurd ⟨n1.1 hb, ha⟩ e14
    · exact absurd ⟨n2.1 hb, ha⟩ e24
    · exact absurd ⟨n3.1 hb, ha⟩ e34
    · rfl
    · exact absurd (f4 ha) (n5.1 hb)
  · replace ha := n5.1 ha
    cases b
    · exact absurd (f1 (n1.1 hb)) ha
    · exact absurd (f2 (n2.1 hb)) ha
    · exact absurd (f3 (n3.1 hb)) ha
    · exact absurd (f4 (n4.1 hb)) ha
    · rfl

/-- The step that recognises the token decides the result, wherever it stands in
the order. -/
theorem trySteps_of_mem (rt : Runtime) (t : Str) (st : Step) (v : Int)
    (hv : recognise rt st t = some v) (order : List Step) (hmem : st ∈ order) :
    trySteps rt order t = (v, none) := by
  induction order with
  | nil => cases hmem
  | cons a rest ih =>
    unfold trySteps
    cases ha : recognise rt a t with
    | some w =>
      have hab : a = st := recognise_unique rt t a st (by rw [ha]; rfl) (by rw [hv]; rfl)
      subst hab
      rw [hv] at ha
      cases ha
      rfl
    | none =>
      simp only
      rcases List.mem_cons.1 hmem with h | h
      · subst h
        rw [hv] at ha
        cases ha
      · exact ih h

/-- When no step recognises the token the error is returned. -/
theorem trySteps_of_none (rt : Runtime) (t : Str) (order : List Step)
    (h : ∀ st ∈ order, recognise rt st t = none) :
    trySteps rt order t = (0, some ("unable to parse time: ".toList ++ t)) := by
  induction order with
  | nil => rfl
  | cons a rest ih =>
    unfold trySteps
    rw [h a (List.mem_cons_self _ _)]
    exact ih (fun st hst => h st (List.mem_cons_of_mem _ hst))

/-- Two orders that hold every step give the same result. -/
theorem trySteps_order (rt : Runtime) (t : Str) (o1 o2 : List Step) (h1 : ∀ st, st ∈ o1)
    (h2 : ∀ st, st ∈ o2) : trySteps rt o1 t = trySteps rt o2 t := by
  by_cases h : ∃ st, (recognise rt st t).isSome = true
  · obtain ⟨st, hst⟩ := h
    obtain ⟨v, hv⟩ := Option.isSome_iff_exists.1 hst
    rw [trySteps_of_mem rt t st v hv o1 (h1 st), trySteps_of_mem rt t st v hv o2 (h2 st)]
  · have hn : ∀ st, recognise rt st t = none := by
      intro st
      cases hs : recognise rt st t with
      | none => rfl
      | some v => exact absurd ⟨st, by rw [hs]; rfl⟩ h
    rw [trySteps_of_none rt t o1 (fun st _ => hn st), trySteps_of_none rt t o2 (fun st _ => hn st)]

/-- ToTimeSpentSeconds tries the steps in the order of the source. -/
theorem ToTimeSpentSeconds_sourceOrder (rt : Runtime) (s : Str) :
    ToTimeSpentSeconds rt s = ToTimeSpentSecondsInOrder rt sourceOrder s := by
  unfold ToTimeSpentSeconds ToTimeSpentSecondsInOrder sourceOrder
  simp only
  split_ifs with h0
  · rfl
  · simp only [trySteps, recognise]
    rcases h1 : hoursAndMinutes (TrimSpace (ToLower rt s)) with _ | ⟨g1, g3⟩
    · rcases h2 : hours (TrimSpace (ToLower rt s)) with _ | g
      · rcases h3 : minutes (TrimSpace (ToLower rt s)) with _ | g
        · rcases h4 : hoursMinutes (TrimSpace (ToLower rt s)) with _ | ⟨g1, g2⟩
          · rcases h5 : ParseFloat (TrimSpace (ToLower rt s)) with ⟨x, _ | e⟩
            · rfl
            · rfl
          · rfl
        · rfl
      · rfl
    · rfl

theorem mem_sourceOrder (st : Step) : st ∈ sourceOrder := by
  cases st <;> simp [sourceOrder]

/-- Claim C14. The five recognition steps of ToTimeSpentSeconds exclude each
other: no token matches two of the four regular expressions, a token that
matches one of them is rejected by the final strconv.ParseFloat, and so at most
one step recognises a token. ToTimeSpentSeconds is the conversion that tries the
steps in the order of the source, and the conversion that tries them in any
other order (a list that holds every step, in particular every permutation of
the five) returns the same result on every input. -/
theorem C14_steps_exclusive (rt : Runtime) (t s : Str) :
    ¬ ((hoursAndMinutes t).isSome = true ∧ (hours t).isSome = true) ∧
    ¬ ((hoursAndMinutes t).isSome = true ∧ (minutes t).isSome = true) ∧
    ¬ ((hoursAndMinutes t).isSome = true ∧ (hoursMinutes t).isSome = true) ∧
    ¬ ((hours t).isSome = true ∧ (minutes t).isSome = true) ∧
    ¬ ((hours t).isSome = true ∧ (hoursMinutes t).isSome = true) ∧
    ¬ ((minutes t).isSome = true ∧ (hoursMinutes t).isSome = true) ∧
    ((hoursAndMinutes t).isSome = true ∨ (hours t).isSome = true ∨ (minutes t).isSome = true ∨
      (hoursMinutes t).isSome = true → (ParseFloat t).2.isSome = true) ∧
    (∀ a b : Step, (recognise rt a t).isSome = true → (recognise rt b t).isSome = true →
      a = b) ∧
    ToTimeSpentSeconds rt s = ToTimeSpentSecondsInOrder rt sourceOrder s ∧
    (∀ order : List Step, (∀ st, st ∈ order) →
      ToTimeSpentSecondsInOrder rt order s = ToTimeSpentSeconds rt s) ∧
    (∀ order : List Step, order.Perm sourceOrder →
      ToTimeSpentSecondsInOrder rt order s = ToTimeSpentSeconds rt s) := by
  obtain ⟨e12, e13, e14, e23, e24, e34, f1, f2, f3, f4⟩ := regex_exclusive t
  have hall : ∀ order : List Step, (∀ st, st ∈ order) →
      ToTimeSpentSecondsInOrder rt order s = ToTimeSpentSeconds rt s := by
    intro order hmem
    rw [ToTimeSpentSeconds_sourceOrder]
    unfold ToTimeSpentSecondsInOrder
    simp only
    split_ifs
    · rfl
    · exact trySteps_order rt _ order sourceOrder hmem mem_sourceOrder
  refine ⟨e12, e13, e14, e23, e24, e34, ?_, recognise_unique rt t,
    ToTimeSpentSeconds_sourceOrder rt s, hall, ?_⟩
  · rintro (h | h | h | h)
    · exact f1 h
    · exact f2 h
    · exact f3 h
    · exact f4 h
  · intro order hperm
    exact hall order (fun st => hperm.mem_iff.2 (mem_sourceOrder st))

end JiraWorklogger

namespace JiraWorklogger

/-! ## All or nothing -/

/-- The step of the second loop at an item whose time value is rejected: the slice
is nil and the error names the item and carries the error of the conversion. -/
theorem parseItems_cons_error (rt : Runtime) (aliases : AliasMap) (item : Str) (rest : List Str)
    (entries : List TimeEntry) (issue0 tv err : Str) (v : Int)
    (hx : extractParts item = some (issue0, tv))
    (ht : ToTimeSpentSeconds rt tv = (v, some err)) :
    parseItems rt aliases (item :: rest) entries =
      (none, some ("failed to parse time for entry ".toList ++ item ++ ": ".toList ++ err)) := by
  simp only [parseItems, hx, ht]

theorem takeWhile_ne_append (a b : Str) (c : Char) (h : c ∉ a) :
    (a ++ c :: b).takeWhile (fun x => x ≠ c) = a ∧
    (a ++ c :: b).dropWhile (fun x => x ≠ c) = c :: b := by
  induction a with
  | nil => simp [List.takeWhile, List.dropWhile]
  | cons x xs ih =>
    have hx : x ≠ c := fun e => h (by rw [e]; exact List.mem_cons_self _ _)
    have ih2 := ih (fun hm => h (List.mem_cons_of_mem _ hm))
    have e1 : (x :: xs ++ c :: b).takeWhile (fun x => x ≠ c) =
        x :: (xs ++ c :: b).takeWhile (fun x => x ≠ c) := by
      simp [List.takeWhile, hx]
    have e2 : (x :: xs ++ c :: b).dropWhile (fun x => x ≠ c) =
        (xs ++ c :: b).dropWhile (fun x => x ≠ c) := by
      simp [List.dropWhile, hx]
    rw [e1, e2, ih2.1, ih2.2]
    exact ⟨rfl, rfl⟩

/-- An item of the form `issue=value` splits at its first equals sign. -/
theorem extractParts_equals (a b : Str) (h : '=' ∉ a) :
    extractParts (a ++ '=' :: b) = some (TrimSpace a, TrimSpace b) := by
  obtain ⟨h1, h2⟩ := takeWhile_ne_append a b '=' h
  unfold extractParts SplitN2
  rw [if_pos (by simp), h1, h2]
  rfl

/-- An item with no equals sign and two fields or more: the first two fields. -/
theorem extractParts_fields (item a b : Str) (more : List Str) (h : '=' ∉ item)
    (hf : Fields item = a :: b :: more) : extractParts item = some (a, b) := by
  unfold extractParts SplitN2
  rw [if_neg h, hf]

/-- Claim C1. ParseTimeEntries is all-or-nothing: it returns an error exactly
when some fragment (after splitting on newlines and semicolons, trimming and
dropping empties) has a duration token that ToTimeSpentSeconds rejects; with an
error the returned slice is nil, without one a slice is returned. The duration
token of a fragment `issue=value` is the trimmed text after its first equals
sign, and that of a fragment with no equals sign is its second field: a raw
string with such a fragment whose token is rejected fails. So
"PROJ-1=1h;PROJ-2=garbage" returns nil and the error of its second fragment,
although the first is valid, for every alias map. -/
theorem C1_all_or_nothing (rt : Runtime) (raw : Str) (aliases : AliasMap) :
    ((ParseTimeEntries rt raw aliases).2.isSome ↔
      ∃ item ∈ splitItems raw, ∃ issue tv, extractParts item = some (issue, tv) ∧
        (ToTimeSpentSeconds rt tv).2.isSome) ∧
    ((ParseTimeEntries rt raw aliases).2.isSome → (ParseTimeEntries rt raw aliases).1 = none) ∧
    ((ParseTimeEntries rt raw aliases).2 = none → (ParseTimeEntries rt raw aliases).1.isSome) ∧
    (∀ a b : Str, a ++ '=' :: b ∈ splitItems raw → '=' ∉ a →
      (ToTimeSpentSeconds rt (TrimSpace b)).2.isSome = true →
      (ParseTimeEntries rt raw aliases).1 = none ∧
        (ParseTimeEntries rt raw aliases).2.isSome = true) ∧
    (∀ (item a b : Str) (more : List Str), item ∈ splitItems raw → '=' ∉ item →
      Fields item = a :: b :: more → (ToTimeSpentSeconds rt b).2.isSome = true →
      (ParseTimeEntries rt raw aliases).1 = none ∧
        (ParseTimeEntries rt raw aliases).2.isSome = true) ∧
    ParseTimeEntries rt "PROJ-1=1h;PROJ-2=garbage".toList aliases =
      (none, some ("failed to parse time for entry PROJ-2=garbage: " ++
        "unable to parse time: garbage").toList) ∧
    ParseTimeEntries rt "PROJ-1 1h\nPROJ-2 1.5m".toList aliases =
      (none, some ("failed to parse time for entry PROJ-2 1.5m: " ++
        "unable to parse time: 1.5m").toList) ∧
    ParseTimeEntries rt "PROJ-1=1h;PROJ-2=0.5".toList (fun _ => none) =
      (some [⟨"PROJ-1".toList, 3600⟩, ⟨"PROJ-2".toList, 1800⟩], none) := by
  have hiff : (ParseTimeEntries rt raw aliases).2.isSome ↔
      ∃ item ∈ splitItems raw, ∃ issue tv, extractParts item = some (issue, tv) ∧
        (ToTimeSpentSeconds rt tv).2.isSome := by
    rw [ParseTimeEntries_eq]
    exact (parseItems_error_iff rt aliases (splitItems raw) []).1
  have hnil : (ParseTimeEntries rt raw aliases).2.isSome →
      (ParseTimeEntries rt raw aliases).1 = none := by
    rw [ParseTimeEntries_eq]
    exact (parseItems_error_iff rt aliases (splitItems raw) []).2.1
  have hsome : (ParseTimeEntries rt raw aliases).2 = none →
      (ParseTimeEntries rt raw aliases).1.isSome := by
    rw [ParseTimeEntries_eq]
    exact (parseItems_error_iff rt aliases (splitItems raw) []).2.2
  have t1 : ToTimeSpentSeconds rt "1h".toList = (3600, none) := by
    rw [tts_hours rt "1h".toList "1h".toList "1".toList rfl (by decide) (by decide) (by decide)]
    rw [floatToInt_of_exactInt rt _ 3600 (by decide)]
  have t2 : ToTimeSpentSeconds rt "0.5".toList = (1800, none) :=
    tts_float_exact rt _ "0.5".toList 1800 rfl (by decide) (by decide) (by decide) (by decide)
      (by decide) (by decide) (by decide)
  have tg : ToTimeSpentSeconds rt "garbage".toList =
      (0, some "unable to parse time: garbage".toList) :=
    tts_reject rt _ "garbage".toList rfl (by decide) (by decide) (by decide) (by decide)
      (by decide) (by decide)
  have tm : ToTimeSpentSeconds rt "1.5m".toList =
      (0, some "unable to parse time: 1.5m".toList) :=
    tts_reject rt _ "1.5m".toList rfl (by decide) (by decide) (by decide) (by decide)
      (by decide) (by decide)
  refine ⟨hiff, hnil, hsome, ?_, ?_, ?_, ?_, ?_⟩
  · intro a b hmem ha hrej
    have herr := hiff.2 ⟨_, hmem, _, _, extractParts_equals a b ha, hrej⟩
    exact ⟨hnil herr, herr⟩
  · intro item a b more hmem hne hf hrej
    have herr := hiff.2 ⟨_, hmem, _, _, extractParts_fields item a b more hne hf, hrej⟩
    exact ⟨hnil herr, herr⟩
  · have hs : splitItems "PROJ-1=1h;PROJ-2=garbage".toList =
        ["PROJ-1=1h".toList, "PROJ-2=garbage".toList] := by decide
    rw [ParseTimeEntries_eq, hs,
      parseItems_cons_ok rt aliases _ _ _ "PROJ-1".toList "1h".toList 3600 (by decide) t1,
      parseItems_cons_error rt aliases _ _ _ "PROJ-2".toList "garbage".toList _ 0 (by decide) tg]
    rfl
  · have hs : splitItems "PROJ-1 1h\nPROJ-2 1.5m".toList =
        ["PROJ-1 1h".toList, "PROJ-2 1.5m".toList] := by decide
    rw [ParseTimeEntries_eq, hs,
      parseItems_cons_ok rt aliases _ _ _ "PROJ-1".toList "1h".toList 3600 (by decide) t1,
      parseItems_cons_error rt aliases _ _ _ "PROJ-2".toList "1.5m".toList _ 0 (by decide) tm]
    rfl
  · have hs : splitItems "PROJ-1=1h;PROJ-2=0.5".toList =
        ["PROJ-1=1h".toList, "PROJ-2=0.5".toList] := by decide
    rw [ParseTimeEntries_eq, hs,
      parseItems_cons_ok rt _ _ _ _ "PROJ-1".toList "1h".toList 3600 (by decide) t1,
      parseItems_cons_ok rt _ _ _ _ "PROJ-2".toList "0.5".toList 1800 (by decide) t2]
    rfl

end JiraWorklogger

namespace JiraWorklogger

/-! ## The fields of any time -/

set_option maxHeartbeats 1000000 in
theorem absYearDay_arith (days : Int) :
    0 ≤ (absYearDay days).2 ∧
      ((absYearDay days).2 ≤ 364 ∨
        ((absYearDay days).2 = 365 ∧ (absYearDay days).1 % 4 = 0 ∧
          ((absYearDay days).1 % 100 ≠ 0 ∨ (absYearDay days).1 % 400 = 0))) := by
  simp only [absYearDay]
  generalize days / 146097 = a
  have hd0 : 0 ≤ days % 146097 := by omega
  have hd1 : days % 146097 < 146097 := by omega
  generalize days % 146097 = d at hd0 hd1
  have hb0 : 0 ≤ d / 36524 - d / 36524 / 4 ∧ d / 36524 - d / 36524 / 4 ≤ 3 := by omega
  have hd1r : 0 ≤ d - 36524 * (d / 36524 - d / 36524 / 4) ∧
      d - 36524 * (d / 36524 - d / 36524 / 4) ≤ 36524 ∧
      (d - 36524 * (d / 36524 - d / 36524 / 4) = 36524 → d / 36524 - d / 36524 / 4 = 3) := by
    omega
  generalize d / 36524 - d / 36524 / 4 = b at hb0 hd1r
  obtain ⟨h10, h11, h12⟩ := hd1r
  generalize d - 36524 * b = d1 at h10 h11 h12
  have hc : 0 ≤ d1 / 1461 ∧ d1 / 1461 ≤ 24 := by omega
  have hd2 : 0 ≤ d1 - 1461 * (d1 / 1461) ∧ d1 - 1461 * (d1 / 1461) ≤ 1460 ∧
      (d1 / 1461 = 24 → d1 - 1461 * (d1 / 1461) = 1460 → b = 3) := by omega
  generalize d1 / 1461 = c at hc hd2
  obtain ⟨h20, h21, h22⟩ := hd2
  generalize d1 - 1461 * c = d2 at h20 h21 h22
  have he : 0 ≤ d2 / 365 - d2 / 365 / 4 ∧ d2 / 365 - d2 / 365 / 4 ≤ 3 := by omega
  have hyd : 0 ≤ d2 - 365 * (d2 / 365 - d2 / 365 / 4) ∧
      d2 - 365 * (d2 / 365 - d2 / 365 / 4) ≤ 365 ∧
      (d2 - 365 * (d2 / 365 - d2 / 365 / 4) = 365 →
        d2 = 1460 ∧ d2 / 365 - d2 / 365 / 4 = 3) := by omega
  generalize d2 / 365 - d2 / 365 / 4 = e at he hyd
  obtain ⟨h30, h31, h32⟩ := hyd
  generalize d2 - 365 * e = yd at h30 h31 h32
  refine ⟨h30, ?_⟩
  by_cases h365 : yd = 365
  · obtain ⟨h4, h5⟩ := h32 h365
    right
    subst h5
    refine ⟨h365, by omega, ?_⟩
    by_cases hc24 : c = 24
    · right
      have := h22 hc24 h4
      omega
    · left
      omega
  · left
    omega

/-- The day of the year that time.absDate computes lies in the year: it is below
365, or 365 in a leap year. -/
theorem absYearDay_range (days : Int) :
    0 ≤ (absYearDay days).2 ∧
      (absYearDay days).2 < 365 + (if isLeap (absYearDay days).1 then 1 else 0) := by
  obtain ⟨h0, h1⟩ := absYearDay_arith days
  refine ⟨h0, ?_⟩
  rcases h1 with h | ⟨h, hl⟩
  · split_ifs <;> omega
  · rw [if_pos ((isLeap_iff _).2 hl)]
    omega

/-- The month and the day that time.absDate computes are a month of the year and
a day of a month. -/
theorem absDate_range (days : Int) :
    1 ≤ (absDate days).2.1 ∧ (absDate days).2.1 ≤ 12 ∧
      1 ≤ (absDate days).2.2 ∧ (absDate days).2.2 ≤ 31 := by
  obtain ⟨v0, v1, v2, v3, v4, v5, v6, v7, v8, v9, v10, v11, v12⟩ := daysBefore_values
  obtain ⟨h0, h1⟩ := absYearDay_range days
  unfold absDate
  simp only
  generalize (absYearDay days).1 = y at h1
  generalize (absYearDay days).2 = yd at h0 h1
  by_cases h29 : isLeap y = true ∧ yd = 59
  · rw [if_pos h29]
    simp
  · rw [if_neg h29]
    have hday : 0 ≤ (if isLeap y = true ∧ 59 < yd then yd - 1 else yd) ∧
        (if isLeap y = true ∧ 59 < yd then yd - 1 else yd) ≤ 364 := by
      by_cases hl : isLeap y = true
      · rw [if_pos hl] at h1
        by_cases h59 : 59 < yd
        · rw [if_pos ⟨hl, h59⟩]
          omega
        · rw [if_neg (fun hc => h59 hc.2)]
          omega
      · rw [if_neg hl] at h1
        rw [if_neg (fun hc => hl hc.1)]
        omega
    generalize (if isLeap y = true ∧ 59 < yd then yd - 1 else yd) = day at hday
    have hm : 0 ≤ day / 31 ∧ day / 31 ≤ 11 := by omega
    have hdm : 31 * (day / 31) ≤ day ∧ day < 31 * (day / 31) + 31 := by omega
    generalize day / 31 = m at hm hdm
    obtain ⟨hm0, hm11⟩ := hm
    interval_cases m <;>
      simp only [Int.reduceAdd, v0, v1, v2, v3, v4, v5, v6, v7, v8, v9, v10, v11, v12] <;>
      split_ifs <;> simp only <;> omega

end JiraWorklogger

namespace JiraWorklogger

/-! ## The shape of a formatted time -/

/-- A number below 100 written with two digits: two digit characters. -/
theorem appendInt_two_digits (x : Int) (h0 : 0 ≤ x) (h : x < 100) :
    ∃ a b : Char, isDigit a = true ∧ isDigit b = true ∧ appendInt x 2 = [a, b] := by
  obtain ⟨n, rfl⟩ := Int.eq_ofNat_of_zero_le h0
  have hn : n < 100 := by omega
  exact ⟨_, _, isDigit_digitChar _ (by omega), isDigit_digitChar _ (by omega),
    appendInt_two n hn⟩

/-- A number below 10000 written with four digits: four digit characters. -/
theorem appendInt_four_digits (x : Int) (h0 : 0 ≤ x) (h : x ≤ 9999) :
    ∃ a b c d : Char, isDigit a = true ∧ isDigit b = true ∧ isDigit c = true ∧
      isDigit d = true ∧ appendInt x 4 = [a, b, c, d] := by
  obtain ⟨n, rfl⟩ := Int.eq_ofNat_of_zero_le h0
  have hn : n < 10000 := by omega
  exact ⟨_, _, _, _, isDigit_digitChar _ (by omega), isDigit_digitChar _ (by omega),
    isDigit_digitChar _ (by omega), isDigit_digitChar _ (by omega), appendInt_four n hn⟩

/-- A time whose year has four digits is written as four digits, two, two, `T`,
two, two and two digits, `.000` and the zone. -/
theorem Format_shape (t : Time) (hy0 : 0 ≤ t.Year) (hy : t.Year ≤ 9999) :
    ∃ y1 y2 y3 y4 m1 m2 d1 d2 h1 h2 i1 i2 s1 s2 : Char,
      (∀ c ∈ [y1, y2, y3, y4, m1, m2, d1, d2, h1, h2, i1, i2, s1, s2], isDigit c = true) ∧
      t.Format = [y1, y2, y3, y4, '-', m1, m2, '-', d1, d2, 'T', h1, h2, ':', i1, i2, ':',
        s1, s2, '.', '0', '0', '0'] ++ formatZone (t.loc t.unix).offset := by
  obtain ⟨hm1, hm12, hd1, hd31⟩ := absDate_range (t.abs / 86400)
  obtain ⟨y1, y2, y3, y4, gy1, gy2, gy3, gy4, ey⟩ := appendInt_four_digits t.Year hy0 hy
  obtain ⟨m1, m2, gm1, gm2, em⟩ := appendInt_two_digits t.Month
    (by unfold Time.Month; omega) (by unfold Time.Month; omega)
  obtain ⟨d1, d2, gd1, gd2, ed⟩ := appendInt_two_digits t.Day
    (by unfold Time.Day; omega) (by unfold Time.Day; omega)
  obtain ⟨h1, h2, gh1, gh2, eh⟩ := appendInt_two_digits t.Hour
    (by unfold Time.Hour; omega) (by unfold Time.Hour; omega)
  obtain ⟨i1, i2, gi1, gi2, ei⟩ := appendInt_two_digits t.Minute
    (by unfold Time.Minute; omega) (by unfold Time.Minute; omega)
  obtain ⟨s1, s2, gs1, gs2, es⟩ := appendInt_two_digits t.Second
    (by unfold Time.Second; omega) (by unfold Time.Second; omega)
  refine ⟨y1, y2, y3, y4, m1, m2, d1, d2, h1, h2, i1, i2, s1, s2, ?_, ?_⟩
  · intro c hc
    simp only [List.mem_cons, List.mem_singleton, List.not_mem_nil, or_false] at hc
    rcases hc with h | h | h | h | h | h | h | h | h | h | h | h | h | h <;> rw [h] <;>
      assumption
  · unfold Time.Format
    rw [ey, em, ed, eh, ei, es]
    rfl

/-! ## The instant time.Date settles on -/

/-- The instant of time.Date: the civil time read as UTC less the offset of the
zone found there, when that offset is zero or the instant lies in the validity
of that zone; less the offset looked up at that instant otherwise. -/
theorem Date_cases (y m d h mi : Int) (loc : Location) :
    ((loc (civilToUnix y m d h mi - (loc (civilToUnix y m d h mi)).offset)).offset =
        (loc (civilToUnix y m d h mi)).offset →
      Date y m d h mi loc =
        ⟨civilToUnix y m d h mi - (loc (civilToUnix y m d h mi)).offset, loc⟩) ∧
    ((loc (civilToUnix y m d h mi)).offset ≠ 0 →
      (civilToUnix y m d h mi - (loc (civilToUnix y m d h mi)).offset <
          (loc (civilToUnix y m d h mi)).start ∨
        (loc (civilToUnix y m d h mi)).stop ≤
          civilToUnix y m d h mi - (loc (civilToUnix y m d h mi)).offset) →
      Date y m d h mi loc =
        ⟨civilToUnix y m d h mi -
          (loc (civilToUnix y m d h mi - (loc (civilToUnix y m d h mi)).offset)).offset,
          loc⟩) := by
  generalize hw : civilToUnix y m d h mi = w
  constructor
  · intro hcond
    simp only [Date, hw]
    by_cases h0 : (loc w).offset = 0
    · simp [h0]
    · simp only [ne_eq, h0, not_false_eq_true, if_true, hcond, ite_self]
  · intro h0 hout
    simp only [Date, hw]
    rw [if_pos h0]
    simp only [if_pos hout]

end JiraWorklogger

namespace JiraWorklogger

/-! ## ISOStartForDate at a civil time that exists in the zone -/

/-- When time.Date returns the instant `w - o` for the civil time `w` read as UTC,
and the zone has the offset `o` at that instant, the timestamp shows the date,
the hour and the minute that were given, and the offset `o`. -/
theorem ISOStartForDate_at (clk : Clock) (dateStr tz : Str) (hour minute : Int)
    (hv : validDate dateStr = true) (hh0 : 0 ≤ hour) (hh : hour < 24) (hm0 : 0 ≤ minute)
    (hm : minute < 60) (loc : Location) (hloc : loc = resolvedLocation clk tz) (w o : Int)
    (hw : w = civilToUnix (dateYear dateStr) (dateMonth dateStr) (dateDay dateStr) hour minute)
    (hD : Date (dateYear dateStr) (dateMonth dateStr) (dateDay dateStr) hour minute loc =
      ⟨w - o, loc⟩)
    (ho : (loc (w - o)).offset = o) :
    ISOStartForDate clk dateStr hour minute tz =
      (dateStr ++ 'T' :: digitChar (hour.toNat / 10) :: digitChar (hour.toNat % 10) :: ':' ::
        digitChar (minute.toNat / 10) :: digitChar (minute.toNat % 10) :: ":00.000".toList ++
        formatZone o, none) := by
  have hne := validDate_ne_nil dateStr hv
  have hparse := (timeParse_valid dateStr).1 hv
  obtain ⟨y1, y2, y3, y4, m1, m2, d1, d2, rfl, hy1, hy2, hy3, hy4, hm1, hm2, hd1, hd2, h1, h2,
    h3, h4⟩ := (validDate_iff_shape dateStr).1 hv
  have eY : dateYear [y1, y2, y3, y4, '-', m1, m2, '-', d1, d2] = digitsVal [y1, y2, y3, y4] := rfl
  have eM : dateMonth [y1, y2, y3, y4, '-', m1, m2, '-', d1, d2] = digitsVal [m1, m2] := rfl
  have eD : dateDay [y1, y2, y3, y4, '-', m1, m2, '-', d1, d2] = digitsVal [d1, d2] := rfl
  rw [eY, eM, eD] at hparse hw hD
  have hdi := daysIn_eq_monthLength (digitsVal [y1, y2, y3, y4]) (digitsVal [m1, m2]) h1 h2
  have r1 : (1 : Int) ≤ (digitsVal [m1, m2] : Nat) := by omega
  have r2 : ((digitsVal [m1, m2] : Nat) : Int) ≤ 12 := by omega
  have r3 : (1 : Int) ≤ (digitsVal [d1, d2] : Nat) := by omega
  have r4 : ((digitsVal [d1, d2] : Nat) : Int) ≤
      daysIn (digitsVal [m1, m2] : Nat) (digitsVal [y1, y2, y3, y4] : Nat) := by
    rw [hdi]
    omega
  obtain ⟨fy, fm, fd⟩ := Date_utc_fields (digitsVal [y1, y2, y3, y4] : Nat)
    (digitsVal [m1, m2] : Nat) (digitsVal [d1, d2] : Nat) r1 r2 r3 r4
  have hp : ParseDate clk [y1, y2, y3, y4, '-', m1, m2, '-', d1, d2] = Except.ok
      (Date (digitsVal [y1, y2, y3, y4] : Nat) (digitsVal [m1, m2] : Nat)
        (digitsVal [d1, d2] : Nat) 0 0 utcLoc) := by
    unfold ParseDate
    rw [if_neg hne, hparse]
  rw [ISOStartForDate_ok clk _ tz hour minute _ loc hloc hp, fy, fm, fd, hD]
  have habs : (⟨w - o, loc⟩ : Time).abs =
      civilToUnix (digitsVal [y1, y2, y3, y4] : Nat) (digitsVal [m1, m2] : Nat)
        (digitsVal [d1, d2] : Nat) hour minute + unixEpochDays * 86400 := by
    simp only [Time.abs]
    rw [ho, ← hw]
    omega
  obtain ⟨gy, gm, gd, gh, gmi, gs⟩ := Time_fields _ (digitsVal [y1, y2, y3, y4] : Nat)
    (digitsVal [m1, m2] : Nat) (digitsVal [d1, d2] : Nat) hour minute r1 r2 r3 r4 hh0 hh hm0 hm
    habs
  unfold Time.Format
  rw [gy, gm, gd, gh, gmi, gs]
  simp only [ho]
  obtain ⟨hn, rfl⟩ := Int.eq_ofNat_of_zero_le hh0
  obtain ⟨mn, rfl⟩ := Int.eq_ofNat_of_zero_le hm0
  rw [appendInt_digitsVal_four y1 y2 y3 y4 hy1 hy2 hy3 hy4, appendInt_digitsVal_two m1 m2 hm1 hm2,
    appendInt_digitsVal_two d1 d2 hd1 hd2, appendInt_two hn (by omega),
    appendInt_two mn (by omega), show (0 : Int) = ((0 : Nat) : Int) from rfl,
    appendInt_two 0 (by omega)]
  simp only [Int.toNat_ofNat]
  rfl

/-- A valid date always gives a timestamp: that of the time built by time.Date. -/
theorem ISOStartForDate_format (clk : Clock) (dateStr tz : Str) (hour minute : Int)
    (hv : validDate dateStr = true) :
    ISOStartForDate clk dateStr hour minute tz =
      ((Date (dateYear dateStr) (dateMonth dateStr) (dateDay dateStr) hour minute
        (resolvedLocation clk tz)).Format, none) := by
  have hne := validDate_ne_nil dateStr hv
  have hparse := (timeParse_valid dateStr).1 hv
  obtain ⟨y1, y2, y3, y4, m1, m2, d1, d2, rfl, hy1, hy2, hy3, hy4, hm1, hm2, hd1, hd2, h1, h2,
    h3, h4⟩ := (validDate_iff_shape dateStr).1 hv
  have eY : dateYear [y1, y2, y3, y4, '-', m1, m2, '-', d1, d2] = digitsVal [y1, y2, y3, y4] := rfl
  have eM : dateMonth [y1, y2, y3, y4, '-', m1, m2, '-', d1, d2] = digitsVal [m1, m2] := rfl
  have eD : dateDay [y1, y2, y3, y4, '-', m1, m2, '-', d1, d2] = digitsVal [d1, d2] := rfl
  rw [eY, eM, eD] at hparse ⊢
  have hdi := daysIn_eq_monthLength (digitsVal [y1, y2, y3, y4]) (digitsVal [m1, m2]) h1 h2
  have r1 : (1 : Int) ≤ (digitsVal [m1, m2] : Nat) := by omega
  have r2 : ((digitsVal [m1, m2] : Nat) : Int) ≤ 12 := by omega
  have r3 : (1 : Int) ≤ (digitsVal [d1, d2] : Nat) := by omega
  have r4 : ((digitsVal [d1, d2] : Nat) : Int) ≤
      daysIn (digitsVal [m1, m2] : Nat) (digitsVal [y1, y2, y3, y4] : Nat) := by
    rw [hdi]
    omega
  obtain ⟨fy, fm, fd⟩ := Date_utc_fields (digitsVal [y1, y2, y3, y4] : Nat)
    (digitsVal [m1, m2] : Nat) (digitsVal [d1, d2] : Nat) r1 r2 r3 r4
  have hp : ParseDate clk [y1, y2, y3, y4, '-', m1, m2, '-', d1, d2] = Except.ok
      (Date (digitsVal [y1, y2, y3, y4] : Nat) (digitsVal [m1, m2] : Nat)
        (digitsVal [d1, d2] : Nat) 0 0 utcLoc) := by
    unfold ParseDate
    rw [if_neg hne, hparse]
  rw [ISOStartForDate_ok clk _ tz hour minute _ (resolvedLocation clk tz) rfl hp, fy, fm, fd]

end JiraWorklogger

namespace JiraWorklogger

theorem Date_loc (y m d h mi : Int) (loc : Location) : (Date y m d h mi loc).loc = loc := by
  simp only [Date]
  split_ifs <;> rfl

/-- Claim C9, amended. For a non-empty date string ISOStartForDate fails exactly
when the string is not a valid YYYY-MM-DD calendar date, and for an empty one it
does not fail when the clock shows a calendar date of the years 0 to 9999. For a
valid date string, an hour in 0..23, a minute in 0..59 and every timezone name,
a known one or not, it succeeds. Write `loc` for the resolved location and `w`
for the civil time read as UTC. When the civil time exists in the zone at the
offset the zone has at `w` (the zone has that offset again that many seconds
before `w`), or else, that instant lying outside the validity of the zone found
at `w`, at the offset the zone has at that instant, the string returned is the
date string, `T`, the hour and the minute with two digits each, `:00.000` and
that offset. In every case, when the year shown lies in 0..9999, the string is
four digits, `-`, two digits, `-`, two digits, `T`, two digits, `:`, two digits,
`:`, two digits, `.000` and the offset of the zone at the instant returned; an
offset below 100 hours is written as a sign and four digits. -/
theorem C9_iso_start (clk : Clock) (dateStr tz : Str) (hour minute : Int) :
    (dateStr ≠ [] →
      ((ISOStartForDate clk dateStr hour minute tz).2.isSome = true ↔
        validDate dateStr = false)) ∧
    (dateStr = [] → 0 ≤ clk.todayYear → clk.todayYear ≤ 9999 → 1 ≤ clk.todayMonth →
      clk.todayMonth ≤ 12 → 1 ≤ clk.todayDay →
      clk.todayDay ≤ daysIn clk.todayMonth clk.todayYear →
      (ISOStartForDate clk dateStr hour minute tz).2 = none) ∧
    (validDate dateStr = true → 0 ≤ hour → hour < 24 → 0 ≤ minute → minute < 60 →
      (ISOStartForDate clk dateStr hour minute tz).2 = none ∧
      ∀ (loc : Location) (w : Int), loc = resolvedLocation clk tz →
        w = civilToUnix (dateYear dateStr) (dateMonth dateStr) (dateDay dateStr) hour minute →
        ((loc (w - (loc w).offset)).offset = (loc w).offset →
          ISOStartForDate clk dateStr hour minute tz =
            (dateStr ++ 'T' :: digitChar (hour.toNat / 10) :: digitChar (hour.toNat % 10) ::
              ':' :: digitChar (minute.toNat / 10) :: digitChar (minute.toNat % 10) ::
              ":00.000".toList ++ formatZone (loc w).offset, none)) ∧
        ((loc w).offset ≠ 0 →
          (w - (loc w).offset < (loc w).start ∨ (loc w).stop ≤ w - (loc w).offset) →
          (loc (w - (loc (w - (loc w).offset)).offset)).offset =
            (loc (w - (loc w).offset)).offset →
          ISOStartForDate clk dateStr hour minute tz =
            (dateStr ++ 'T' :: digitChar (hour.toNat / 10) :: digitChar (hour.toNat % 10) ::
              ':' :: digitChar (minute.toNat / 10) :: digitChar (minute.toNat % 10) ::
              ":00.000".toList ++ formatZone (loc (w - (loc w).offset)).offset, none)) ∧
        (0 ≤ (Date (dateYear dateStr) (dateMonth dateStr) (dateDay dateStr) hour minute
            loc).Year →
          (Date (dateYear dateStr) (dateMonth dateStr) (dateDay dateStr) hour minute
            loc).Year ≤ 9999 →
          ∃ y1 y2 y3 y4 m1 m2 d1 d2 h1 h2 i1 i2 s1 s2 : Char,
            (∀ c ∈ [y1, y2, y3, y4, m1, m2, d1, d2, h1, h2, i1, i2, s1, s2],
              isDigit c = true) ∧
            ISOStartForDate clk dateStr hour minute tz =
              ([y1, y2, y3, y4, '-', m1, m2, '-', d1, d2, 'T', h1, h2, ':', i1, i2, ':',
                s1, s2, '.', '0', '0', '0'] ++
                formatZone (loc (Date (dateYear dateStr) (dateMonth dateStr)
                  (dateDay dateStr) hour minute loc).unix).offset, none)) ∧
        (∀ offset : Int, -360000 < offset → offset < 360000 →
          ∃ (sign : Char) (a b c d : Nat), (sign = '+' ∨ sign = '-') ∧ a < 10 ∧ b < 10 ∧
            c < 10 ∧ d < 10 ∧
            formatZone offset = [sign, digitChar a, digitChar b, digitChar c, digitChar d])) := by
  have hok : ∀ s : Str, validDate s = true → (ISOStartForDate clk s hour minute tz).2 = none := by
    intro s hv
    rw [ISOStartForDate_format clk s tz hour minute hv]
  refine ⟨fun hne => ISOStartForDate_error_iff clk dateStr tz hour minute hne, ?_, ?_⟩
  · intro he hy0 hy hm1 hm12 hd1 hd
    subst he
    rw [ISOStartForDate_empty]
    exact hok _ (DefaultDateStr_valid clk hy0 hy hm1 hm12 hd1 hd)
  · intro hv hh0 hh hm0 hm
    refine ⟨hok dateStr hv, ?_⟩
    intro loc w hloc hw
    obtain ⟨cA, cB⟩ := Date_cases (dateYear dateStr) (dateMonth dateStr) (dateDay dateStr)
      hour minute loc
    rw [← hw] at cA cB
    refine ⟨?_, ?_, ?_, fun offset h1 h2 => formatZone_shape offset h1 h2⟩
    · intro hcond
      exact ISOStartForDate_at clk dateStr tz hour minute hv hh0 hh hm0 hm loc hloc w _ hw
        (cA hcond) hcond
    · intro h0 hout hcond
      exact ISOStartForDate_at clk dateStr tz hour minute hv hh0 hh hm0 hm loc hloc w _ hw
        (cB h0 hout) hcond
    · intro hy0 hy
      obtain ⟨y1, y2, y3, y4, m1, m2, d1, d2, h1, h2, i1, i2, s1, s2, hdig, hfmt⟩ :=
        Format_shape _ hy0 hy
      rw [Date_loc] at hfmt
      refine ⟨y1, y2, y3, y4, m1, m2, d1, d2, h1, h2, i1, i2, s1, s2, hdig, ?_⟩
      rw [ISOStartForDate_format clk dateStr tz hour minute hv, ← hloc, hfmt]

/-- Claim C9 on examples: 2024-03-01 at 17:00 in Europe/London in winter and in
summer (one hour east), in Pacific/Auckland on the eve of a change of offset
(found by the second lookup of time.Date), in America/New_York (west of UTC),
in a zone the database does not know (the local zone, New York); the empty date
string; and a day that is not in the calendar. -/
theorem C9_iso_start_witness :
    ISOStartForDate exampleClock "2024-03-01".toList 17 0 "Europe/London".toList =
      ("2024-03-01T17:00:00.000+0000".toList, none) ∧
    ISOStartForDate zoneClock "2024-07-01".toList 17 0 "Europe/London".toList =
      ("2024-07-01T17:00:00.000+0100".toList, none) ∧
    ISOStartForDate zoneClock "2024-09-28".toList 17 0 "Pacific/Auckland".toList =
      ("2024-09-28T17:00:00.000+1200".toList, none) ∧
    ISOStartForDate zoneClock "2024-03-01".toList 17 0 "America/New_York".toList =
      ("2024-03-01T17:00:00.000-0500".toList, none) ∧
    ISOStartForDate zoneClock "2024-03-01".toList 17 0 "Not/AZone".toList =
      ("2024-03-01T17:00:00.000-0500".toList, none) ∧
    (ISOStartForDate zoneClock [] 17 0 "Europe/London".toList).2 = none ∧
    (ISOStartForDate exampleClock "2024-02-30".toList 17 0 "Europe/London".toList).2.isSome =
      true :=
  ⟨((((C9_iso_start exampleClock "2024-03-01".toList "Europe/London".toList 17 0).2.2
      (by decide) (by decide) (by decide) (by decide) (by decide)).2
      (resolvedLocation exampleClock "Europe/London".toList) 1709312400 rfl rfl).1
      (by decide)).trans (by decide),
   ((((C9_iso_start zoneClock "2024-07-01".toList "Europe/London".toList 17 0).2.2
      (by decide) (by decide) (by decide) (by decide) (by decide)).2
      (resolvedLocation zoneClock "Europe/London".toList) 1719853200 rfl rfl).1
      (by decide)).trans (by decide),
   ((((C9_iso_start zoneClock "2024-09-28".toList "Pacific/Auckland".toList 17 0).2.2
      (by decide) (by decide) (by decide) (by decide) (by decide)).2
      (resolvedLocation zoneClock "Pacific/Auckland".toList) 1727542800 rfl rfl).2.1
      (by decide) (by decide) (by decide)).trans (by decide),
   ((((C9_iso_start zoneClock "2024-03-01".toList "America/New_York".toList 17 0).2.2
      (by decide) (by decide) (by decide) (by decide) (by decide)).2
      (resolvedLocation zoneClock "America/New_York".toList) 1709312400 rfl rfl).1
      (by decide)).trans (by decide),
   ((((C9_iso_start zoneClock "2024-03-01".toList "Not/AZone".toList 17 0).2.2
      (by decide) (by decide) (by decide) (by decide) (by decide)).2
      (resolvedLocation zoneClock "Not/AZone".toList) 1709312400 rfl rfl).1
      (by decide)).trans (by decide),
   (C9_iso_start zoneClock [] "Europe/London".toList 17 0).2.1 rfl (by decide) (by decide)
      (by decide) (by decide) (by decide) (by decide),
   ((C9_iso_start exampleClock "2024-02-30".toList "Europe/London".toList 17 0).1
      (by decide)).2 (by decide)⟩

/-- Claim C9 as stated fails: 2024-03-31 is a valid date and 1:30 a valid time of
day, but clocks in Europe/London went from 01:00 to 02:00 that night, and the
timestamp returned shows 02:30. -/
theorem C9_counterexample :
    validDate "2024-03-31".toList = true ∧
    ISOStartForDate exampleClock "2024-03-31".toList 1 30 "Europe/London".toList =
      ("2024-03-31T02:30:00.000+0100".toList, none) := by
  decide


end JiraWorklogger
